import Mathlib

/-!
Stride: host-zone registration and utilities.

A shallow embedding of `msgServer.RegisterHostZone`
(`x/stakeibc/keeper/msg_server_register_host_zone.go`) together with the
keeper operations it calls, and of functions of `utils/utils.go`, followed by
theorems about their behaviour.

The handler is modelled as a pure function from the context before the call
to the context at the moment the handler returns, paired with what it
returns.  Collaborators whose code lies outside the repository (chain-id
resolution, the interchain-account controller) are parameters of the model.
-/

namespace Stride

/-! ## Errors -/

/-- Go `error` values that can flow through the handler. -/
inductive GoError
  /-- an error value produced by a collaborator outside this module -/
  | ext (msg : String)
  /-- `recordstypes.ErrEpochUnbondingRecordNotFound` -/
  | ErrEpochUnbondingRecordNotFound
  /-- `types.ErrInsufficientFunds` -/
  | ErrInsufficientFunds
  /-- `fmt.Errorf` without a wrapping verb: the rendered message -/
  | Errorf (msg : String)
  /-- `fmt.Errorf(head ++ "%w", inner)`: an error wrapping `inner` -/
  | ErrorfW (head : String) (inner : GoError)
  /-- `sdkerrors.Wrapf(base, msg)` -/
  | Wrapf (base : GoError) (msg : String)
  deriving DecidableEq, Repr

/-- The error obtained by `errors.Unwrap`, when there is one. -/
def GoError.unwrap : GoError → Option GoError
  | .ErrorfW _ inner => some inner
  | .Wrapf base _ => some base
  | _ => none

/-! ## Decimals (`sdk.Dec`) -/

/-- `sdk.Dec`: a fixed-point decimal, stored as an integer scaled by `10^18`. -/
structure Dec where
  i : Int
  deriving DecidableEq, Repr

/-- Number of decimal places of `sdk.Dec`. -/
def Precision : Nat := 18

/-- `sdk.NewDec(i)`: the decimal with integer value `i`. -/
def NewDec (i : Int) : Dec := ⟨i * 10 ^ Precision⟩

/-- The rational number a `Dec` stands for. -/
def Dec.toRat (d : Dec) : ℚ := (d.i : ℚ) / (10 ^ Precision : ℚ)

/-! ## Records -/

/-- `types.ICAAccountType`: the four custodial account roles. -/
inductive ICAAccountType
  | DELEGATION
  | FEE
  | WITHDRAWAL
  | REDEMPTION
  deriving DecidableEq, Repr

/-- `types.HostZone`, restricted to the fields the handler sets; every other
field of the Go struct keeps its zero value. -/
structure HostZone where
  ChainId : String
  ConnectionId : String
  Bech32Prefix : String
  IBCDenom : String
  HostDenom : String
  TransferChannelId : String
  RedemptionRate : Dec
  LastRedemptionRate : Dec
  UnbondingFrequency : Nat
  deriving DecidableEq, Repr

/-- `recordstypes.HostZoneUnbonding_Status`; only `BONDED` is named by the
handler, the remaining enum values are kept by their number. -/
inductive HostZoneUnbondingStatus
  | BONDED
  | other (code : Nat)
  deriving DecidableEq, Repr

/-- `recordstypes.HostZoneUnbonding`. -/
structure HostZoneUnbonding where
  Amount : Nat
  Denom : String
  HostZoneId : String
  Status : HostZoneUnbondingStatus
  deriving DecidableEq, Repr

/-- `recordstypes.EpochUnbondingRecord`. -/
structure EpochUnbondingRecord where
  Id : Nat
  HostZoneUnbondings : List HostZoneUnbonding
  deriving DecidableEq, Repr

/-- `types.MsgRegisterHostZone`. -/
structure MsgRegisterHostZone where
  ConnectionId : String
  Bech32Prefix : String
  HostDenom : String
  IbcDenom : String
  TransferChannelId : String
  UnbondingFrequency : Nat
  deriving DecidableEq, Repr

/-- Modelled from the spec: `types.MsgRegisterHostZoneResponse` (x/stakeibc/types,
not among the sources), the response `{chain_id, connection_id}` of the
inbound request.  The fields default to Go's zero value of a string, so that
`{}` is the empty struct literal `MsgRegisterHostZoneResponse{}`. -/
structure MsgRegisterHostZoneResponse where
  ChainId : String := ""
  ConnectionId : String := ""
  deriving DecidableEq, Repr

/-! ## Context -/

/-- One call of `ICAControllerKeeper.RegisterInterchainAccount`, with what it
returned (`none` is Go's `nil` error). -/
structure IcaCall where
  connectionId : String
  owner : String
  err : Option GoError
  deriving DecidableEq, Repr

/-- Logger levels used by the handler. -/
inductive LogLevel
  | Info
  | Error
  deriving DecidableEq, Repr

/-- A logger call: its level and the message or format string as written in
the source (formatted arguments are not rendered). -/
structure LogEntry where
  level : LogLevel
  msg : String
  deriving DecidableEq, Repr

/-- `sdk.Event`. -/
structure Event where
  ty : String
  attributes : List (String × String)
  deriving DecidableEq, Repr

/-- One call of `RecordsKeeper.SetHostZoneEpochUnbondingRecord`: its
arguments and the boolean it returned. -/
structure LedgerCall where
  epochNumber : Nat
  chainId : String
  hostZoneUnbonding : HostZoneUnbonding
  success : Bool
  deriving DecidableEq, Repr

/-- The part of `sdk.Context` the handler touches: the host-zone store, the
epoch-unbonding-record store (in creation order), and the observable effects
issued so far (account-creation requests, log lines, emitted events, and the
calls that insert an entry into an epoch record). -/
structure Ctx where
  hostZones : List HostZone
  epochUnbondingRecords : List EpochUnbondingRecord
  icaCalls : List IcaCall
  logs : List LogEntry
  events : List Event
  ledgerCalls : List LedgerCall
  deriving DecidableEq, Repr

/-- Collaborators of the handler whose code is outside the module.
`RegisterInterchainAccount` sees the calls made so far, so its answer may
depend on them. -/
structure Env where
  GetChainID : String → Except GoError String
  FormatICAAccountOwner : String → ICAAccountType → String
  RegisterInterchainAccount : List IcaCall → String → String → Option GoError

/-- What a Go call of the handler yields: a response with a `nil` error, a
non-`nil` error, or a run-time panic. -/
inductive Outcome
  | ok (resp : MsgRegisterHostZoneResponse)
  | error (err : GoError)
  | panic (what : String)
  deriving DecidableEq, Repr

/-! ## Keeper operations -/

/-- Modelled from the spec: `Keeper.GetHostZone` (x/stakeibc/keeper, not among
the sources), the registry's `Lookup(chain_id) -> (HostZone, found)`: a
pure read of the record keyed by `chain_id`. -/
def GetHostZone (ctx : Ctx) (chainId : String) : Option HostZone :=
  ctx.hostZones.find? (fun z => z.ChainId == chainId)

/-- Modelled from the spec: `Keeper.SetHostZone` (x/stakeibc/keeper, not among
the sources), the ledger store's write of a `HostZone` by `chain_id`: the
record under that key is replaced, or the record is added when the key is
new.  The call has no result in the handler. -/
def SetHostZone (ctx : Ctx) (zone : HostZone) : Ctx :=
  if ctx.hostZones.any (fun z => z.ChainId == zone.ChainId) then
    { ctx with hostZones :=
        ctx.hostZones.map (fun z => if z.ChainId == zone.ChainId then zone else z) }
  else
    { ctx with hostZones := ctx.hostZones ++ [zone] }

/-- Modelled from the spec: `RecordsKeeper.GetLatestEpochUnbondingRecord`
(x/records/keeper, not among the sources), the ledger's `LatestRecord() ->
(EpochUnbondingRecord, found)`: the most recently created epoch record, not
found when no epoch has ever been initialised. -/
def GetLatestEpochUnbondingRecord (ctx : Ctx) : Option EpochUnbondingRecord :=
  ctx.epochUnbondingRecords.getLast?

/-- Modelled from the spec: `RecordsKeeper.GetEpochUnbondingRecord`
(x/records/keeper, not among the sources): read of an
`EpochUnbondingRecord` by `epoch_id`. -/
def GetEpochUnbondingRecord (ctx : Ctx) (id : Nat) : Option EpochUnbondingRecord :=
  ctx.epochUnbondingRecords.find? (fun r => r.Id == id)

/-- Modelled from the spec: `RecordsKeeper.SetEpochUnbondingRecord`
(x/records/keeper, not among the sources), the ledger's `Persist(record)`:
writes the full record back, replacing the prior version for that id; a
record with a new id is the most recently created one. -/
def SetEpochUnbondingRecord (ctx : Ctx) (record : EpochUnbondingRecord) : Ctx :=
  if ctx.epochUnbondingRecords.any (fun r => r.Id == record.Id) then
    { ctx with epochUnbondingRecords :=
        ctx.epochUnbondingRecords.map (fun r => if r.Id == record.Id then record else r) }
  else
    { ctx with epochUnbondingRecords := ctx.epochUnbondingRecords ++ [record] }

/-- The ledger operation behind `SetHostZoneEpochUnbondingRecord`: the stores
after it and the boolean it returns. -/
def SetHostZoneEpochUnbondingRecord.insert (ctx : Ctx) (epochNumber : Nat) (chainId : String)
    (hostZoneUnbonding : HostZoneUnbonding) : Ctx × Bool :=
  match GetEpochUnbondingRecord ctx epochNumber with
  | none => (ctx, false)
  | some record =>
    if record.HostZoneUnbondings.any (fun u => u.HostZoneId == chainId) then
      (ctx, false)
    else
      (SetEpochUnbondingRecord ctx
        { record with HostZoneUnbondings := record.HostZoneUnbondings ++ [hostZoneUnbonding] },
       true)

/-- Modelled from the spec: `RecordsKeeper.SetHostZoneEpochUnbondingRecord`
(x/records/keeper, not among the sources), the ledger's
`InsertHostZoneEntry(epoch_id, host_zone_id, entry) -> bool`: inserts
`entry` into the epoch record `epoch_id`, keyed by `host_zone_id`; returns
`false` without mutation of the stores when an entry for that pair already
exists or when `epoch_id` references no record.  The call is recorded with its
arguments and its result. -/
def SetHostZoneEpochUnbondingRecord (ctx : Ctx) (epochNumber : Nat) (chainId : String)
    (hostZoneUnbonding : HostZoneUnbonding) : Ctx × Bool :=
  let set := SetHostZoneEpochUnbondingRecord.insert ctx epochNumber chainId hostZoneUnbonding
  ({ set.1 with
      ledgerCalls := set.1.ledgerCalls ++ [⟨epochNumber, chainId, hostZoneUnbonding, set.2⟩] },
    set.2)

/-- A logger call `k.Logger(ctx).Info(..)` / `.Error(..)`. -/
def Ctx.log (ctx : Ctx) (level : LogLevel) (msg : String) : Ctx :=
  { ctx with logs := ctx.logs ++ [⟨level, msg⟩] }

/-- `k.ICAControllerKeeper.RegisterInterchainAccount(ctx, connectionId, owner)`:
the request is issued (and recorded), and the collaborator's answer is
returned. -/
def RegisterInterchainAccount (env : Env) (ctx : Ctx) (connectionId owner : String) :
    Ctx × Option GoError :=
  let err := env.RegisterInterchainAccount ctx.icaCalls connectionId owner
  ({ ctx with icaCalls := ctx.icaCalls ++ [⟨connectionId, owner, err⟩] }, err)

/-! ## The handler -/

/-- Lines 74-107 of the handler: adding the new zone to the latest epoch
unbonding record.  At this point the handler's variable `err` (from the
chain-id resolution) is `nil`. -/
def RegisterHostZone.updateLedger (ctx : Ctx) (chainId : String) (zone : HostZone) :
    Ctx × Outcome :=
  let found := GetLatestEpochUnbondingRecord ctx
  let ctx := ctx.log .Info "DOGE-1"
  match found with
  | none =>
    let errMsg := "unable to add host zone to latest epoch unbonding record"
    let ctx := ctx.log .Error errMsg
    (ctx, .error (.Wrapf .ErrEpochUnbondingRecordNotFound errMsg))
  | some epochUnbondingRecord =>
    let ctx := ctx.log .Info "DOGE-2"
    let hostZoneUnbondings := epochUnbondingRecord.HostZoneUnbondings
    let ctx := ctx.log .Info "DOGE-3"
    let hostZoneUnbondings :=
      if hostZoneUnbondings.length = 0 then [] else hostZoneUnbondings
    let ctx := ctx.log .Info "DOGE-4"
    let hostZoneUnbonding : HostZoneUnbonding :=
      { Amount := 0
        Denom := zone.HostDenom
        HostZoneId := zone.ChainId
        Status := .BONDED }
    let set :=
      SetHostZoneEpochUnbondingRecord ctx epochUnbondingRecord.Id chainId hostZoneUnbonding
    let ctx := set.1
    let didSet := set.2
    if !didSet then
      let ctx := ctx.log .Error "Failed to set host zone epoch unbonding record %v"
      -- `err.Error()` is evaluated on the nil `err` before `Wrapf` is called
      (ctx, .panic "invalid memory address or nil pointer dereference")
    else
      let ctx := ctx.log .Info "about to add hostZoneUnbondings to epochUnbondingRecord %v"
      let epochUnbondingRecord :=
        { epochUnbondingRecord with HostZoneUnbondings := hostZoneUnbondings }
      let ctx := SetEpochUnbondingRecord ctx epochUnbondingRecord
      let ctx := ctx.log .Info "added host zone to latest epoch unbonding record %v"
      -- the handler returns here; the event emission written after this
      -- return statement is never executed
      (ctx, .ok {})

/-- Lines 31-42 of the handler: the `types.HostZone` literal it builds. -/
def RegisterHostZone.zone (chainId : String) (msg : MsgRegisterHostZone) : HostZone :=
  { ChainId := chainId
    ConnectionId := msg.ConnectionId
    Bech32Prefix := msg.Bech32Prefix
    IBCDenom := msg.IbcDenom
    HostDenom := msg.HostDenom
    TransferChannelId := msg.TransferChannelId
    -- Start exchange rate at 1 upon registration
    RedemptionRate := NewDec 1
    LastRedemptionRate := NewDec 1
    UnbondingFrequency := msg.UnbondingFrequency }

/-- `msgServer.RegisterHostZone`. -/
def RegisterHostZone (env : Env) (ctx : Ctx) (msg : MsgRegisterHostZone) : Ctx × Outcome :=
  match env.GetChainID msg.ConnectionId with
  | .error err => (ctx, .error (.ErrorfW "unable to obtain chain id: " err))
  | .ok chainId =>
    match GetHostZone ctx chainId with
    | some _ =>
      (ctx, .error (.Errorf
        ("invalid chain id, zone for \"" ++ chainId ++ "\" already registered")))
    | none =>
      let zone := RegisterHostZone.zone chainId msg
      let ctx := SetHostZone ctx zone
      let delegateAccount := env.FormatICAAccountOwner chainId .DELEGATION
      let call := RegisterInterchainAccount env ctx zone.ConnectionId delegateAccount
      let ctx := call.1
      match call.2 with
      | some err =>
        (ctx.log .Error "unable to register delegate account", .error err)
      | none =>
      let feeAccount := env.FormatICAAccountOwner chainId .FEE
      let call := RegisterInterchainAccount env ctx zone.ConnectionId feeAccount
      let ctx := call.1
      match call.2 with
      | some err =>
        (ctx.log .Error "unable to register fee account", .error err)
      | none =>
      let withdrawalAccount := env.FormatICAAccountOwner chainId .WITHDRAWAL
      let call := RegisterInterchainAccount env ctx zone.ConnectionId withdrawalAccount
      let ctx := call.1
      match call.2 with
      | some err =>
        (ctx.log .Error "unable to register withdrawal account", .error err)
      | none =>
      let redemptionAccount := env.FormatICAAccountOwner chainId .REDEMPTION
      let call := RegisterInterchainAccount env ctx zone.ConnectionId redemptionAccount
      let ctx := call.1
      match call.2 with
      | some err =>
        (ctx.log .Error "unable to register redemption account", .error err)
      | none =>
      RegisterHostZone.updateLedger ctx chainId zone

/-! ## Concrete inputs -/

/-- Names of the roles, used by the sample owner-label function. -/
def ICAAccountType.name : ICAAccountType → String
  | .DELEGATION => "DELEGATION"
  | .FEE => "FEE"
  | .WITHDRAWAL => "WITHDRAWAL"
  | .REDEMPTION => "REDEMPTION"

/-- A sample environment: `connection-0` leads to `cosmoshub-4`, every other
connection is unknown, and every account-creation request is accepted. -/
def sampleEnv : Env where
  GetChainID := fun connectionId =>
    if connectionId = "connection-0" then .ok "cosmoshub-4"
    else .error (.ext "connection not found")
  FormatICAAccountOwner := fun chainId role => chainId ++ "." ++ role.name
  RegisterInterchainAccount := fun _ _ _ => none

/-- The sample request of the spec's scenario. -/
def sampleMsg : MsgRegisterHostZone where
  ConnectionId := "connection-0"
  Bech32Prefix := "cosmos"
  HostDenom := "uatom"
  IbcDenom := "ibc/uatom"
  TransferChannelId := "channel-0"
  UnbondingFrequency := 3

/-- A context with no host zone and one, empty, epoch unbonding record. -/
def sampleCtx : Ctx where
  hostZones := []
  epochUnbondingRecords := [⟨0, []⟩]
  icaCalls := []
  logs := []
  events := []
  ledgerCalls := []

/-- A context in which no epoch has been initialised. -/
def noEpochCtx : Ctx where
  hostZones := []
  epochUnbondingRecords := []
  icaCalls := []
  logs := []
  events := []
  ledgerCalls := []

/-- A context whose latest epoch record already holds an entry for
`cosmoshub-4` although no such host zone is registered. -/
def conflictCtx : Ctx where
  hostZones := []
  epochUnbondingRecords := [⟨0, [⟨5, "uatom", "cosmoshub-4", .BONDED⟩]⟩]
  icaCalls := []
  logs := []
  events := []
  ledgerCalls := []

/-- The sample environment with a provisioner that rejects the third request
it sees. -/
def failThirdEnv : Env :=
  { sampleEnv with
    RegisterInterchainAccount := fun calls _ _ =>
      if calls.length = 2 then some (.ext "port already bound") else none }

/-! ## Specification vocabulary -/

/-- The roles whose requests precede the request for a role, in the order
`DELEGATION, FEE, WITHDRAWAL, REDEMPTION`. -/
def rolesBefore : ICAAccountType → List ICAAccountType
  | .DELEGATION => []
  | .FEE => [.DELEGATION]
  | .WITHDRAWAL => [.DELEGATION, .FEE]
  | .REDEMPTION => [.DELEGATION, .FEE, .WITHDRAWAL]

/-- The request for a role: the request's connection id with the owner label
derived from the chain id and the role. -/
def requestFor (env : Env) (msg : MsgRegisterHostZone) (chainId : String)
    (role : ICAAccountType) (err : Option GoError) : IcaCall :=
  ⟨msg.ConnectionId, env.FormatICAAccountOwner chainId role, err⟩

/-- Accepted requests for a list of roles, in order. -/
def acceptedRequests (env : Env) (msg : MsgRegisterHostZone) (chainId : String)
    (roles : List ICAAccountType) : List IcaCall :=
  roles.map (fun role => requestFor env msg chainId role none)

/-- The provisioner's answer to the request for a role, given that the
requests for all earlier roles were issued and accepted. -/
def answerFor (env : Env) (ctx : Ctx) (msg : MsgRegisterHostZone) (chainId : String)
    (role : ICAAccountType) : Option GoError :=
  env.RegisterInterchainAccount
    (ctx.icaCalls ++ acceptedRequests env msg chainId (rolesBefore role))
    msg.ConnectionId (env.FormatICAAccountOwner chainId role)

/-- The account-creation requests issued during a call: those recorded after
the ones already present before it. -/
def issuedRequests (env : Env) (ctx : Ctx) (msg : MsgRegisterHostZone) : List IcaCall :=
  (RegisterHostZone env ctx msg).1.icaCalls.drop ctx.icaCalls.length

/-- The placeholder entry for a newly registered zone. -/
def placeholder (chainId : String) (msg : MsgRegisterHostZone) : HostZoneUnbonding :=
  ⟨0, msg.HostDenom, chainId, .BONDED⟩

/-- The sample environment with a provisioner that rejects the first request
it sees, with the same error as `failThirdEnv`. -/
def failFirstEnv : Env :=
  { sampleEnv with
    RegisterInterchainAccount := fun calls _ _ =>
      if calls.length = 0 then some (.ext "port already bound") else none }

/-- A second environment: `connection-1` leads to `osmosis-1`. -/
def osmosisEnv : Env :=
  { sampleEnv with
    GetChainID := fun connectionId =>
      if connectionId = "connection-1" then .ok "osmosis-1"
      else .error (.ext "connection not found") }

/-- A request to register the zone behind `connection-1`. -/
def osmosisMsg : MsgRegisterHostZone where
  ConnectionId := "connection-1"
  Bech32Prefix := "osmo"
  HostDenom := "uosmo"
  IbcDenom := "ibc/uosmo"
  TransferChannelId := "channel-1"
  UnbondingFrequency := 1

/-- A context in which `osmosis-1` is registered, with rates that have moved
since, and whose epoch record holds its entry. -/
def osmosisCtx : Ctx where
  hostZones :=
    [{ ChainId := "osmosis-1", ConnectionId := "connection-1", Bech32Prefix := "osmo",
       IBCDenom := "ibc/uosmo", HostDenom := "uosmo", TransferChannelId := "channel-1",
       RedemptionRate := ⟨1050000000000000000⟩, LastRedemptionRate := NewDec 1,
       UnbondingFrequency := 1 }]
  epochUnbondingRecords := [⟨0, []⟩, ⟨1, [⟨7, "uosmo", "osmosis-1", .BONDED⟩]⟩]
  icaCalls := []
  logs := []
  events := []
  ledgerCalls := []

/-- Lines 99-107 of the handler: what follows the insertion call of line 98,
given what that call left and returned and the record read at line 77. -/
def RegisterHostZone.afterInsert (set : Ctx × Bool)
    (epochUnbondingRecord : EpochUnbondingRecord) : Ctx × Outcome :=
  if !set.2 then
    (set.1.log .Error "Failed to set host zone epoch unbonding record %v",
      .panic "invalid memory address or nil pointer dereference")
  else
    let hostZoneUnbondings :=
      if epochUnbondingRecord.HostZoneUnbondings.length = 0 then []
      else epochUnbondingRecord.HostZoneUnbondings
    let ctx := set.1.log .Info "about to add hostZoneUnbondings to epochUnbondingRecord %v"
    let ctx := SetEpochUnbondingRecord ctx
      { epochUnbondingRecord with HostZoneUnbondings := hostZoneUnbondings }
    (ctx.log .Info "added host zone to latest epoch unbonding record %v", .ok {})

/-- The message the handler logs when the request for a role fails (lines 50,
57, 64, 71). -/
def failureMessage : ICAAccountType → String
  | .DELEGATION => "unable to register delegate account"
  | .FEE => "unable to register fee account"
  | .WITHDRAWAL => "unable to register withdrawal account"
  | .REDEMPTION => "unable to register redemption account"

/-- The ledger invariant: every stored epoch unbonding record holds at most
one entry per `host_zone_id`. -/
def ledgerInvariant (ctx : Ctx) : Prop :=
  ∀ r ∈ ctx.epochUnbondingRecords, (r.HostZoneUnbondings.map (fun u => u.HostZoneId)).Nodup

instance (ctx : Ctx) : Decidable (ledgerInvariant ctx) := by
  unfold ledgerInvariant; infer_instance

/-! ## Utilities (`utils/utils.go`) -/

/-- Go's `int64` result of an arithmetic operation: the mathematical result
reduced to the two's-complement range. -/
def wrapInt64 (x : Int) : Int := (x + 2 ^ 63) % 2 ^ 64 - 2 ^ 63

/-- `sdk.Coin`: a denomination and an `sdk.Int` amount. -/
structure Coin where
  Denom : String
  Amount : Int
  deriving DecidableEq, Repr

/-- `sdk.Coins`. -/
abbrev Coins := List Coin

/-- `chopPrecisionAndRound` of `sdk.Dec`, on a non-negative integer: division
by `10^18` rounded half to even. -/
def chopPrecisionAndRoundNonneg (d : Int) : Int :=
  let quo := d / 10 ^ Precision
  let rem := d % 10 ^ Precision
  if rem = 0 then quo
  else if rem < 5 * 10 ^ (Precision - 1) then quo
  else if rem > 5 * 10 ^ (Precision - 1) then quo + 1
  else if quo % 2 = 0 then quo
  else quo + 1

/-- `chopPrecisionAndRound` of `sdk.Dec`: the sign is removed, the value
chopped and rounded, and the sign put back. -/
def chopPrecisionAndRound (d : Int) : Int :=
  if d < 0 then - chopPrecisionAndRoundNonneg (-d) else chopPrecisionAndRoundNonneg d

/-- `sdk.Int.ToDec`. -/
def ToDec (i : Int) : Dec := ⟨i * 10 ^ Precision⟩

/-- `sdk.Dec.Mul`: the product, rounded to 18 places.  This is the value the
library returns when its overflow test passes; the test itself is
`Dec.Mul.overflows`, and the library's panic when it fails is not part of this
function. -/
def Dec.Mul (d d2 : Dec) : Dec := ⟨chopPrecisionAndRound (d.i * d2.i)⟩

/-- `sdk.Dec.Quo`: the quotient, rounded to 18 places; `big.Int.Quo` truncates
toward zero and panics on a zero divisor. -/
def Dec.Quo (d d2 : Dec) : Except String Dec :=
  if d2.i = 0 then .error "division by zero"
  else .ok ⟨chopPrecisionAndRound (Int.tdiv (d.i * 10 ^ Precision * 10 ^ Precision) d2.i)⟩

/-- `sdk.Dec.RoundInt`: the decimal rounded to an integer, half to even. -/
def Dec.RoundInt (d : Dec) : Int := chopPrecisionAndRound d.i

/-- `sdk.NewCoin`: panics, with the error of `Coin.Validate`, when the
denomination is not valid or the amount is negative.  The denomination check
is a parameter. -/
def NewCoin (validDenom : String → Bool) (denom : String) (amount : Int) : Except String Coin :=
  if !validDenom denom then .error ("invalid denom: " ++ denom)
  else if amount < 0 then .error ("negative coin amount: " ++ toString amount)
  else .ok ⟨denom, amount⟩

/-- `utils.GetVestedCoinsAt`.  The three times are `int64` values; `.error` is
a run-time panic. -/
def GetVestedCoinsAt (validDenom : String → Bool) (vAt vStart vLength : Int)
    (vCoins : Coins) : Except String Coins :=
  let vEnd := wrapInt64 (vStart + vLength)
  if vAt ≤ vStart then
    .ok []
  else if vAt ≥ vEnd then
    .ok vCoins
  else
    -- calculate the vesting scalar
    match (NewDec (wrapInt64 (vAt - vStart))).Quo (NewDec vLength) with
    | .error e => .error e
    | .ok portion =>
      vCoins.mapM (fun ovc =>
        let vestedAmt := ((ToDec ovc.Amount).Mul portion).RoundInt
        NewCoin validDenom ovc.Denom vestedAmt)

/-- `utils.Insert`, on slices as lists (the value returned, not the aliasing
with the argument's backing array).  `.error` is the run-time panic of a slice
expression whose bounds are out of range. -/
def Insert {α : Type} (a : List α) (index : Int) (value : α) : Except String (List α) :=
  if (a.length : Int) = index then
    .ok (a ++ [value])
  else if index < 0 ∨ (a.length : Int) < index then
    .error "slice bounds out of range"
  else
    let a := a.take (index.toNat + 1) ++ a.drop index.toNat
    .ok (a.set index.toNat value)

/-- Whether an integer is an `int64` value. -/
def isInt64 (x : Int) : Prop := -2 ^ 63 ≤ x ∧ x < 2 ^ 63

/-! ## Address utilities (`utils/utils.go`) -/

/-- `sdkerrors.ErrInvalidAddress`, a sentinel error of the SDK. -/
def ErrInvalidAddress : GoError := .ext "invalid address"

/-- `sdkerrors.ErrUnknownAddress`, a sentinel error of the SDK. -/
def ErrUnknownAddress : GoError := .ext "unknown address"

/-- `errors.New(msg)`: an error that carries its message. -/
def errorsNew (msg : String) : GoError := .Errorf msg

/-- The keys of the `ADMINS` map, in the order of the source; each is mapped
to `true`. -/
def ADMINS : List (String × Bool) :=
  [("stride1k8c2m5cn322akk5wy8lpt87dd2f4yh9azg7jlh", true), -- F5
   ("stride10d07y265gmmuvt4z0w9aw880jnsr700jefnezl", true)] -- gov module

/-- Indexing a Go `map[string]bool`: the value stored under the key, or the
zero value `false` when the key is absent. -/
def mapLookup (m : List (String × Bool)) (key : String) : Bool :=
  match m.find? (fun kv => kv.1 == key) with
  | some kv => kv.2
  | none => false

/-- `utils.ValidateAdminAddress`; `none` is the `nil` error.  The second
component of `Wrapf` is the format string it is given. -/
def ValidateAdminAddress (address : String) : Option GoError :=
  if !mapLookup ADMINS address then
    some (.Wrapf ErrInvalidAddress ("invalid creator address (" ++ address ++ ")"))
  else
    none

/-- `errBech32EmptyAddress`. -/
def errBech32EmptyAddress : GoError :=
  errorsNew "decoding Bech32 address failed: must provide a non empty address"

/-- `utils.GetFromBech32`.  The decoder `bech32.DecodeAndConvert` of the SDK is
a parameter; bytes are numbers below 256.  `len(s) == 0` holds exactly for the
empty string. -/
def GetFromBech32 (DecodeAndConvert : String → Except GoError (String × List Nat))
    (bech32str pfx : String) : Except GoError (List Nat) :=
  if bech32str.length = 0 then
    .error errBech32EmptyAddress
  else
    match DecodeAndConvert bech32str with
    | .error err => .error err
    | .ok (hrp, bz) =>
      if hrp ≠ pfx then
        .error (.Errorf ("invalid Bech32 prefix; expected " ++ pfx ++ ", got " ++ hrp))
      else
        .ok bz

/-- `address.MaxAddrLen` of the SDK. -/
def MaxAddrLen : Nat := 255

/-- The local `verifier` closure of `VerifyAddressFormat`. -/
def VerifyAddressFormat.verifier (bz : List Nat) : Option GoError :=
  let n := bz.length
  if n = 20 then none
  else some (.Errorf ("incorrect address length " ++ toString n))

/-- `utils.VerifyAddressFormat`; `none` is the `nil` error. -/
def VerifyAddressFormat (bz : List Nat) : Option GoError :=
  if VerifyAddressFormat.verifier bz ≠ none then
    VerifyAddressFormat.verifier bz
  else if bz.length = 0 then
    some (.Wrapf ErrUnknownAddress "addresses cannot be empty")
  else if bz.length > MaxAddrLen then
    some (.Wrapf ErrUnknownAddress
      ("address max length is " ++ toString MaxAddrLen ++ ", got " ++ toString bz.length))
  else
    none

/-- `unicode.IsSpace`: the characters Go treats as white space. -/
def isSpace (c : Char) : Bool :=
  c.val.toNat ∈ [0x09, 0x0A, 0x0B, 0x0C, 0x0D, 0x20, 0x85, 0xA0, 0x1680, 0x2028, 0x2029,
    0x202F, 0x205F, 0x3000] || (0x2000 ≤ c.val.toNat && c.val.toNat ≤ 0x200A)

/-- `strings.TrimSpace`: the string without its leading and trailing white
space. -/
def TrimSpace (s : String) : String :=
  String.mk ((s.toList.dropWhile isSpace).reverse.dropWhile isSpace).reverse

/-- `utils.AccAddressFromBech32`.  On an error Go returns an empty or `nil`
address next to it. -/
def AccAddressFromBech32 (DecodeAndConvert : String → Except GoError (String × List Nat))
    (address bech32prefix : String) : Except GoError (List Nat) :=
  if (TrimSpace address).length = 0 then
    .error (errorsNew "empty address string is not allowed")
  else
    match GetFromBech32 DecodeAndConvert address bech32prefix with
    | .error err => .error err
    | .ok bz =>
      match VerifyAddressFormat bz with
      | some err => .error err
      | none => .ok bz

/-- A sample decoder: `cosmos1sample` decodes to twenty bytes, `cosmos1short`
to three, every other string fails to decode. -/
def sampleDecode (s : String) : Except GoError (String × List Nat) :=
  if s = "cosmos1sample" then .ok ("cosmos", List.replicate 20 7)
  else if s = "cosmos1short" then .ok ("cosmos", [1, 2, 3])
  else .error (.ext "decoding bech32 failed")

/-! ## The mint keeper's store (`x/mint/keeper/keeper.go`) -/

/-- A key-value store: the pairs it holds, at most one per key. -/
abbrev KVStore := List (List Nat × List Nat)

/-- `store.Get(key)`: the value under the key, `none` for Go's `nil`. -/
def KVStore.Get (store : KVStore) (key : List Nat) : Option (List Nat) :=
  (store.find? (fun kv => kv.1 == key)).map (fun kv => kv.2)

/-- `store.Set(key, value)`: the value under the key is replaced. -/
def KVStore.Set (store : KVStore) (key value : List Nat) : KVStore :=
  (key, value) :: store.filter (fun kv => kv.1 != key)

/-- `cast.ToUint64` on an `int64`: a negative value is refused by the
conversion, whose error is dropped, and gives 0. -/
def castToUint64 (i : Int) : Nat := if i < 0 then 0 else i.toNat

/-- `cast.ToInt64` on a `uint64`: the Go conversion `int64(s)`. -/
def castToInt64 (u : Nat) : Int := wrapInt64 u

/-- `sdk.Uint64ToBigEndian`: the eight bytes of a `uint64`, most significant
first. -/
def Uint64ToBigEndian (i : Nat) : List Nat :=
  [i / 2 ^ 56 % 256, i / 2 ^ 48 % 256, i / 2 ^ 40 % 256, i / 2 ^ 32 % 256,
   i / 2 ^ 24 % 256, i / 2 ^ 16 % 256, i / 2 ^ 8 % 256, i % 256]

/-- `sdk.BigEndianToUint64`: 0 for an empty slice, otherwise
`binary.BigEndian.Uint64`, which reads the first eight bytes and panics when
there are fewer. -/
def BigEndianToUint64 (bz : List Nat) : Except String Nat :=
  if bz.length = 0 then .ok 0
  else
    match bz with
    | b0 :: b1 :: b2 :: b3 :: b4 :: b5 :: b6 :: b7 :: _ =>
      .ok (b7 + b6 * 2 ^ 8 + b5 * 2 ^ 16 + b4 * 2 ^ 24 + b3 * 2 ^ 32 + b2 * 2 ^ 40 +
        b1 * 2 ^ 48 + b0 * 2 ^ 56)
    | _ => .error "index out of range"

/-- `Keeper.GetLastReductionEpochNum`; the key `types.LastReductionEpochKey`
is a parameter, `.error` is a run-time panic. -/
def GetLastReductionEpochNum (LastReductionEpochKey : List Nat) (store : KVStore) :
    Except String Int :=
  match store.Get LastReductionEpochKey with
  | none => .ok 0
  | some b =>
    match BigEndianToUint64 b with
    | .error e => .error e
    | .ok u => .ok (castToInt64 u)

/-- `Keeper.SetLastReductionEpochNum`. -/
def SetLastReductionEpochNum (LastReductionEpochKey : List Nat) (store : KVStore)
    (epochNum : Int) : KVStore :=
  store.Set LastReductionEpochKey (Uint64ToBigEndian (castToUint64 epochNum))

/-! ## Distribution of minted coins (`x/mint/keeper/keeper.go`) -/

/-- `sdk.Dec.TruncateInt`: the decimal truncated toward zero to an integer.
This is the value the library returns when its overflow test passes; the test
itself is `Dec.TruncateInt.overflows`, and the library's panic when it fails
is not part of this function. -/
def Dec.TruncateInt (d : Dec) : Int := Int.tdiv d.i (10 ^ Precision)

/-- `big.Int.BitLen`: the number of bits of the absolute value. -/
def BitLen (x : Int) : Nat := Nat.size x.natAbs

/-- Modelled from the SDK (`types/int.go`, not among the sources): `maxBitLen`,
the largest bit length of an `sdk.Int`.  It is 255 in the releases that have
`Int.ToDec`, which `GetProportions` calls, and not smaller in any release. -/
def maxBitLen : Nat := 255

/-- Modelled from the SDK (`types/decimal.go`, not among the sources):
`maxDecBitLen = maxBitLen + DecimalPrecisionBits`, the largest bit length of
the integer behind an `sdk.Dec`. -/
def maxDecBitLen : Nat := maxBitLen + 60

/-- Modelled from the SDK: the overflow test of `sdk.Dec.Mul`,
`chopped.BitLen() > maxDecBitLen`, on which the library panics with
`Int overflow`. -/
def Dec.Mul.overflows (d d2 : Dec) : Bool :=
  decide (BitLen (chopPrecisionAndRound (d.i * d2.i)) > maxDecBitLen)

/-- Modelled from the SDK: the overflow test of `NewIntFromBigInt`, which
`sdk.Dec.TruncateInt` calls on the truncated value, `i.BitLen() > maxBitLen`,
on which the library panics. -/
def Dec.TruncateInt.overflows (d : Dec) : Bool :=
  decide (BitLen (Int.tdiv d.i (10 ^ Precision)) > maxBitLen)

/-- `Keeper.GetProportions`; `.error` is the panic of `sdk.NewCoin`.  The
panics of `Mul` and `TruncateInt` on a result beyond the library's bit-length
bounds (`Dec.Mul.overflows`, `Dec.TruncateInt.overflows`) are not part of this
function. -/
def GetProportions (validDenom : String → Bool) (mintedCoin : Coin) (ratio : Dec) :
    Except String Coin :=
  NewCoin validDenom mintedCoin.Denom (((ToDec mintedCoin.Amount).Mul ratio).TruncateInt)

/-- `removeZeroCoins` of the SDK. -/
def removeZeroCoins (coins : Coins) : Coins := coins.filter (fun c => c.Amount ≠ 0)

/-- `sdk.NewCoins` applied to one coin, the way it is called here: a zero coin
is dropped, and what is left is validated (valid denomination, positive
amount), with a panic when it is not valid. -/
def NewCoins (validDenom : String → Bool) (coin : Coin) : Except String Coins :=
  if coin.Amount = 0 then .ok []
  else if !validDenom coin.Denom then .error ("invalid coin set: invalid denom: " ++ coin.Denom)
  else if coin.Amount < 0 then .error "invalid coin set: coin is not positive"
  else .ok [coin]

/-- The inner loop of `Coins.safeAdd`, for a first set `coinA :: restA`, over
the second set; `recA` adds `restA` to a set. -/
def Coins.safeAddGo (coinA : Coin) (restA : Coins) (recA : Coins → Coins) : Coins → Coins
  | [] => removeZeroCoins (coinA :: restA)
  | coinB :: restB =>
    match compare coinA.Denom coinB.Denom with
    | .lt => (if coinA.Amount ≠ 0 then [coinA] else []) ++ recA (coinB :: restB)
    | .eq =>
      (if coinA.Amount + coinB.Amount ≠ 0 then [⟨coinA.Denom, coinA.Amount + coinB.Amount⟩]
        else []) ++ recA restB
    | .gt => (if coinB.Amount ≠ 0 then [coinB] else []) ++
        Coins.safeAddGo coinA restA recA restB

/-- `Coins.safeAdd` of the SDK: the two sets, sorted by denomination, merged,
amounts of a common denomination added, zero amounts dropped. -/
def Coins.safeAdd : Coins → Coins → Coins
  | [] => fun coinsB => removeZeroCoins coinsB
  | coinA :: restA => fun coinsB =>
    Coins.safeAddGo coinA restA (Coins.safeAdd restA) coinsB

/-- `Coins.Sub` of the SDK: the difference of two sets, with a panic when an
amount of the difference is negative. -/
def Coins.Sub (coins coinsB : Coins) : Except String Coins :=
  let diff := coins.safeAdd (coinsB.map (fun c => ⟨c.Denom, -c.Amount⟩))
  if diff.any (fun c => c.Amount < 0) then .error "negative coin amount"
  else .ok diff

/-- `types.DistributionProportions`. -/
structure DistributionProportions where
  Staking : Dec
  StrategicReserve : Dec
  CommunityPoolGrowth : Dec
  CommunityPoolSecurityBudget : Dec
  deriving DecidableEq, Repr

/-- `types.Params`, restricted to the fields `DistributeMintedCoin` reads. -/
structure MintParams where
  DistributionProportions : DistributionProportions
  StrategicReserveAddress : String
  deriving DecidableEq, Repr

/-- Where a bank transfer out of the mint module goes: a module account, the
account `sdk.AccAddress(address)`, or the account
`k.GetSubmoduleAddress(name)`. -/
inductive Recipient
  | module (name : String)
  | account (address : String)
  | submodule (name : String)
  deriving DecidableEq, Repr

/-- A call of `SendCoinsFromModuleToModule` or `SendCoinsFromModuleToAccount`
with the mint module as sender. -/
structure Transfer where
  recipient : Recipient
  coins : Coins
  deriving DecidableEq, Repr

/-- What `DistributeMintedCoin` works with: the denomination check of the SDK,
the stored parameters, names fixed outside the function, and the bank keeper,
which sees the transfers made so far. -/
structure MintEnv where
  validDenom : String → Bool
  params : MintParams
  feeCollectorName : String
  CommunityGrowthSubmoduleName : String
  CommunitySecurityBudgetSubmoduleName : String
  send : List Transfer → Transfer → Option GoError

/-- How a call of `DistributeMintedCoin` ends: `nil`, an error, or a panic. -/
inductive MintOutcome
  | ok
  | error (err : GoError)
  | panic (what : String)
  deriving DecidableEq, Repr

/-- Lines 190-206 of `DistributeMintedCoin`: the sweep of the remaining coins,
after the four transfers `done`. -/
def DistributeMintedCoin.sweep (env : MintEnv) (mintedCoin : Coin) (done : List Transfer)
    (stakingIncentivesCoins strategicReserveCoins communityPoolGrowthCoins
      communityPoolSecurityBudgetCoins : Coins) : List Transfer × MintOutcome :=
  match (do
      let all ← NewCoins env.validDenom mintedCoin
      let r ← all.Sub stakingIncentivesCoins
      let r ← r.Sub strategicReserveCoins
      let r ← r.Sub communityPoolGrowthCoins
      r.Sub communityPoolSecurityBudgetCoins : Except String Coins) with
  | .error e => (done, .panic e)
  | .ok remainingCoins =>
    let t : Transfer := ⟨.submodule env.CommunityGrowthSubmoduleName, remainingCoins⟩
    match env.send done t with
    | some err => (done ++ [t], .error err)
    | none => (done ++ [t], .ok)

/-- `Keeper.DistributeMintedCoin`: the transfers it asks the bank keeper for,
in order, and how it ends.  Logger calls are left out. -/
def DistributeMintedCoin (env : MintEnv) (mintedCoin : Coin) : List Transfer × MintOutcome :=
  let proportions := env.params.DistributionProportions
  -- allocate staking incentives into fee collector account
  match (GetProportions env.validDenom mintedCoin proportions.Staking).bind
      (NewCoins env.validDenom) with
  | .error e => ([], .panic e)
  | .ok stakingIncentivesCoins =>
  let t1 : Transfer := ⟨.module env.feeCollectorName, stakingIncentivesCoins⟩
  match env.send [] t1 with
  | some err => ([t1], .error err)
  | none =>
  -- allocate pool allocation ratio to strategic reserve
  match (GetProportions env.validDenom mintedCoin proportions.StrategicReserve).bind
      (NewCoins env.validDenom) with
  | .error e => ([t1], .panic e)
  | .ok strategicReserveCoins =>
  let t2 : Transfer := ⟨.account env.params.StrategicReserveAddress, strategicReserveCoins⟩
  match env.send [t1] t2 with
  | some err => ([t1, t2], .error err)
  | none =>
  -- allocate pool allocation ratio to community growth pool
  match (GetProportions env.validDenom mintedCoin proportions.CommunityPoolGrowth).bind
      (NewCoins env.validDenom) with
  | .error e => ([t1, t2], .panic e)
  | .ok communityPoolGrowthCoins =>
  let t3 : Transfer := ⟨.submodule env.CommunityGrowthSubmoduleName, communityPoolGrowthCoins⟩
  match env.send [t1, t2] t3 with
  | some err => ([t1, t2, t3], .error err)
  | none =>
  -- allocate pool allocation ratio to security budget pool
  match (GetProportions env.validDenom mintedCoin proportions.CommunityPoolSecurityBudget).bind
      (NewCoins env.validDenom) with
  | .error e => ([t1, t2, t3], .panic e)
  | .ok communityPoolSecurityBudgetCoins =>
  let t4 : Transfer :=
    ⟨.submodule env.CommunitySecurityBudgetSubmoduleName, communityPoolSecurityBudgetCoins⟩
  match env.send [t1, t2, t3] t4 with
  | some err => ([t1, t2, t3, t4], .error err)
  | none =>
  -- sweep any remaining tokens to the community growth pool
  DistributeMintedCoin.sweep env mintedCoin [t1, t2, t3, t4] stakingIncentivesCoins
    strategicReserveCoins communityPoolGrowthCoins communityPoolSecurityBudgetCoins

/-- `Coins.AmountOf` of the SDK: the amount of a denomination in a set. -/
def Coins.AmountOf (coins : Coins) (denom : String) : Int :=
  ((coins.filter (fun c => c.Denom = denom)).map (fun c => c.Amount)).sum

/-- A sample mint environment: proportions 0.5, 0.25, 0.15 and 0.1, every
denomination valid, every transfer accepted. -/
def sampleMintEnv : MintEnv where
  validDenom := fun _ => true
  params :=
    { DistributionProportions :=
        { Staking := ⟨500000000000000000⟩
          StrategicReserve := ⟨250000000000000000⟩
          CommunityPoolGrowth := ⟨150000000000000000⟩
          CommunityPoolSecurityBudget := ⟨100000000000000000⟩ }
      StrategicReserveAddress := "stride1reserve" }
  feeCollectorName := "fee_collector"
  CommunityGrowthSubmoduleName := "community_growth"
  CommunitySecurityBudgetSubmoduleName := "community_security_budget"
  send := fun _ _ => none

/-- The set holding the amount `a` of the denomination `d` and nothing else:
empty when `a` is 0. -/
def singleCoin (d : String) (a : Int) : Coins := if a = 0 then [] else [⟨d, a⟩]

/-- The share of the minted coin for a ratio: the product of the amount and
the ratio's 18-digit numerator, divided by `10^18` rounding down. -/
def share (mintedCoin : Coin) (ratio : Dec) : Int :=
  mintedCoin.Amount * ratio.i / 10 ^ Precision

/-- What is left of the minted amount after the four shares. -/
def remainder (env : MintEnv) (mintedCoin : Coin) : Int :=
  mintedCoin.Amount
    - share mintedCoin env.params.DistributionProportions.Staking
    - share mintedCoin env.params.DistributionProportions.StrategicReserve
    - share mintedCoin env.params.DistributionProportions.CommunityPoolGrowth
    - share mintedCoin env.params.DistributionProportions.CommunityPoolSecurityBudget

/-- The four transfers of the shares, in the order of the source. -/
def shareTransfers (env : MintEnv) (mintedCoin : Coin) : List Transfer :=
  [⟨.module env.feeCollectorName,
      singleCoin mintedCoin.Denom (share mintedCoin env.params.DistributionProportions.Staking)⟩,
   ⟨.account env.params.StrategicReserveAddress,
      singleCoin mintedCoin.Denom
        (share mintedCoin env.params.DistributionProportions.StrategicReserve)⟩,
   ⟨.submodule env.CommunityGrowthSubmoduleName,
      singleCoin mintedCoin.Denom
        (share mintedCoin env.params.DistributionProportions.CommunityPoolGrowth)⟩,
   ⟨.submodule env.CommunitySecurityBudgetSubmoduleName,
      singleCoin mintedCoin.Denom
        (share mintedCoin env.params.DistributionProportions.CommunityPoolSecurityBudget)⟩]

/-- The transfer that sweeps the remainder to the community growth pool. -/
def sweepTransfer (env : MintEnv) (mintedCoin : Coin) : Transfer :=
  ⟨.submodule env.CommunityGrowthSubmoduleName,
    singleCoin mintedCoin.Denom (remainder env mintedCoin)⟩

/-- The four proportions are not negative. -/
def proportionsNonneg (p : DistributionProportions) : Prop :=
  0 ≤ p.Staking.i ∧ 0 ≤ p.StrategicReserve.i ∧ 0 ≤ p.CommunityPoolGrowth.i ∧
    0 ≤ p.CommunityPoolSecurityBudget.i

/-- The sum of the four proportions, as a number of `10^-18` units. -/
def proportionsSum (p : DistributionProportions) : Int :=
  p.Staking.i + p.StrategicReserve.i + p.CommunityPoolGrowth.i + p.CommunityPoolSecurityBudget.i

/-- The vesting scalar `GetVestedCoinsAt` computes, as a number of `10^-18`
units: `sdk.NewDec(vAt - vStart).Quo(sdk.NewDec(vLength))`. -/
def vestingScalar (vAt vStart vLength : Int) : Int :=
  chopPrecisionAndRound
    (Int.tdiv ((vAt - vStart) * 10 ^ Precision * 10 ^ Precision * 10 ^ Precision)
      (vLength * 10 ^ Precision))

/-! ## Validator messages (`x/stakeibc/types/validator.pb.go`) -/

/-- `types.Validator`.  The strings are byte strings (numbers below 256), the
two numbers are `int32` values. -/
structure Validator where
  Name : List Nat
  Address : List Nat
  Status : List Nat
  CommissionRate : Int
  DelegationAmt : Int
  deriving DecidableEq, Repr

/-- Whether an integer is an `int32` value. -/
def isInt32 (x : Int) : Prop := -2 ^ 31 ≤ x ∧ x < 2 ^ 31

/-- Whether the elements of a list are bytes. -/
def isBytes (l : List Nat) : Prop := ∀ b ∈ l, b < 256

/-- The fields of a message are byte strings and `int32` values. -/
def Validator.wellFormed (m : Validator) : Prop :=
  isBytes m.Name ∧ isBytes m.Address ∧ isBytes m.Status ∧
  isInt32 m.CommissionRate ∧ isInt32 m.DelegationAmt

/-- The Go conversion `uint64(x)` of a signed integer. -/
def toUint64 (x : Int) : Nat := (x % 2 ^ 64).toNat

/-- The Go conversion `int32(x)`: the low 32 bits, read as a signed number. -/
def wrapInt32 (x : Int) : Int := (x + 2 ^ 31) % 2 ^ 32 - 2 ^ 31

/-- `math_bits.Len64`: the number of bits needed to write a `uint64`. -/
def Len64 (x : Nat) : Nat := Nat.size x

/-- `sovValidator`: the number of bytes of the varint of `x`. -/
def sovValidator (x : Nat) : Nat := (Len64 (x ||| 1) + 6) / 7

/-- `Validator.Size`; the receiver is not `nil`. -/
def Validator.Size (m : Validator) : Nat :=
  let n := 0
  let l := m.Name.length
  let n := if l > 0 then n + (1 + l + sovValidator l) else n
  let l := m.Address.length
  let n := if l > 0 then n + (1 + l + sovValidator l) else n
  let l := m.Status.length
  let n := if l > 0 then n + (1 + l + sovValidator l) else n
  let n := if m.CommissionRate ≠ 0 then n + (1 + sovValidator (toUint64 m.CommissionRate)) else n
  let n := if m.DelegationAmt ≠ 0 then n + (1 + sovValidator (toUint64 m.DelegationAmt)) else n
  n

/-- The assignment `dAtA[i] = b`; `.error` is the index-out-of-range panic. -/
def setByte (dAtA : List Nat) (i : Int) (b : Nat) : Except String (List Nat) :=
  if 0 ≤ i ∧ i < dAtA.length then .ok (dAtA.set i.toNat b)
  else .error "index out of range"

/-- `copy(dAtA[i:], src)`: as many bytes of `src` as fit are written from
position `i` on; `.error` is the panic of the slice expression. -/
def copyAt (dAtA : List Nat) (i : Int) (src : List Nat) : Except String (List Nat) :=
  if 0 ≤ i ∧ i ≤ dAtA.length then
    let k := min (dAtA.length - i.toNat) src.length
    .ok (dAtA.take i.toNat ++ src.take k ++ dAtA.drop (i.toNat + k))
  else .error "slice bounds out of range"

/-- The loop and the last assignment of `encodeVarintValidator`. -/
def encodeVarintValidator.loop (dAtA : List Nat) (offset : Int) (v : Nat) :
    Except String (List Nat) :=
  if h : v ≥ 1 <<< 7 then
    match setByte dAtA offset ((v &&& 0x7f ||| 0x80) % 256) with
    | .error e => .error e
    | .ok dAtA => encodeVarintValidator.loop dAtA (offset + 1) (v >>> 7)
  else
    setByte dAtA offset (v % 256)
termination_by v
decreasing_by
  have h7 : (1 : Nat) <<< 7 = 128 := by decide
  rw [h7] at h
  rw [Nat.shiftRight_eq_div_pow]
  exact Nat.div_lt_self (by omega) (by decide)

/-- `encodeVarintValidator`: the buffer after the writes, and the returned
`base`. -/
def encodeVarintValidator (dAtA : List Nat) (offset : Int) (v : Nat) :
    Except String (List Nat × Int) :=
  let offset := offset - sovValidator v
  let base := offset
  match encodeVarintValidator.loop dAtA offset v with
  | .error e => .error e
  | .ok dAtA => .ok (dAtA, base)

/-- The writes of `MarshalToSizedBuffer` for a number field with tag byte
`tag`. -/
def MarshalToSizedBuffer.number (dAtA : List Nat) (i : Int) (x : Int) (tag : Nat) :
    Except String (List Nat × Int) :=
  if x ≠ 0 then
    match encodeVarintValidator dAtA i (toUint64 x) with
    | .error e => .error e
    | .ok (dAtA, i) =>
      let i := i - 1
      match setByte dAtA i tag with
      | .error e => .error e
      | .ok dAtA => .ok (dAtA, i)
  else .ok (dAtA, i)

/-- The writes of `MarshalToSizedBuffer` for a string field with tag byte
`tag`. -/
def MarshalToSizedBuffer.string (dAtA : List Nat) (i : Int) (str : List Nat) (tag : Nat) :
    Except String (List Nat × Int) :=
  if str.length > 0 then
    let i := i - str.length
    match copyAt dAtA i str with
    | .error e => .error e
    | .ok dAtA =>
      match encodeVarintValidator dAtA i str.length with
      | .error e => .error e
      | .ok (dAtA, i) =>
        let i := i - 1
        match setByte dAtA i tag with
        | .error e => .error e
        | .ok dAtA => .ok (dAtA, i)
  else .ok (dAtA, i)

/-- `Validator.MarshalToSizedBuffer`: the buffer after the writes and the
returned count; `.error` is a panic (the returned error is always `nil`). -/
def Validator.MarshalToSizedBuffer (m : Validator) (dAtA : List Nat) :
    Except String (List Nat × Int) := do
  let i : Int := dAtA.length
  let (dAtA, i) ← MarshalToSizedBuffer.number dAtA i m.DelegationAmt 0x28
  let (dAtA, i) ← MarshalToSizedBuffer.number dAtA i m.CommissionRate 0x20
  let (dAtA, i) ← MarshalToSizedBuffer.string dAtA i m.Status 0x1a
  let (dAtA, i) ← MarshalToSizedBuffer.string dAtA i m.Address 0x12
  let (dAtA, i) ← MarshalToSizedBuffer.string dAtA i m.Name 0xa
  pure (dAtA, (dAtA.length : Int) - i)

/-- `Validator.Marshal`: the bytes returned; `.error` is a panic. -/
def Validator.Marshal (m : Validator) : Except String (List Nat) :=
  let size := m.Size
  let dAtA := List.replicate size 0
  match m.MarshalToSizedBuffer dAtA with
  | .error e => .error e
  | .ok (dAtA, n) =>
    if 0 ≤ n ∧ n ≤ dAtA.length then .ok (dAtA.take n.toNat)
    else .error "slice bounds out of range"

/-- `ErrInvalidLengthValidator`. -/
def ErrInvalidLengthValidator : GoError :=
  .Errorf "proto: negative length found during unmarshaling"

/-- `ErrIntOverflowValidator`. -/
def ErrIntOverflowValidator : GoError := .Errorf "proto: integer overflow"

/-- `ErrUnexpectedEndOfGroupValidator`. -/
def ErrUnexpectedEndOfGroupValidator : GoError := .Errorf "proto: unexpected end of group"

/-- `io.ErrUnexpectedEOF`. -/
def ErrUnexpectedEOF : GoError := .ext "unexpected EOF"

/-- How a read loop of the decoder ends: with a value and the index after it,
with a returned error, or with an index-out-of-range panic. -/
inductive Read (α : Type)
  | ok (value : α) (iNdEx : Nat)
  | fail (err : GoError)
  | panic
  deriving Repr

/-- The varint loop of the decoder that accumulates a `uint64`
(`wire |= uint64(b&0x7F) << shift`), from `iNdEx` on, at a given `shift` and
accumulated value. -/
def decodeUint64 (dAtA : List Nat) (iNdEx shift acc : Nat) : Read Nat :=
  if shift ≥ 64 then .fail ErrIntOverflowValidator
  else if iNdEx ≥ dAtA.length then .fail ErrUnexpectedEOF
  else
    match dAtA[iNdEx]? with
    | none => .panic
    | some b =>
      let acc := acc ||| ((b &&& 0x7F) <<< shift) % 2 ^ 64
      if b < 0x80 then .ok acc (iNdEx + 1)
      else decodeUint64 dAtA (iNdEx + 1) (shift + 7) acc
termination_by 70 - shift
decreasing_by omega

/-- The varint loop of the decoder that accumulates an `int32` field
(`m.X |= int32(b&0x7F) << shift`).  The accumulated value is kept as its
32-bit pattern; the field holds `wrapInt32` of it. -/
def decodeInt32 (dAtA : List Nat) (iNdEx shift acc : Nat) : Read Nat × Nat :=
  if shift ≥ 64 then (.fail ErrIntOverflowValidator, acc)
  else if iNdEx ≥ dAtA.length then (.fail ErrUnexpectedEOF, acc)
  else
    match dAtA[iNdEx]? with
    | none => (.panic, acc)
    | some b =>
      let acc := acc ||| ((b &&& 0x7F) <<< shift) % 2 ^ 32
      if b < 0x80 then (.ok acc (iNdEx + 1), acc)
      else decodeInt32 dAtA (iNdEx + 1) (shift + 7) acc
termination_by 70 - shift
decreasing_by omega

/-- Lines 260-287 of `Unmarshal`, the same for the three string fields: the
length is read, checked, and the bytes are taken.  The slice expression
`dAtA[iNdEx:postIndex]` panics unless `iNdEx ≤ postIndex ≤ cap(dAtA)`; the
capacity is at least the length, and the model panics unless
`iNdEx ≤ postIndex ≤ len(dAtA)`. -/
def Unmarshal.readString (dAtA : List Nat) (iNdEx : Nat) : Read (List Nat) :=
  match decodeUint64 dAtA iNdEx 0 0 with
  | .fail e => .fail e
  | .panic => .panic
  | .ok stringLen iNdEx =>
    let intStringLen := wrapInt64 stringLen
    if intStringLen < 0 then .fail ErrInvalidLengthValidator
    else
      let postIndex := wrapInt64 (iNdEx + intStringLen)
      if postIndex < 0 then .fail ErrInvalidLengthValidator
      else if postIndex > dAtA.length then .fail ErrUnexpectedEOF
      else if ¬ ((iNdEx : Int) ≤ postIndex ∧ postIndex ≤ dAtA.length) then .panic
      else .ok ((dAtA.drop iNdEx).take (postIndex.toNat - iNdEx)) postIndex.toNat

/-- The varint loop of `skipValidator` for wire type 0, which only advances
the index. -/
def skipValidator.varint (dAtA : List Nat) (iNdEx shift : Nat) : Read Unit :=
  if shift ≥ 64 then .fail ErrIntOverflowValidator
  else if iNdEx ≥ dAtA.length then .fail ErrUnexpectedEOF
  else
    match dAtA[iNdEx]? with
    | none => .panic
    | some b =>
      if b < 0x80 then .ok () (iNdEx + 1)
      else skipValidator.varint dAtA (iNdEx + 1) (shift + 7)
termination_by 70 - shift
decreasing_by omega

/-- How `skipValidator` ends: with the returned count, with a returned error,
with a panic, or, for the model only, with its iteration budget used up. -/
inductive SkipResult
  | ok (n : Nat)
  | fail (err : GoError)
  | panic
  | outOfFuel
  deriving Repr

/-- The `switch wireType` of `skipValidator`: the index and the depth after it
(the index before the `iNdEx < 0` test, as an `int`), or how the function
ends. -/
def skipValidator.switch (dAtA : List Nat) (iNdEx depth wireType : Nat) :
    Except SkipResult (Int × Nat) :=
  match wireType with
  | 0 =>
    match skipValidator.varint dAtA iNdEx 0 with
    | .fail e => .error (.fail e)
    | .panic => .error .panic
    | .ok _ iNdEx => .ok (iNdEx, depth)
  | 1 => .ok (wrapInt64 (iNdEx + 8), depth)
  | 2 =>
    match decodeUint64 dAtA iNdEx 0 0 with
    | .fail e => .error (.fail e)
    | .panic => .error .panic
    | .ok length iNdEx =>
      let length := wrapInt64 length
      if length < 0 then .error (.fail ErrInvalidLengthValidator)
      else .ok (wrapInt64 (iNdEx + length), depth)
  | 3 => .ok (iNdEx, depth + 1)
  | 4 =>
    if depth = 0 then .error (.fail ErrUnexpectedEndOfGroupValidator)
    else .ok (iNdEx, depth - 1)
  | 5 => .ok (wrapInt64 (iNdEx + 4), depth)
  | _ => .error (.fail (.Errorf ("proto: illegal wireType " ++ toString wireType)))

/-- The loop of `skipValidator`, with a budget of iterations. -/
def skipValidator.loop : Nat → List Nat → Nat → Nat → SkipResult
  | 0, _, _, _ => .outOfFuel
  | fuel + 1, dAtA, iNdEx, depth =>
    if ¬ (iNdEx < dAtA.length) then .fail ErrUnexpectedEOF
    else
      match decodeUint64 dAtA iNdEx 0 0 with
      | .fail e => .fail e
      | .panic => .panic
      | .ok wire iNdEx =>
        let wireType := wire &&& 0x7
        match skipValidator.switch dAtA iNdEx depth wireType with
        | .error r => r
        | .ok (iNdEx, depth) =>
          if iNdEx < 0 then .fail ErrInvalidLengthValidator
          else if depth = 0 then .ok iNdEx.toNat
          else skipValidator.loop fuel dAtA iNdEx.toNat depth

/-- `skipValidator`.  Every iteration of its loop reads at least one byte, so
a budget of `len(dAtA) + 1` iterations is never used up. -/
def skipValidator (dAtA : List Nat) : SkipResult :=
  skipValidator.loop (dAtA.length + 1) dAtA 0 0

/-- How `Unmarshal` ends: `nil`, a returned error, a panic, or, for the model
only, with its iteration budget used up. -/
inductive UnmarshalOutcome
  | ok
  | error (err : GoError)
  | panic
  | outOfFuel
  deriving DecidableEq, Repr

/-- The `switch fieldNum` of `Unmarshal`: the message and the index after one
field, or the message and how the function ends.  In the `default` case the
slice expression `dAtA[iNdEx:]` panics when `iNdEx` is beyond the length, and
`skippy`, which `skipValidator` returns after its test `iNdEx < 0`, is not
negative. -/
def Unmarshal.field (m : Validator) (dAtA : List Nat) (preIndex iNdEx : Nat)
    (fieldNum : Int) (wireType : Nat) : Except (Validator × UnmarshalOutcome) (Validator × Nat) :=
  match fieldNum with
  | 1 =>
    if wireType ≠ 2 then
      .error (m, .error (.Errorf
        ("proto: wrong wireType = " ++ toString wireType ++ " for field Name")))
    else
      match Unmarshal.readString dAtA iNdEx with
      | .fail e => .error (m, .error e)
      | .panic => .error (m, .panic)
      | .ok str iNdEx => .ok ({ m with Name := str }, iNdEx)
  | 2 =>
    if wireType ≠ 2 then
      .error (m, .error (.Errorf
        ("proto: wrong wireType = " ++ toString wireType ++ " for field Address")))
    else
      match Unmarshal.readString dAtA iNdEx with
      | .fail e => .error (m, .error e)
      | .panic => .error (m, .panic)
      | .ok str iNdEx => .ok ({ m with Address := str }, iNdEx)
  | 3 =>
    if wireType ≠ 2 then
      .error (m, .error (.Errorf
        ("proto: wrong wireType = " ++ toString wireType ++ " for field Status")))
    else
      match Unmarshal.readString dAtA iNdEx with
      | .fail e => .error (m, .error e)
      | .panic => .error (m, .panic)
      | .ok str iNdEx => .ok ({ m with Status := str }, iNdEx)
  | 4 =>
    if wireType ≠ 0 then
      .error (m, .error (.Errorf
        ("proto: wrong wireType = " ++ toString wireType ++ " for field CommissionRate")))
    else
      match decodeInt32 dAtA iNdEx 0 0 with
      | (.fail e, acc) => .error ({ m with CommissionRate := wrapInt32 acc }, .error e)
      | (.panic, acc) => .error ({ m with CommissionRate := wrapInt32 acc }, .panic)
      | (.ok _ iNdEx, acc) => .ok ({ m with CommissionRate := wrapInt32 acc }, iNdEx)
  | 5 =>
    if wireType ≠ 0 then
      .error (m, .error (.Errorf
        ("proto: wrong wireType = " ++ toString wireType ++ " for field DelegationAmt")))
    else
      match decodeInt32 dAtA iNdEx 0 0 with
      | (.fail e, acc) => .error ({ m with DelegationAmt := wrapInt32 acc }, .error e)
      | (.panic, acc) => .error ({ m with DelegationAmt := wrapInt32 acc }, .panic)
      | (.ok _ iNdEx, acc) => .ok ({ m with DelegationAmt := wrapInt32 acc }, iNdEx)
  | _ =>
    let iNdEx := preIndex
    if iNdEx > dAtA.length then .error (m, .panic)
    else
      match skipValidator (dAtA.drop iNdEx) with
      | .fail e => .error (m, .error e)
      | .panic => .error (m, .panic)
      | .outOfFuel => .error (m, .outOfFuel)
      | .ok skippy =>
        if wrapInt64 (iNdEx + skippy) < 0 then .error (m, .error ErrInvalidLengthValidator)
        else if wrapInt64 (iNdEx + skippy) > dAtA.length then .error (m, .error ErrUnexpectedEOF)
        else .ok (m, (wrapInt64 (iNdEx + skippy)).toNat)

/-- One iteration of the loop of `Unmarshal` together with its loop test: the
message and the index after the iteration, or, when the loop test fails or the
body returns, the message and how the function ends. -/
def Unmarshal.step (m : Validator) (dAtA : List Nat) (iNdEx : Nat) :
    Except (Validator × UnmarshalOutcome) (Validator × Nat) :=
  if ¬ (iNdEx < dAtA.length) then
    if iNdEx > dAtA.length then .error (m, .error ErrUnexpectedEOF) else .error (m, .ok)
  else
    let preIndex := iNdEx
    match decodeUint64 dAtA iNdEx 0 0 with
    | .fail e => .error (m, .error e)
    | .panic => .error (m, .panic)
    | .ok wire iNdEx =>
      let fieldNum := wrapInt32 (wire >>> 3)
      let wireType := wire &&& 0x7
      if wireType = 4 then
        .error (m, .error (.Errorf "proto: Validator: wiretype end group for non-group"))
      else if fieldNum ≤ 0 then
        .error (m, .error (.Errorf ("proto: Validator: illegal tag " ++ toString fieldNum ++
          " (wire type " ++ toString wire ++ ")")))
      else
        Unmarshal.field m dAtA preIndex iNdEx fieldNum wireType

/-- The loop of `Unmarshal`, with a budget of iterations. -/
def Unmarshal.loop : Nat → Validator → List Nat → Nat → Validator × UnmarshalOutcome
  | 0, m, _, _ => (m, .outOfFuel)
  | fuel + 1, m, dAtA, iNdEx =>
    match Unmarshal.step m dAtA iNdEx with
    | .error r => r
    | .ok r => Unmarshal.loop fuel r.1 dAtA r.2

/-- `Validator.Unmarshal`: the message after the call and how the call ends.
Every iteration of its loop reads at least one byte, so a budget of
`len(dAtA) + 1` iterations is never used up. -/
def Validator.Unmarshal (m : Validator) (dAtA : List Nat) : Validator × UnmarshalOutcome :=
  Unmarshal.loop (dAtA.length + 1) m dAtA 0

/-- The empty message `Validator{}`. -/
def Validator.empty : Validator := ⟨[], [], [], 0, 0⟩

/-- A sample message with a negative number in it. -/
def sampleValidator : Validator :=
  ⟨[105, 109, 112], [115, 116, 114, 105, 100, 101, 49], [], -3, 70000⟩

/-- The varint of a number: seven bits per byte, least significant first, the
high bit set on every byte but the last.  This and the three definitions after
it describe the bytes that `Marshal` is proved to write; they are not part of
the code. -/
def varintBytes (v : Nat) : List Nat :=
  if h : v ≥ 128 then (v % 128 + 128) :: varintBytes (v / 128) else [v]
termination_by v
decreasing_by exact Nat.div_lt_self (by omega) (by decide)

/-- The wire form of a string field: nothing for the empty string, otherwise
the tag byte, the length as a varint, and the bytes. -/
def encString (tag : Nat) (str : List Nat) : List Nat :=
  if str.length > 0 then tag :: (varintBytes str.length ++ str) else []

/-- The wire form of a number field: nothing for 0, otherwise the tag byte and
the varint of the number converted to `uint64`. -/
def encNumber (tag : Nat) (x : Int) : List Nat :=
  if x ≠ 0 then tag :: varintBytes (toUint64 x) else []

/-- The wire form of a message: its fields in the order of their numbers. -/
def Validator.encode (m : Validator) : List Nat :=
  encString 0xa m.Name ++ (encString 0x12 m.Address ++ (encString 0x1a m.Status ++
    (encNumber 0x20 m.CommissionRate ++ encNumber 0x28 m.DelegationAmt)))

/-! ## Frame lemmas for the keeper operations -/

@[simp] theorem log_hostZones (ctx : Ctx) (l : LogLevel) (m : String) :
    (ctx.log l m).hostZones = ctx.hostZones := rfl

@[simp] theorem log_epochUnbondingRecords (ctx : Ctx) (l : LogLevel) (m : String) :
    (ctx.log l m).epochUnbondingRecords = ctx.epochUnbondingRecords := rfl

@[simp] theorem log_icaCalls (ctx : Ctx) (l : LogLevel) (m : String) :
    (ctx.log l m).icaCalls = ctx.icaCalls := rfl

@[simp] theorem log_logs (ctx : Ctx) (l : LogLevel) (m : String) :
    (ctx.log l m).logs = ctx.logs ++ [⟨l, m⟩] := rfl

@[simp] theorem log_events (ctx : Ctx) (l : LogLevel) (m : String) :
    (ctx.log l m).events = ctx.events := rfl

@[simp] theorem GetHostZone_log (ctx : Ctx) (l : LogLevel) (m : String) (c : String) :
    GetHostZone (ctx.log l m) c = GetHostZone ctx c := rfl

@[simp] theorem SetHostZone_epochUnbondingRecords (ctx : Ctx) (z : HostZone) :
    (SetHostZone ctx z).epochUnbondingRecords = ctx.epochUnbondingRecords := by
  unfold SetHostZone; split <;> rfl

@[simp] theorem SetHostZone_icaCalls (ctx : Ctx) (z : HostZone) :
    (SetHostZone ctx z).icaCalls = ctx.icaCalls := by
  unfold SetHostZone; split <;> rfl

@[simp] theorem SetHostZone_events (ctx : Ctx) (z : HostZone) :
    (SetHostZone ctx z).events = ctx.events := by
  unfold SetHostZone; split <;> rfl

/-- Writing a zone whose chain id is not in the store appends it. -/
theorem SetHostZone_fresh (ctx : Ctx) (z : HostZone)
    (h : GetHostZone ctx z.ChainId = none) :
    (SetHostZone ctx z).hostZones = ctx.hostZones ++ [z] := by
  have hany : ctx.hostZones.any (fun y => y.ChainId == z.ChainId) = false := by
    rw [Bool.eq_false_iff]
    intro hc
    rw [List.any_eq_true] at hc
    obtain ⟨y, hy, hyz⟩ := hc
    unfold GetHostZone at h
    rw [List.find?_eq_none] at h
    exact h y hy hyz
  simp [SetHostZone, hany]

@[simp] theorem SetEpochUnbondingRecord_hostZones (ctx : Ctx) (r : EpochUnbondingRecord) :
    (SetEpochUnbondingRecord ctx r).hostZones = ctx.hostZones := by
  unfold SetEpochUnbondingRecord; split <;> rfl

@[simp] theorem SetEpochUnbondingRecord_icaCalls (ctx : Ctx) (r : EpochUnbondingRecord) :
    (SetEpochUnbondingRecord ctx r).icaCalls = ctx.icaCalls := by
  unfold SetEpochUnbondingRecord; split <;> rfl

@[simp] theorem SetEpochUnbondingRecord_events (ctx : Ctx) (r : EpochUnbondingRecord) :
    (SetEpochUnbondingRecord ctx r).events = ctx.events := by
  unfold SetEpochUnbondingRecord; split <;> rfl

@[simp] theorem insert_hostZones (ctx : Ctx) (n : Nat) (c : String) (u : HostZoneUnbonding) :
    (SetHostZoneEpochUnbondingRecord.insert ctx n c u).1.hostZones = ctx.hostZones := by
  unfold SetHostZoneEpochUnbondingRecord.insert; split
  · rfl
  · split <;> simp

@[simp] theorem SetHostZoneEpochUnbondingRecord_hostZones (ctx : Ctx) (n : Nat) (c : String)
    (u : HostZoneUnbonding) :
    (SetHostZoneEpochUnbondingRecord ctx n c u).1.hostZones = ctx.hostZones := by
  simp [SetHostZoneEpochUnbondingRecord]

@[simp] theorem insert_icaCalls (ctx : Ctx) (n : Nat) (c : String) (u : HostZoneUnbonding) :
    (SetHostZoneEpochUnbondingRecord.insert ctx n c u).1.icaCalls = ctx.icaCalls := by
  unfold SetHostZoneEpochUnbondingRecord.insert; split
  · rfl
  · split <;> simp

@[simp] theorem SetHostZoneEpochUnbondingRecord_icaCalls (ctx : Ctx) (n : Nat) (c : String)
    (u : HostZoneUnbonding) :
    (SetHostZoneEpochUnbondingRecord ctx n c u).1.icaCalls = ctx.icaCalls := by
  simp [SetHostZoneEpochUnbondingRecord]

@[simp] theorem insert_events (ctx : Ctx) (n : Nat) (c : String) (u : HostZoneUnbonding) :
    (SetHostZoneEpochUnbondingRecord.insert ctx n c u).1.events = ctx.events := by
  unfold SetHostZoneEpochUnbondingRecord.insert; split
  · rfl
  · split <;> simp

@[simp] theorem SetHostZoneEpochUnbondingRecord_events (ctx : Ctx) (n : Nat) (c : String)
    (u : HostZoneUnbonding) :
    (SetHostZoneEpochUnbondingRecord ctx n c u).1.events = ctx.events := by
  simp [SetHostZoneEpochUnbondingRecord]

@[simp] theorem RegisterInterchainAccount_hostZones (env : Env) (ctx : Ctx) (a b : String) :
    (RegisterInterchainAccount env ctx a b).1.hostZones = ctx.hostZones := rfl

@[simp] theorem RegisterInterchainAccount_epochUnbondingRecords (env : Env) (ctx : Ctx)
    (a b : String) :
    (RegisterInterchainAccount env ctx a b).1.epochUnbondingRecords =
      ctx.epochUnbondingRecords := rfl

@[simp] theorem RegisterInterchainAccount_events (env : Env) (ctx : Ctx) (a b : String) :
    (RegisterInterchainAccount env ctx a b).1.events = ctx.events := rfl

@[simp] theorem RegisterInterchainAccount_icaCalls (env : Env) (ctx : Ctx) (a b : String) :
    (RegisterInterchainAccount env ctx a b).1.icaCalls =
      ctx.icaCalls ++ [⟨a, b, env.RegisterInterchainAccount ctx.icaCalls a b⟩] := rfl

@[simp] theorem RegisterInterchainAccount_snd (env : Env) (ctx : Ctx) (a b : String) :
    (RegisterInterchainAccount env ctx a b).2 =
      env.RegisterInterchainAccount ctx.icaCalls a b := rfl

/-- The ledger step never touches the host-zone store, the issued requests or
the emitted events. -/
theorem updateLedger_frame (ctx : Ctx) (c : String) (z : HostZone) :
    (RegisterHostZone.updateLedger ctx c z).1.hostZones = ctx.hostZones ∧
    (RegisterHostZone.updateLedger ctx c z).1.icaCalls = ctx.icaCalls ∧
    (RegisterHostZone.updateLedger ctx c z).1.events = ctx.events := by
  unfold RegisterHostZone.updateLedger
  cases hl : GetLatestEpochUnbondingRecord ctx with
  | none => simp
  | some r =>
    simp only []
    split <;> simp

/-- The host-zone store when the handler returns, for a call that passed the
uniqueness check: the store before the call with the new zone added. -/
theorem RegisterHostZone_hostZones (env : Env) (ctx : Ctx) (msg : MsgRegisterHostZone)
    (c : String) (hres : env.GetChainID msg.ConnectionId = .ok c)
    (hz : GetHostZone ctx c = none) :
    (RegisterHostZone env ctx msg).1.hostZones =
      ctx.hostZones ++ [RegisterHostZone.zone c msg] := by
  have hfresh := SetHostZone_fresh ctx (RegisterHostZone.zone c msg) hz
  simp only [RegisterHostZone, hres, hz]
  split
  · simpa using hfresh
  · split
    · simpa using hfresh
    · split
      · simpa using hfresh
      · split
        · simpa using hfresh
        · simpa [(updateLedger_frame _ _ _).1] using hfresh

/-- The handler never emits an event. -/
theorem RegisterHostZone_events (env : Env) (ctx : Ctx) (msg : MsgRegisterHostZone) :
    (RegisterHostZone env ctx msg).1.events = ctx.events := by
  unfold RegisterHostZone
  split
  · rfl
  · split
    · rfl
    · simp only []
      split
      · simp
      · split
        · simp
        · split
          · simp
          · split
            · simp
            · simp [(updateLedger_frame _ _ _).2.2]

/-! ## The paths through the handler -/

/-- The run of the handler when the resolved chain id already has a zone. -/
theorem RegisterHostZone_found (env : Env) (ctx : Ctx) (msg : MsgRegisterHostZone)
    (c : String) (zone : HostZone)
    (hres : env.GetChainID msg.ConnectionId = .ok c)
    (hz : GetHostZone ctx c = some zone) :
    RegisterHostZone env ctx msg =
      (ctx, .error (.Errorf
        ("invalid chain id, zone for \"" ++ c ++ "\" already registered"))) := by
  simp only [RegisterHostZone, hres, hz]

/-- The run of the handler when the request for role `r` is the first one the
provisioner rejects. -/
theorem RegisterHostZone_fail_at (env : Env) (ctx : Ctx) (msg : MsgRegisterHostZone)
    (c : String) (r : ICAAccountType) (e : GoError)
    (hres : env.GetChainID msg.ConnectionId = .ok c)
    (hz : GetHostZone ctx c = none)
    (hbefore : ∀ r' ∈ rolesBefore r, answerFor env ctx msg c r' = none)
    (hfail : answerFor env ctx msg c r = some e) :
    (RegisterHostZone env ctx msg).2 = .error e ∧
    (RegisterHostZone env ctx msg).1.icaCalls =
      ctx.icaCalls ++ acceptedRequests env msg c (rolesBefore r) ++
        [requestFor env msg c r (some e)] ∧
    (RegisterHostZone env ctx msg).1.epochUnbondingRecords = ctx.epochUnbondingRecords := by
  cases r <;>
    simp [answerFor, rolesBefore, acceptedRequests, requestFor] at hbefore hfail <;>
    simp [RegisterHostZone, hres, hz, RegisterHostZone.zone, hbefore, hfail,
      acceptedRequests, requestFor, rolesBefore]

/-- The run of the handler when the provisioner accepts all four requests:
the ledger step runs on the context holding the new zone and the four
accepted requests. -/
theorem RegisterHostZone_all_accepted (env : Env) (ctx : Ctx) (msg : MsgRegisterHostZone)
    (c : String)
    (hres : env.GetChainID msg.ConnectionId = .ok c)
    (hz : GetHostZone ctx c = none)
    (hall : ∀ r, answerFor env ctx msg c r = none) :
    RegisterHostZone env ctx msg =
      RegisterHostZone.updateLedger
        { SetHostZone ctx (RegisterHostZone.zone c msg) with
          icaCalls := ctx.icaCalls ++ acceptedRequests env msg c
            [.DELEGATION, .FEE, .WITHDRAWAL, .REDEMPTION] }
        c (RegisterHostZone.zone c msg) := by
  have h1 := hall .DELEGATION
  have h2 := hall .FEE
  have h3 := hall .WITHDRAWAL
  have h4 := hall .REDEMPTION
  simp [answerFor, rolesBefore, acceptedRequests, requestFor] at h1 h2 h3 h4
  simp [RegisterHostZone, hres, hz, RegisterHostZone.zone, h1, h2, h3, h4,
      acceptedRequests, requestFor, RegisterInterchainAccount]

/-- After a call that passed the uniqueness check, the record found for the
resolved chain id is the zone the handler built. -/
theorem GetHostZone_after (env : Env) (ctx : Ctx) (msg : MsgRegisterHostZone)
    (c : String) (hres : env.GetChainID msg.ConnectionId = .ok c)
    (hz : GetHostZone ctx c = none) :
    GetHostZone (RegisterHostZone env ctx msg).1 c = some (RegisterHostZone.zone c msg) := by
  have h := RegisterHostZone_hostZones env ctx msg c hres hz
  unfold GetHostZone at hz ⊢
  rw [h, List.find?_append, hz]
  simp [RegisterHostZone.zone]

/-- The result of the insertion and the records it leaves depend only on the
epoch-unbonding-record store. -/
theorem SetHostZoneEpochUnbondingRecord_congr (ctx ctx' : Ctx) (n : Nat) (c : String)
    (u : HostZoneUnbonding)
    (h : ctx'.epochUnbondingRecords = ctx.epochUnbondingRecords) :
    (SetHostZoneEpochUnbondingRecord ctx' n c u).2 =
      (SetHostZoneEpochUnbondingRecord ctx n c u).2 ∧
    (SetHostZoneEpochUnbondingRecord ctx' n c u).1.epochUnbondingRecords =
      (SetHostZoneEpochUnbondingRecord ctx n c u).1.epochUnbondingRecords := by
  simp only [SetHostZoneEpochUnbondingRecord, SetHostZoneEpochUnbondingRecord.insert,
    GetEpochUnbondingRecord, h]
  cases ctx.epochUnbondingRecords.find? (fun r => r.Id == n) with
  | none => exact ⟨rfl, h⟩
  | some r =>
    simp only []
    split
    · exact ⟨rfl, h⟩
    · refine ⟨rfl, ?_⟩
      simp only [SetEpochUnbondingRecord, h]
      split <;> rfl

/-- An insertion that returns `false` leaves the stores as they were. -/
theorem insert_false (ctx : Ctx) (n : Nat) (c : String)
    (u : HostZoneUnbonding) (h : (SetHostZoneEpochUnbondingRecord.insert ctx n c u).2 = false) :
    (SetHostZoneEpochUnbondingRecord.insert ctx n c u).1 = ctx := by
  unfold SetHostZoneEpochUnbondingRecord.insert at h ⊢
  split
  · rfl
  · split
    · rfl
    · rename_i hne
      simp [*] at h

/-- An insertion that returns `false` leaves the context as it was, but for
the record of the call. -/
theorem SetHostZoneEpochUnbondingRecord_false (ctx : Ctx) (n : Nat) (c : String)
    (u : HostZoneUnbonding) (h : (SetHostZoneEpochUnbondingRecord ctx n c u).2 = false) :
    (SetHostZoneEpochUnbondingRecord ctx n c u).1 =
      { ctx with ledgerCalls := ctx.ledgerCalls ++ [⟨n, c, u, false⟩] } := by
  have h2 : (SetHostZoneEpochUnbondingRecord.insert ctx n c u).2 = false := h
  simp only [SetHostZoneEpochUnbondingRecord, h2, insert_false ctx n c u h2]

/-! ## Registration: early exits -/

/-- C3: when a host zone for the chain id resolved from the request's
connection already exists, the handler returns an error and the context it
leaves is the context it was given: no host-zone record is written or
modified, no account-creation request is issued and no epoch unbonding record
is changed. -/
theorem RegisterHostZone_duplicate_aborts (env : Env) (ctx : Ctx) (msg : MsgRegisterHostZone)
    (c : String) (zone : HostZone)
    (hres : env.GetChainID msg.ConnectionId = .ok c)
    (hz : GetHostZone ctx c = some zone) :
    RegisterHostZone env ctx msg =
      (ctx, .error (.Errorf ("invalid chain id, zone for \"" ++ c ++ "\" already registered")))
    ∧ (RegisterHostZone env ctx msg).1.hostZones = ctx.hostZones
    ∧ (RegisterHostZone env ctx msg).1.icaCalls = ctx.icaCalls
    ∧ (RegisterHostZone env ctx msg).1.epochUnbondingRecords = ctx.epochUnbondingRecords := by
  have h := RegisterHostZone_found env ctx msg c zone hres hz
  simp [h]

/-- C4: when the chain id cannot be resolved from the request's connection
id, the handler returns an error that wraps the resolution error and leaves
the context it was given: no host-zone record, no account-creation request
and no epoch unbonding record change. -/
theorem RegisterHostZone_unresolved_aborts (env : Env) (ctx : Ctx) (msg : MsgRegisterHostZone)
    (e : GoError) (hres : env.GetChainID msg.ConnectionId = .error e) :
    ∃ err, RegisterHostZone env ctx msg = (ctx, .error err) ∧ err.unwrap = some e := by
  refine ⟨.ErrorfW "unable to obtain chain id: " e, ?_, rfl⟩
  simp only [RegisterHostZone, hres]

/-- Witness for C3: registering `cosmoshub-4` a second time, after a first
successful registration. -/
theorem RegisterHostZone_duplicate_aborts_witness :
    sampleEnv.GetChainID sampleMsg.ConnectionId = .ok "cosmoshub-4" ∧
    GetHostZone (RegisterHostZone sampleEnv sampleCtx sampleMsg).1 "cosmoshub-4" =
      some (RegisterHostZone.zone "cosmoshub-4" sampleMsg) ∧
    (RegisterHostZone sampleEnv (RegisterHostZone sampleEnv sampleCtx sampleMsg).1 sampleMsg =
      ((RegisterHostZone sampleEnv sampleCtx sampleMsg).1,
        .error (.Errorf
          ("invalid chain id, zone for \"" ++ "cosmoshub-4" ++ "\" already registered")))
    ∧ (RegisterHostZone sampleEnv
        (RegisterHostZone sampleEnv sampleCtx sampleMsg).1 sampleMsg).1.hostZones =
        (RegisterHostZone sampleEnv sampleCtx sampleMsg).1.hostZones
    ∧ (RegisterHostZone sampleEnv
        (RegisterHostZone sampleEnv sampleCtx sampleMsg).1 sampleMsg).1.icaCalls =
        (RegisterHostZone sampleEnv sampleCtx sampleMsg).1.icaCalls
    ∧ (RegisterHostZone sampleEnv
        (RegisterHostZone sampleEnv sampleCtx sampleMsg).1 sampleMsg).1.epochUnbondingRecords =
        (RegisterHostZone sampleEnv sampleCtx sampleMsg).1.epochUnbondingRecords) :=
  ⟨rfl, by decide,
    RegisterHostZone_duplicate_aborts sampleEnv
      (RegisterHostZone sampleEnv sampleCtx sampleMsg).1 sampleMsg "cosmoshub-4"
      (RegisterHostZone.zone "cosmoshub-4" sampleMsg) rfl (by decide)⟩

/-- Witness for C4: a request over the unknown connection `connection-9`. -/
theorem RegisterHostZone_unresolved_aborts_witness :
    sampleEnv.GetChainID ({ sampleMsg with ConnectionId := "connection-9" }).ConnectionId =
      .error (.ext "connection not found") ∧
    ∃ err, RegisterHostZone sampleEnv sampleCtx { sampleMsg with ConnectionId := "connection-9" } =
        (sampleCtx, .error err) ∧ err.unwrap = some (.ext "connection not found") :=
  ⟨rfl, RegisterHostZone_unresolved_aborts sampleEnv sampleCtx
    { sampleMsg with ConnectionId := "connection-9" } (.ext "connection not found") rfl⟩

/-! ## Registration: the zone record -/

/-- C10: every host-zone record written by the handler has `redemption_rate`
and `last_redemption_rate` exactly the decimal 1: the store the handler leaves
is the one it was given, or that store with one record added whose two rates
are `sdk.NewDec(1)`, the decimal of value 1. -/
theorem RegisterHostZone_rates_one (env : Env) (ctx : Ctx) (msg : MsgRegisterHostZone) :
    (RegisterHostZone env ctx msg).1.hostZones = ctx.hostZones ∨
    ∃ z, (RegisterHostZone env ctx msg).1.hostZones = ctx.hostZones ++ [z] ∧
      z.RedemptionRate = NewDec 1 ∧ z.LastRedemptionRate = NewDec 1 ∧
      z.RedemptionRate.toRat = 1 ∧ z.LastRedemptionRate.toRat = 1 := by
  cases hres : env.GetChainID msg.ConnectionId with
  | error e =>
    left
    simp only [RegisterHostZone, hres]
  | ok c =>
    cases hz : GetHostZone ctx c with
    | some z0 =>
      left
      simp only [RegisterHostZone, hres, hz]
    | none =>
      right
      refine ⟨RegisterHostZone.zone c msg, RegisterHostZone_hostZones env ctx msg c hres hz,
        rfl, rfl, ?_, ?_⟩ <;>
      · simp only [RegisterHostZone.zone, NewDec, Dec.toRat, Precision]
        norm_num

/-! ## Registration: events and the ledger entry -/

/-- C9 (the code at the failing input): the sample registration returns
success, and the context it leaves holds no emitted event at all, hence no
`register-zone` event. -/
theorem RegisterHostZone_success_emits_nothing :
    (RegisterHostZone sampleEnv sampleCtx sampleMsg).2 = .ok {} ∧
    (RegisterHostZone sampleEnv sampleCtx sampleMsg).1.events = [] := by
  decide

/-- C1 (the code at the failing input): the sample registration of
`cosmoshub-4` returns success, and the latest epoch unbonding record as stored
afterwards holds no entry whose `host_zone_id` is `cosmoshub-4`: the insertion
put the placeholder into the record, and the record the handler then writes
back is the one it read before the insertion. -/
theorem RegisterHostZone_success_loses_entry :
    (RegisterHostZone sampleEnv sampleCtx sampleMsg).2 = .ok {} ∧
    (SetHostZoneEpochUnbondingRecord sampleCtx 0 "cosmoshub-4"
      (placeholder "cosmoshub-4" sampleMsg)).1.epochUnbondingRecords =
      [⟨0, [⟨0, "uatom", "cosmoshub-4", .BONDED⟩]⟩] ∧
    GetLatestEpochUnbondingRecord (RegisterHostZone sampleEnv sampleCtx sampleMsg).1 =
      some ⟨0, []⟩ ∧
    (∀ r, GetLatestEpochUnbondingRecord (RegisterHostZone sampleEnv sampleCtx sampleMsg).1 =
        some r →
      (r.HostZoneUnbondings.filter (fun u => u.HostZoneId == "cosmoshub-4")).length = 0) := by
  refine ⟨by decide, by decide, by decide, ?_⟩
  intro r hr
  have h : GetLatestEpochUnbondingRecord (RegisterHostZone sampleEnv sampleCtx sampleMsg).1 =
      some ⟨0, []⟩ := by decide
  rw [h] at hr
  cases hr
  rfl

/-! ## Registration: uniqueness -/

/-- C2: for every request and context in which a first call succeeds for the
resolved chain id `c`, a second call whose connection resolves to `c` returns
an error, and the store afterwards holds exactly one host-zone record for `c`,
the one written by the first call (which found none before it). -/
theorem RegisterHostZone_twice (env1 env2 : Env) (ctx : Ctx) (msg1 msg2 : MsgRegisterHostZone)
    (c : String) (resp : MsgRegisterHostZoneResponse)
    (hres1 : env1.GetChainID msg1.ConnectionId = .ok c)
    (hok : (RegisterHostZone env1 ctx msg1).2 = .ok resp)
    (hres2 : env2.GetChainID msg2.ConnectionId = .ok c) :
    GetHostZone ctx c = none ∧
    GetHostZone (RegisterHostZone env1 ctx msg1).1 c = some (RegisterHostZone.zone c msg1) ∧
    (∃ err, (RegisterHostZone env2 (RegisterHostZone env1 ctx msg1).1 msg2).2 = .error err) ∧
    (RegisterHostZone env2 (RegisterHostZone env1 ctx msg1).1 msg2).1.hostZones.filter
        (fun z => z.ChainId == c) = [RegisterHostZone.zone c msg1] := by
  have hz : GetHostZone ctx c = none := by
    cases hz : GetHostZone ctx c with
    | none => rfl
    | some z0 =>
      rw [RegisterHostZone_found env1 ctx msg1 c z0 hres1 hz] at hok
      cases hok
  have hfound := GetHostZone_after env1 ctx msg1 c hres1 hz
  have hrun := RegisterHostZone_found env2 (RegisterHostZone env1 ctx msg1).1 msg2 c
    (RegisterHostZone.zone c msg1) hres2 hfound
  refine ⟨hz, hfound, ⟨_, by rw [hrun]⟩, ?_⟩
  rw [hrun]
  simp only []
  rw [RegisterHostZone_hostZones env1 ctx msg1 c hres1 hz, List.filter_append]
  have hnil : ctx.hostZones.filter (fun z => z.ChainId == c) = [] := by
    rw [List.filter_eq_nil_iff]
    intro z hzmem
    unfold GetHostZone at hz
    rw [List.find?_eq_none] at hz
    exact hz z hzmem
  rw [hnil]
  simp [RegisterHostZone.zone]

/-- Witness for C2: the sample registration of `cosmoshub-4`, twice. -/
theorem RegisterHostZone_twice_witness :
    (RegisterHostZone sampleEnv sampleCtx sampleMsg).2 = .ok {} ∧
    (GetHostZone sampleCtx "cosmoshub-4" = none ∧
    GetHostZone (RegisterHostZone sampleEnv sampleCtx sampleMsg).1 "cosmoshub-4" =
      some (RegisterHostZone.zone "cosmoshub-4" sampleMsg) ∧
    (∃ err, (RegisterHostZone sampleEnv
        (RegisterHostZone sampleEnv sampleCtx sampleMsg).1 sampleMsg).2 = .error err) ∧
    (RegisterHostZone sampleEnv
        (RegisterHostZone sampleEnv sampleCtx sampleMsg).1 sampleMsg).1.hostZones.filter
        (fun z => z.ChainId == "cosmoshub-4") = [RegisterHostZone.zone "cosmoshub-4" sampleMsg]) :=
  ⟨by decide,
    RegisterHostZone_twice sampleEnv sampleEnv sampleCtx sampleMsg sampleMsg "cosmoshub-4" {}
      rfl (by decide) rfl⟩

/-! ## Registration: account provisioning -/

/-- C5: on every run that reaches the provisioning step (the chain id resolves
to `c`, for which no zone exists) and in which no account-creation request
fails, exactly four requests are issued, one per role in the order
`DELEGATION, FEE, WITHDRAWAL, REDEMPTION`, each with the request's connection
id and the owner label derived from `c` and the role. -/
theorem RegisterHostZone_four_requests (env : Env) (ctx : Ctx) (msg : MsgRegisterHostZone)
    (c : String)
    (hres : env.GetChainID msg.ConnectionId = .ok c)
    (hz : GetHostZone ctx c = none)
    (hnofail : ∀ call ∈ issuedRequests env ctx msg, call.err = none) :
    issuedRequests env ctx msg =
      [⟨msg.ConnectionId, env.FormatICAAccountOwner c .DELEGATION, none⟩,
       ⟨msg.ConnectionId, env.FormatICAAccountOwner c .FEE, none⟩,
       ⟨msg.ConnectionId, env.FormatICAAccountOwner c .WITHDRAWAL, none⟩,
       ⟨msg.ConnectionId, env.FormatICAAccountOwner c .REDEMPTION, none⟩] := by
  have hcontra : ∀ r e, (∀ r' ∈ rolesBefore r, answerFor env ctx msg c r' = none) →
      answerFor env ctx msg c r = some e → False := by
    intro r e hb hf
    have h := (RegisterHostZone_fail_at env ctx msg c r e hres hz hb hf).2.1
    have hmem : requestFor env msg c r (some e) ∈ issuedRequests env ctx msg := by
      simp [issuedRequests, h, List.append_assoc]
    have := hnofail _ hmem
    simp [requestFor] at this
  have h1 : answerFor env ctx msg c .DELEGATION = none := by
    cases h : answerFor env ctx msg c .DELEGATION with
    | none => rfl
    | some e => exact (hcontra .DELEGATION e (by simp [rolesBefore]) h).elim
  have h2 : answerFor env ctx msg c .FEE = none := by
    cases h : answerFor env ctx msg c .FEE with
    | none => rfl
    | some e => exact (hcontra .FEE e (by simp [rolesBefore, h1]) h).elim
  have h3 : answerFor env ctx msg c .WITHDRAWAL = none := by
    cases h : answerFor env ctx msg c .WITHDRAWAL with
    | none => rfl
    | some e => exact (hcontra .WITHDRAWAL e (by simp [rolesBefore, h1, h2]) h).elim
  have h4 : answerFor env ctx msg c .REDEMPTION = none := by
    cases h : answerFor env ctx msg c .REDEMPTION with
    | none => rfl
    | some e => exact (hcontra .REDEMPTION e (by simp [rolesBefore, h1, h2, h3]) h).elim
  have hall : ∀ r, answerFor env ctx msg c r = none := by
    intro r; cases r <;> assumption
  simp [issuedRequests, RegisterHostZone_all_accepted env ctx msg c hres hz hall,
    (updateLedger_frame _ _ _).2.1, acceptedRequests, requestFor]

/-- Witness for C5: the sample registration. -/
theorem RegisterHostZone_four_requests_witness :
    issuedRequests sampleEnv sampleCtx sampleMsg =
      [⟨"connection-0", "cosmoshub-4.DELEGATION", none⟩,
       ⟨"connection-0", "cosmoshub-4.FEE", none⟩,
       ⟨"connection-0", "cosmoshub-4.WITHDRAWAL", none⟩,
       ⟨"connection-0", "cosmoshub-4.REDEMPTION", none⟩] :=
  RegisterHostZone_four_requests sampleEnv sampleCtx sampleMsg "cosmoshub-4" rfl (by decide)
    (by decide)

/-- C6: if the account-creation request for role `r` is the first one to
fail (the requests for the roles before `r` are accepted, the one for `r` is
answered with `e`), the handler returns that error at once: the requests
issued are those for the roles before `r`, once each and in order, followed
by the failed one, none for a later role, and the epoch unbonding records are
as before the call. -/
theorem RegisterHostZone_first_failure (env : Env) (ctx : Ctx) (msg : MsgRegisterHostZone)
    (c : String) (r : ICAAccountType) (e : GoError)
    (hres : env.GetChainID msg.ConnectionId = .ok c)
    (hz : GetHostZone ctx c = none)
    (hbefore : ∀ r' ∈ rolesBefore r, answerFor env ctx msg c r' = none)
    (hfail : answerFor env ctx msg c r = some e) :
    (RegisterHostZone env ctx msg).2 = .error e ∧
    issuedRequests env ctx msg =
      (rolesBefore r).map
        (fun r' => ⟨msg.ConnectionId, env.FormatICAAccountOwner c r', none⟩) ++
      [⟨msg.ConnectionId, env.FormatICAAccountOwner c r, some e⟩] ∧
    (RegisterHostZone env ctx msg).1.epochUnbondingRecords = ctx.epochUnbondingRecords := by
  obtain ⟨ho, hc, he⟩ := RegisterHostZone_fail_at env ctx msg c r e hres hz hbefore hfail
  refine ⟨ho, ?_, he⟩
  simp [issuedRequests, hc, List.append_assoc, acceptedRequests, requestFor]

/-- Witness for C6: the provisioner rejects the third request, the one for
`WITHDRAWAL`. -/
theorem RegisterHostZone_first_failure_witness :
    (RegisterHostZone failThirdEnv sampleCtx sampleMsg).2 = .error (.ext "port already bound") ∧
    issuedRequests failThirdEnv sampleCtx sampleMsg =
      (rolesBefore .WITHDRAWAL).map
        (fun r' => ⟨sampleMsg.ConnectionId,
          failThirdEnv.FormatICAAccountOwner "cosmoshub-4" r', none⟩) ++
      [⟨sampleMsg.ConnectionId, failThirdEnv.FormatICAAccountOwner "cosmoshub-4" .WITHDRAWAL,
        some (.ext "port already bound")⟩] ∧
    (RegisterHostZone failThirdEnv sampleCtx sampleMsg).1.epochUnbondingRecords =
      sampleCtx.epochUnbondingRecords :=
  RegisterHostZone_first_failure failThirdEnv sampleCtx sampleMsg "cosmoshub-4" .WITHDRAWAL
    (.ext "port already bound") rfl (by decide) (by decide) (by decide)

/-! ## Registration: the ledger step -/

/-- C7: if no epoch unbonding record exists and all earlier steps succeed
(the chain id resolves to `c`, no zone exists for it, the four requests are
accepted), the handler fails with the epoch-unbonding-record-not-found error,
the epoch records are left as they were (none is written), and the host-zone
record written before is still in the store. -/
theorem RegisterHostZone_no_epoch (env : Env) (ctx : Ctx) (msg : MsgRegisterHostZone)
    (c : String)
    (hres : env.GetChainID msg.ConnectionId = .ok c)
    (hz : GetHostZone ctx c = none)
    (hall : ∀ r, answerFor env ctx msg c r = none)
    (hlatest : GetLatestEpochUnbondingRecord ctx = none) :
    (RegisterHostZone env ctx msg).2 =
      .error (.Wrapf .ErrEpochUnbondingRecordNotFound
        "unable to add host zone to latest epoch unbonding record") ∧
    (RegisterHostZone env ctx msg).1.epochUnbondingRecords = ctx.epochUnbondingRecords ∧
    GetLatestEpochUnbondingRecord (RegisterHostZone env ctx msg).1 = none ∧
    GetHostZone (RegisterHostZone env ctx msg).1 c = some (RegisterHostZone.zone c msg) := by
  have hzone := GetHostZone_after env ctx msg c hres hz
  refine ⟨?_, ?_, ?_, hzone⟩ <;>
  · have hl : ctx.epochUnbondingRecords.getLast? = none := hlatest
    rw [RegisterHostZone_all_accepted env ctx msg c hres hz hall]
    simp [RegisterHostZone.updateLedger, GetLatestEpochUnbondingRecord, hl]

/-- Witness for C7: the sample registration before any epoch was created. -/
theorem RegisterHostZone_no_epoch_witness :
    (RegisterHostZone sampleEnv noEpochCtx sampleMsg).2 =
      .error (.Wrapf .ErrEpochUnbondingRecordNotFound
        "unable to add host zone to latest epoch unbonding record") ∧
    (RegisterHostZone sampleEnv noEpochCtx sampleMsg).1.epochUnbondingRecords =
      noEpochCtx.epochUnbondingRecords ∧
    GetLatestEpochUnbondingRecord (RegisterHostZone sampleEnv noEpochCtx sampleMsg).1 = none ∧
    GetHostZone (RegisterHostZone sampleEnv noEpochCtx sampleMsg).1 "cosmoshub-4" =
      some (RegisterHostZone.zone "cosmoshub-4" sampleMsg) :=
  RegisterHostZone_no_epoch sampleEnv noEpochCtx sampleMsg "cosmoshub-4" rfl (by decide)
    (by intro r; cases r <;> rfl) (by decide)

/-- C8 (counterexample): in a context whose latest epoch record already holds
an entry for `cosmoshub-4`, the insertion of the placeholder returns `false`,
and the handler does not complete successfully. -/
theorem RegisterHostZone_conflict_not_success :
    (SetHostZoneEpochUnbondingRecord conflictCtx 0 "cosmoshub-4"
      (placeholder "cosmoshub-4" sampleMsg)).2 = false ∧
    GetLatestEpochUnbondingRecord conflictCtx =
      some ⟨0, [⟨5, "uatom", "cosmoshub-4", .BONDED⟩]⟩ ∧
    ¬ ∃ resp, (RegisterHostZone sampleEnv conflictCtx sampleMsg).2 = .ok resp := by
  refine ⟨by decide, by decide, ?_⟩
  rintro ⟨resp, h⟩
  have hp : (RegisterHostZone sampleEnv conflictCtx sampleMsg).2 =
      .panic "invalid memory address or nil pointer dereference" := by decide
  rw [hp] at h
  cases h

/-- C8 (amended): if `SetHostZoneEpochUnbondingRecord` returns `false` for the
new zone's placeholder entry, the handler aborts: the failure is logged, the
call does not complete successfully, and the epoch unbonding records are left
as they were. -/
theorem RegisterHostZone_conflict_aborts (env : Env) (ctx : Ctx) (msg : MsgRegisterHostZone)
    (c : String) (record : EpochUnbondingRecord)
    (hres : env.GetChainID msg.ConnectionId = .ok c)
    (hz : GetHostZone ctx c = none)
    (hall : ∀ r, answerFor env ctx msg c r = none)
    (hlatest : GetLatestEpochUnbondingRecord ctx = some record)
    (hins : (SetHostZoneEpochUnbondingRecord ctx record.Id c (placeholder c msg)).2 = false) :
    (∀ resp, (RegisterHostZone env ctx msg).2 ≠ .ok resp) ∧
    (⟨.Error, "Failed to set host zone epoch unbonding record %v"⟩ :
      LogEntry) ∈ (RegisterHostZone env ctx msg).1.logs ∧
    (RegisterHostZone env ctx msg).1.epochUnbondingRecords = ctx.epochUnbondingRecords := by
  rw [RegisterHostZone_all_accepted env ctx msg c hres hz hall]
  generalize hctx : ({ SetHostZone ctx (RegisterHostZone.zone c msg) with
          icaCalls := ctx.icaCalls ++ acceptedRequests env msg c
            [.DELEGATION, .FEE, .WITHDRAWAL, .REDEMPTION] } : Ctx) = ctx4
  have hrec : ctx4.epochUnbondingRecords = ctx.epochUnbondingRecords := by
    rw [← hctx]; simp
  have hl4 : GetLatestEpochUnbondingRecord ctx4 = some record := by
    unfold GetLatestEpochUnbondingRecord at hlatest ⊢
    rw [hrec, hlatest]
  have hset : (SetHostZoneEpochUnbondingRecord
      (((ctx4.log .Info "DOGE-1").log .Info "DOGE-2").log .Info "DOGE-3" |>.log .Info "DOGE-4")
      record.Id c (placeholder c msg)).2 = false := by
    rw [(SetHostZoneEpochUnbondingRecord_congr ctx _ record.Id c (placeholder c msg)
      (by simp [hrec])).1, hins]
  have hsame := SetHostZoneEpochUnbondingRecord_false _ _ _ _ hset
  simp only [placeholder] at hset hsame
  simp [RegisterHostZone.updateLedger, hl4, RegisterHostZone.zone, hset, hsame, hrec]

/-- Witness for C8 (amended): the sample registration into the context whose
latest epoch record already holds an entry for `cosmoshub-4`. -/
theorem RegisterHostZone_conflict_aborts_witness :
    (∀ resp, (RegisterHostZone sampleEnv conflictCtx sampleMsg).2 ≠ .ok resp) ∧
    (⟨.Error, "Failed to set host zone epoch unbonding record %v"⟩ :
      LogEntry) ∈ (RegisterHostZone sampleEnv conflictCtx sampleMsg).1.logs ∧
    (RegisterHostZone sampleEnv conflictCtx sampleMsg).1.epochUnbondingRecords =
      conflictCtx.epochUnbondingRecords :=
  RegisterHostZone_conflict_aborts sampleEnv conflictCtx sampleMsg "cosmoshub-4"
    ⟨0, [⟨5, "uatom", "cosmoshub-4", .BONDED⟩]⟩ rfl (by decide)
    (by intro r; cases r <;> rfl) (by decide) (by decide)

/-! ## Further lemmas on the paths and on the epoch store -/

@[simp] theorem SetHostZone_logs (ctx : Ctx) (z : HostZone) :
    (SetHostZone ctx z).logs = ctx.logs := by
  unfold SetHostZone; split <;> rfl

/-- Either some request is the first to be rejected, or all four are
accepted. -/
theorem answers_cases (env : Env) (ctx : Ctx) (msg : MsgRegisterHostZone) (c : String) :
    (∃ r e, (∀ r' ∈ rolesBefore r, answerFor env ctx msg c r' = none) ∧
      answerFor env ctx msg c r = some e) ∨
    (∀ r, answerFor env ctx msg c r = none) := by
  cases h1 : answerFor env ctx msg c .DELEGATION with
  | some e => exact .inl ⟨.DELEGATION, e, by simp [rolesBefore], h1⟩
  | none =>
    cases h2 : answerFor env ctx msg c .FEE with
    | some e => exact .inl ⟨.FEE, e, by simp [rolesBefore, h1], h2⟩
    | none =>
      cases h3 : answerFor env ctx msg c .WITHDRAWAL with
      | some e => exact .inl ⟨.WITHDRAWAL, e, by simp [rolesBefore, h1, h2], h3⟩
      | none =>
        cases h4 : answerFor env ctx msg c .REDEMPTION with
        | some e => exact .inl ⟨.REDEMPTION, e, by simp [rolesBefore, h1, h2, h3], h4⟩
        | none => exact .inr (by intro r; cases r <;> assumption)

/-- The host-zone store only grows at its end. -/
theorem RegisterHostZone_hostZones_append (env : Env) (ctx : Ctx) (msg : MsgRegisterHostZone) :
    ∃ l, (RegisterHostZone env ctx msg).1.hostZones = ctx.hostZones ++ l := by
  cases hres : env.GetChainID msg.ConnectionId with
  | error e => exact ⟨[], by simp only [RegisterHostZone, hres, List.append_nil]⟩
  | ok c =>
    cases hz : GetHostZone ctx c with
    | some z0 => exact ⟨[], by simp only [RegisterHostZone, hres, hz, List.append_nil]⟩
    | none => exact ⟨_, RegisterHostZone_hostZones env ctx msg c hres hz⟩

/-- Writing back a record with its own list of entries, emptied when it has
none, writes back the record itself. -/
theorem record_with_own_entries (r : EpochUnbondingRecord) :
    ({ r with HostZoneUnbondings :=
        if r.HostZoneUnbondings.length = 0 then [] else r.HostZoneUnbondings } :
      EpochUnbondingRecord) = r := by
  cases r with
  | mk id l =>
    cases l with
    | nil => rfl
    | cons a t => simp

/-- The records left by `SetEpochUnbondingRecord`: the written record, or a
record kept from before whose id differs. -/
theorem SetEpochUnbondingRecord_mem (ctx : Ctx) (r x : EpochUnbondingRecord)
    (hx : x ∈ (SetEpochUnbondingRecord ctx r).epochUnbondingRecords) :
    x = r ∨ (x ∈ ctx.epochUnbondingRecords ∧ x.Id ≠ r.Id) := by
  unfold SetEpochUnbondingRecord at hx
  split at hx
  · simp only [List.mem_map] at hx
    obtain ⟨y, hy, hyx⟩ := hx
    by_cases hid : y.Id = r.Id
    · simp [hid] at hyx
      exact .inl hyx.symm
    · simp [hid] at hyx
      subst hyx
      exact .inr ⟨hy, hid⟩
  · rename_i hany
    simp only [List.mem_append, List.mem_singleton] at hx
    rcases hx with hx | hx
    · right
      refine ⟨hx, ?_⟩
      intro hid
      apply hany
      rw [List.any_eq_true]
      exact ⟨x, hx, by simp [hid]⟩
    · exact .inl hx

/-- The records left by the insertion: records kept from before, or a record
with the targeted id. -/
theorem SetHostZoneEpochUnbondingRecord_mem (ctx : Ctx) (n : Nat) (c : String)
    (u : HostZoneUnbonding) (x : EpochUnbondingRecord)
    (hx : x ∈ (SetHostZoneEpochUnbondingRecord ctx n c u).1.epochUnbondingRecords) :
    x ∈ ctx.epochUnbondingRecords ∨ x.Id = n := by
  simp only [SetHostZoneEpochUnbondingRecord] at hx
  unfold SetHostZoneEpochUnbondingRecord.insert at hx
  split at hx
  · exact .inl hx
  · rename_i r hr
    have hid : r.Id = n := by
      have := List.find?_some hr
      simpa using this
    split at hx
    · exact .inl hx
    · rcases SetEpochUnbondingRecord_mem _ _ _ hx with h | h
      · right; rw [h]; exact hid
      · exact .inl h.1

/-- Every epoch record left by the ledger step was in the store before it. -/
theorem updateLedger_epoch_subset (ctx : Ctx) (c : String) (z : HostZone)
    (x : EpochUnbondingRecord)
    (hx : x ∈ (RegisterHostZone.updateLedger ctx c z).1.epochUnbondingRecords) :
    x ∈ ctx.epochUnbondingRecords := by
  unfold RegisterHostZone.updateLedger at hx
  cases hl : GetLatestEpochUnbondingRecord ctx with
  | none => simpa [hl] using hx
  | some record =>
    have hmem : record ∈ ctx.epochUnbondingRecords := by
      unfold GetLatestEpochUnbondingRecord at hl
      obtain ⟨ys, hys⟩ := List.getLast?_eq_some_iff.mp hl
      rw [hys]; simp
    simp only [hl, record_with_own_entries] at hx
    split at hx
    · rename_i hset
      have hfalse : (SetHostZoneEpochUnbondingRecord
          ((((ctx.log .Info "DOGE-1").log .Info "DOGE-2").log .Info "DOGE-3").log .Info "DOGE-4")
          record.Id c ⟨0, z.HostDenom, z.ChainId, .BONDED⟩).2 = false := by
        simpa using hset
      rw [log_epochUnbondingRecords, SetHostZoneEpochUnbondingRecord_false _ _ _ _ hfalse] at hx
      simpa using hx
    · rw [log_epochUnbondingRecords] at hx
      rcases SetEpochUnbondingRecord_mem _ _ _ hx with h | ⟨h, hne⟩
      · rw [h]; exact hmem
      · rw [log_epochUnbondingRecords] at h
        rcases SetHostZoneEpochUnbondingRecord_mem _ _ _ _ _ h with h' | h'
        · simpa using h'
        · exact (hne h').elim

/-- Every epoch record left by the handler was in the store before the call. -/
theorem RegisterHostZone_epoch_subset (env : Env) (ctx : Ctx) (msg : MsgRegisterHostZone)
    (x : EpochUnbondingRecord)
    (hx : x ∈ (RegisterHostZone env ctx msg).1.epochUnbondingRecords) :
    x ∈ ctx.epochUnbondingRecords := by
  cases hres : env.GetChainID msg.ConnectionId with
  | error e =>
    simp only [RegisterHostZone, hres] at hx
    exact hx
  | ok c =>
    cases hz : GetHostZone ctx c with
    | some z0 =>
      rw [RegisterHostZone_found env ctx msg c z0 hres hz] at hx
      exact hx
    | none =>
      rcases answers_cases env ctx msg c with ⟨r, e, hb, hf⟩ | hall
      · rw [(RegisterHostZone_fail_at env ctx msg c r e hres hz hb hf).2.2] at hx
        exact hx
      · rw [RegisterHostZone_all_accepted env ctx msg c hres hz hall] at hx
        have := updateLedger_epoch_subset _ _ _ _ hx
        simpa using this

/-! ## Registration: the zone record, continued -/

/-- C11: the host-zone record written by the handler is the one added to the
store, it is found under the chain id resolved from the request's connection
id and carries that chain id, and its connection id, bech32 prefix, IBC denom,
host denom, transfer channel id and unbonding frequency are the request's. -/
theorem RegisterHostZone_zone_fields (env : Env) (ctx : Ctx) (msg : MsgRegisterHostZone)
    (c : String)
    (hres : env.GetChainID msg.ConnectionId = .ok c)
    (hz : GetHostZone ctx c = none) :
    ∃ z, (RegisterHostZone env ctx msg).1.hostZones = ctx.hostZones ++ [z] ∧
      GetHostZone (RegisterHostZone env ctx msg).1 c = some z ∧
      z.ChainId = c ∧
      z.ConnectionId = msg.ConnectionId ∧
      z.Bech32Prefix = msg.Bech32Prefix ∧
      z.IBCDenom = msg.IbcDenom ∧
      z.HostDenom = msg.HostDenom ∧
      z.TransferChannelId = msg.TransferChannelId ∧
      z.UnbondingFrequency = msg.UnbondingFrequency :=
  ⟨RegisterHostZone.zone c msg, RegisterHostZone_hostZones env ctx msg c hres hz,
    GetHostZone_after env ctx msg c hres hz, rfl, rfl, rfl, rfl, rfl, rfl, rfl⟩

/-- Witness for C11: the sample registration. -/
theorem RegisterHostZone_zone_fields_witness :
    ∃ z, (RegisterHostZone sampleEnv sampleCtx sampleMsg).1.hostZones =
        sampleCtx.hostZones ++ [z] ∧
      GetHostZone (RegisterHostZone sampleEnv sampleCtx sampleMsg).1 "cosmoshub-4" = some z ∧
      z.ChainId = "cosmoshub-4" ∧
      z.ConnectionId = sampleMsg.ConnectionId ∧
      z.Bech32Prefix = sampleMsg.Bech32Prefix ∧
      z.IBCDenom = sampleMsg.IbcDenom ∧
      z.HostDenom = sampleMsg.HostDenom ∧
      z.TransferChannelId = sampleMsg.TransferChannelId ∧
      z.UnbondingFrequency = sampleMsg.UnbondingFrequency :=
  RegisterHostZone_zone_fields sampleEnv sampleCtx sampleMsg "cosmoshub-4" rfl (by decide)

/-- C12: once the handler has passed the uniqueness check (the chain id
resolves to `c`, for which no zone exists), the host-zone record for `c` is in
the store when the handler is left, whatever the provisioner answers and
whatever the epoch store holds. -/
theorem RegisterHostZone_zone_persists (env : Env) (ctx : Ctx) (msg : MsgRegisterHostZone)
    (c : String)
    (hres : env.GetChainID msg.ConnectionId = .ok c)
    (hz : GetHostZone ctx c = none) :
    ∃ z, GetHostZone (RegisterHostZone env ctx msg).1 c = some z ∧ z.ChainId = c ∧
      z ∈ (RegisterHostZone env ctx msg).1.hostZones := by
  refine ⟨RegisterHostZone.zone c msg, GetHostZone_after env ctx msg c hres hz, rfl, ?_⟩
  rw [RegisterHostZone_hostZones env ctx msg c hres hz]
  simp

/-- Witness for C12: the provisioner rejects the `WITHDRAWAL` request; the call
returns its error and the zone for `cosmoshub-4` is in the store. -/
theorem RegisterHostZone_zone_persists_witness :
    (RegisterHostZone failThirdEnv sampleCtx sampleMsg).2 = .error (.ext "port already bound") ∧
    ∃ z, GetHostZone (RegisterHostZone failThirdEnv sampleCtx sampleMsg).1 "cosmoshub-4" =
        some z ∧ z.ChainId = "cosmoshub-4" ∧
      z ∈ (RegisterHostZone failThirdEnv sampleCtx sampleMsg).1.hostZones :=
  ⟨by decide,
    RegisterHostZone_zone_persists failThirdEnv sampleCtx sampleMsg "cosmoshub-4" rfl
      (by decide)⟩

/-- C17: a host-zone record that exists before a call is found, identical,
under its chain id after the call, whatever the call does; the store after the
call is the store before it with records added at its end at most. -/
theorem RegisterHostZone_keeps_zones (env : Env) (ctx : Ctx) (msg : MsgRegisterHostZone)
    (c' : String) (z : HostZone)
    (h : GetHostZone ctx c' = some z) :
    GetHostZone (RegisterHostZone env ctx msg).1 c' = some z ∧
    ∃ l, (RegisterHostZone env ctx msg).1.hostZones = ctx.hostZones ++ l := by
  obtain ⟨l, hl⟩ := RegisterHostZone_hostZones_append env ctx msg
  refine ⟨?_, l, hl⟩
  unfold GetHostZone at h ⊢
  rw [hl, List.find?_append, h]
  rfl

/-- Witness for C17: registering `cosmoshub-4` where `osmosis-1` is already
registered with a rate that has moved. -/
theorem RegisterHostZone_keeps_zones_witness :
    (RegisterHostZone sampleEnv osmosisCtx sampleMsg).2 = .ok {} ∧
    (GetHostZone (RegisterHostZone sampleEnv osmosisCtx sampleMsg).1 "osmosis-1" =
      some { ChainId := "osmosis-1", ConnectionId := "connection-1", Bech32Prefix := "osmo",
             IBCDenom := "ibc/uosmo", HostDenom := "uosmo", TransferChannelId := "channel-1",
             RedemptionRate := ⟨1050000000000000000⟩, LastRedemptionRate := NewDec 1,
             UnbondingFrequency := 1 } ∧
    ∃ l, (RegisterHostZone sampleEnv osmosisCtx sampleMsg).1.hostZones =
      osmosisCtx.hostZones ++ l) :=
  ⟨by decide,
    RegisterHostZone_keeps_zones sampleEnv osmosisCtx sampleMsg "osmosis-1" _ (by decide)⟩

/-! ## Registration: the ledger invariant -/

/-- C16: the handler preserves the ledger invariant that every epoch
unbonding record holds at most one entry per `host_zone_id`: if it holds for
every stored record before a call, it holds for every stored record after the
call, whatever the call returns. -/
theorem RegisterHostZone_preserves_ledgerInvariant (env : Env) (ctx : Ctx)
    (msg : MsgRegisterHostZone) (h : ledgerInvariant ctx) :
    ledgerInvariant (RegisterHostZone env ctx msg).1 := by
  intro r hr
  exact h r (RegisterHostZone_epoch_subset env ctx msg r hr)

/-- Witness for C16: registering `cosmoshub-4` in a context with two epoch
records, one of them holding an entry. -/
theorem RegisterHostZone_preserves_ledgerInvariant_witness :
    ledgerInvariant osmosisCtx ∧
    ledgerInvariant (RegisterHostZone sampleEnv osmosisCtx sampleMsg).1 :=
  ⟨by decide,
    RegisterHostZone_preserves_ledgerInvariant sampleEnv osmosisCtx sampleMsg (by decide)⟩

/-! ## Registration: the insertion call, the returned error, the response -/

@[simp] theorem log_ledgerCalls (ctx : Ctx) (l : LogLevel) (m : String) :
    (ctx.log l m).ledgerCalls = ctx.ledgerCalls := rfl

@[simp] theorem SetHostZone_ledgerCalls (ctx : Ctx) (z : HostZone) :
    (SetHostZone ctx z).ledgerCalls = ctx.ledgerCalls := by
  unfold SetHostZone; split <;> rfl

@[simp] theorem SetEpochUnbondingRecord_ledgerCalls (ctx : Ctx) (r : EpochUnbondingRecord) :
    (SetEpochUnbondingRecord ctx r).ledgerCalls = ctx.ledgerCalls := by
  unfold SetEpochUnbondingRecord; split <;> rfl

@[simp] theorem insert_ledgerCalls (ctx : Ctx) (n : Nat) (c : String) (u : HostZoneUnbonding) :
    (SetHostZoneEpochUnbondingRecord.insert ctx n c u).1.ledgerCalls = ctx.ledgerCalls := by
  unfold SetHostZoneEpochUnbondingRecord.insert; split
  · rfl
  · split <;> simp

/-- The insertion records its call: the arguments and the result. -/
theorem SetHostZoneEpochUnbondingRecord_ledgerCalls (ctx : Ctx) (n : Nat) (c : String)
    (u : HostZoneUnbonding) :
    (SetHostZoneEpochUnbondingRecord ctx n c u).1.ledgerCalls =
      ctx.ledgerCalls ++ [⟨n, c, u, (SetHostZoneEpochUnbondingRecord ctx n c u).2⟩] := by
  simp [SetHostZoneEpochUnbondingRecord]

/-- The ledger step makes one insertion call: it targets the id of the latest
record, is keyed by the chain id, and carries the entry built at lines
91-96. -/
theorem updateLedger_ledgerCalls (ctx : Ctx) (c : String) (z : HostZone)
    (record : EpochUnbondingRecord) (hl : GetLatestEpochUnbondingRecord ctx = some record) :
    (RegisterHostZone.updateLedger ctx c z).1.ledgerCalls =
      ctx.ledgerCalls ++ [⟨record.Id, c, ⟨0, z.HostDenom, z.ChainId, .BONDED⟩,
        (SetHostZoneEpochUnbondingRecord ctx record.Id c
          ⟨0, z.HostDenom, z.ChainId, .BONDED⟩).2⟩] := by
  have hcongr := (SetHostZoneEpochUnbondingRecord_congr ctx
    ((((ctx.log .Info "DOGE-1").log .Info "DOGE-2").log .Info "DOGE-3").log .Info "DOGE-4")
    record.Id c ⟨0, z.HostDenom, z.ChainId, .BONDED⟩ (by simp)).1
  simp only [RegisterHostZone.updateLedger, hl]
  split <;>
    simp [SetHostZoneEpochUnbondingRecord_ledgerCalls, hcongr]

/-- C13: when the handler reaches the ledger step (the chain id resolves to
`c`, no zone exists for it, the four requests are accepted) and `LatestRecord`
returns `record`, the handler makes exactly one insertion call.  The call
targets `record.Id`, the id of a record that was in the store before the call
(every record in the store afterwards was in it before: none is created), it is
keyed by `c`, and the entry it passes has `host_zone_id = c`, `denom` the
request's host denom, amount 0 and status `BONDED`.  The run is what follows
that call. -/
theorem RegisterHostZone_insertion_call (env : Env) (ctx : Ctx) (msg : MsgRegisterHostZone)
    (c : String) (record : EpochUnbondingRecord)
    (hres : env.GetChainID msg.ConnectionId = .ok c)
    (hz : GetHostZone ctx c = none)
    (hall : ∀ r, answerFor env ctx msg c r = none)
    (hlatest : GetLatestEpochUnbondingRecord ctx = some record) :
    record ∈ ctx.epochUnbondingRecords ∧
    (∀ x ∈ (RegisterHostZone env ctx msg).1.epochUnbondingRecords,
      x ∈ ctx.epochUnbondingRecords) ∧
    (∃ success, (RegisterHostZone env ctx msg).1.ledgerCalls = ctx.ledgerCalls ++
      [{ epochNumber := record.Id, chainId := c,
         hostZoneUnbonding :=
           { Amount := 0, Denom := msg.HostDenom, HostZoneId := c, Status := .BONDED },
         success := success }]) ∧
    ∃ ctx', ctx'.epochUnbondingRecords = ctx.epochUnbondingRecords ∧
      RegisterHostZone env ctx msg =
        RegisterHostZone.afterInsert
          (SetHostZoneEpochUnbondingRecord ctx' record.Id c
            { Amount := 0, Denom := msg.HostDenom, HostZoneId := c, Status := .BONDED })
          record := by
  refine ⟨?_, fun x hx => RegisterHostZone_epoch_subset env ctx msg x hx, ?_, ?_⟩
  · unfold GetLatestEpochUnbondingRecord at hlatest
    obtain ⟨ys, hys⟩ := List.getLast?_eq_some_iff.mp hlatest
    rw [hys]; simp
  · rw [RegisterHostZone_all_accepted env ctx msg c hres hz hall]
    generalize hctx : ({ SetHostZone ctx (RegisterHostZone.zone c msg) with
          icaCalls := ctx.icaCalls ++ acceptedRequests env msg c
            [.DELEGATION, .FEE, .WITHDRAWAL, .REDEMPTION] } : Ctx) = ctx4
    have hrec : ctx4.epochUnbondingRecords = ctx.epochUnbondingRecords := by
      rw [← hctx]; simp
    have hcalls : ctx4.ledgerCalls = ctx.ledgerCalls := by
      rw [← hctx]; simp
    have hl4 : GetLatestEpochUnbondingRecord ctx4 = some record := by
      unfold GetLatestEpochUnbondingRecord at hlatest ⊢
      rw [hrec, hlatest]
    rw [updateLedger_ledgerCalls ctx4 c _ record hl4, hcalls]
    exact ⟨_, rfl⟩
  · rw [RegisterHostZone_all_accepted env ctx msg c hres hz hall]
    generalize hctx : ({ SetHostZone ctx (RegisterHostZone.zone c msg) with
          icaCalls := ctx.icaCalls ++ acceptedRequests env msg c
            [.DELEGATION, .FEE, .WITHDRAWAL, .REDEMPTION] } : Ctx) = ctx4
    have hrec : ctx4.epochUnbondingRecords = ctx.epochUnbondingRecords := by
      rw [← hctx]; simp
    have hl4 : GetLatestEpochUnbondingRecord ctx4 = some record := by
      unfold GetLatestEpochUnbondingRecord at hlatest ⊢
      rw [hrec, hlatest]
    refine ⟨(((ctx4.log .Info "DOGE-1").log .Info "DOGE-2").log .Info "DOGE-3").log
      .Info "DOGE-4", by simp [hrec], ?_⟩
    simp only [RegisterHostZone.updateLedger, hl4, RegisterHostZone.afterInsert,
      RegisterHostZone.zone]

/-- Witness for C13: the sample registration, whose latest epoch record is
the record of id 0. -/
theorem RegisterHostZone_insertion_call_witness :
    (⟨0, []⟩ : EpochUnbondingRecord) ∈ sampleCtx.epochUnbondingRecords ∧
    (∀ x ∈ (RegisterHostZone sampleEnv sampleCtx sampleMsg).1.epochUnbondingRecords,
      x ∈ sampleCtx.epochUnbondingRecords) ∧
    (∃ success, (RegisterHostZone sampleEnv sampleCtx sampleMsg).1.ledgerCalls =
      sampleCtx.ledgerCalls ++
      [{ epochNumber := (⟨0, []⟩ : EpochUnbondingRecord).Id, chainId := "cosmoshub-4",
         hostZoneUnbonding :=
           { Amount := 0, Denom := sampleMsg.HostDenom, HostZoneId := "cosmoshub-4",
             Status := .BONDED },
         success := success }]) ∧
    ∃ ctx', ctx'.epochUnbondingRecords = sampleCtx.epochUnbondingRecords ∧
      RegisterHostZone sampleEnv sampleCtx sampleMsg =
        RegisterHostZone.afterInsert
          (SetHostZoneEpochUnbondingRecord ctx' (⟨0, []⟩ : EpochUnbondingRecord).Id
            "cosmoshub-4"
            { Amount := 0, Denom := sampleMsg.HostDenom, HostZoneId := "cosmoshub-4",
              Status := .BONDED })
          ⟨0, []⟩ :=
  RegisterHostZone_insertion_call sampleEnv sampleCtx sampleMsg "cosmoshub-4" ⟨0, []⟩
    rfl (by decide) (by intro r; cases r <;> rfl) (by decide)

/-- C14 (counterexample): one provisioner rejects the `DELEGATION` request,
another accepts the first two requests and rejects the `WITHDRAWAL` request
with the same error; the two calls return the same error. -/
theorem RegisterHostZone_failure_roles_indistinguishable :
    answerFor failFirstEnv sampleCtx sampleMsg "cosmoshub-4" .DELEGATION =
      some (.ext "port already bound") ∧
    (∀ r' ∈ rolesBefore .WITHDRAWAL,
      answerFor failThirdEnv sampleCtx sampleMsg "cosmoshub-4" r' = none) ∧
    answerFor failThirdEnv sampleCtx sampleMsg "cosmoshub-4" .WITHDRAWAL =
      some (.ext "port already bound") ∧
    (RegisterHostZone failFirstEnv sampleCtx sampleMsg).2 =
      (RegisterHostZone failThirdEnv sampleCtx sampleMsg).2 := by
  decide

/-- C14 (amended): when the request for role `r` is the first to fail, the
handler returns the provisioner's error as it is, the same value whatever the
role; the role is named only by the message logged last before returning. -/
theorem RegisterHostZone_failure_error (env : Env) (ctx : Ctx) (msg : MsgRegisterHostZone)
    (c : String) (r : ICAAccountType) (e : GoError)
    (hres : env.GetChainID msg.ConnectionId = .ok c)
    (hz : GetHostZone ctx c = none)
    (hbefore : ∀ r' ∈ rolesBefore r, answerFor env ctx msg c r' = none)
    (hfail : answerFor env ctx msg c r = some e) :
    (RegisterHostZone env ctx msg).2 = .error e ∧
    (RegisterHostZone env ctx msg).1.logs = ctx.logs ++ [⟨.Error, failureMessage r⟩] := by
  cases r <;>
    simp [answerFor, rolesBefore, acceptedRequests, requestFor] at hbefore hfail <;>
    simp [RegisterHostZone, hres, hz, RegisterHostZone.zone, hbefore, hfail,
      failureMessage, RegisterInterchainAccount]

/-- Witness for C14 (amended): the provisioner rejects the `WITHDRAWAL`
request. -/
theorem RegisterHostZone_failure_error_witness :
    (RegisterHostZone failThirdEnv sampleCtx sampleMsg).2 = .error (.ext "port already bound") ∧
    (RegisterHostZone failThirdEnv sampleCtx sampleMsg).1.logs =
      sampleCtx.logs ++ [⟨.Error, failureMessage .WITHDRAWAL⟩] :=
  RegisterHostZone_failure_error failThirdEnv sampleCtx sampleMsg "cosmoshub-4" .WITHDRAWAL
    (.ext "port already bound") rfl (by decide) (by decide) (by decide)

/-- The ledger step returns no other response than the empty struct
literal. -/
theorem updateLedger_response (ctx : Ctx) (c : String) (z : HostZone)
    (resp : MsgRegisterHostZoneResponse)
    (hok : (RegisterHostZone.updateLedger ctx c z).2 = .ok resp) : resp = {} := by
  unfold RegisterHostZone.updateLedger at hok
  cases hl : GetLatestEpochUnbondingRecord ctx with
  | none => simp [hl] at hok
  | some record =>
    simp only [hl] at hok
    split at hok
    · cases hok
    · cases hok; rfl

/-- The handler returns no other response than the empty struct literal. -/
theorem RegisterHostZone_response (env : Env) (ctx : Ctx) (msg : MsgRegisterHostZone)
    (resp : MsgRegisterHostZoneResponse)
    (hok : (RegisterHostZone env ctx msg).2 = .ok resp) : resp = {} := by
  cases hres : env.GetChainID msg.ConnectionId with
  | error e =>
    simp only [RegisterHostZone, hres] at hok
    cases hok
  | ok c =>
    cases hz : GetHostZone ctx c with
    | some z0 =>
      rw [RegisterHostZone_found env ctx msg c z0 hres hz] at hok
      cases hok
    | none =>
      rcases answers_cases env ctx msg c with ⟨r, e, hb, hf⟩ | hall
      · rw [(RegisterHostZone_fail_at env ctx msg c r e hres hz hb hf).1] at hok
        cases hok
      · rw [RegisterHostZone_all_accepted env ctx msg c hres hz hall] at hok
        exact updateLedger_response _ _ _ _ hok

/-- C15 (counterexample): the sample registration resolves `connection-0` to
`cosmoshub-4` and succeeds; the response it returns has the empty string as
its chain id and as its connection id, neither the resolved chain id nor the
request's connection id. -/
theorem RegisterHostZone_response_not_identity :
    sampleEnv.GetChainID sampleMsg.ConnectionId = .ok "cosmoshub-4" ∧
    sampleMsg.ConnectionId = "connection-0" ∧
    ∃ resp, (RegisterHostZone sampleEnv sampleCtx sampleMsg).2 = .ok resp ∧
      resp.ChainId = "" ∧ resp.ConnectionId = "" ∧
      resp.ChainId ≠ "cosmoshub-4" ∧ resp.ConnectionId ≠ sampleMsg.ConnectionId :=
  ⟨rfl, rfl, {}, by decide, rfl, rfl, by decide, by decide⟩

/-- C15 (amended): on success the handler returns the empty struct literal
`MsgRegisterHostZoneResponse{}`: the chain id and the connection id of the
response are the empty string, whatever the resolved chain id and the
request's connection id are. -/
theorem RegisterHostZone_success_response (env : Env) (ctx : Ctx) (msg : MsgRegisterHostZone)
    (resp : MsgRegisterHostZoneResponse)
    (hok : (RegisterHostZone env ctx msg).2 = .ok resp) :
    resp.ChainId = "" ∧ resp.ConnectionId = "" := by
  have h := RegisterHostZone_response env ctx msg resp hok
  rw [h]
  exact ⟨rfl, rfl⟩

/-- Witness for C15 (amended): the sample registration. -/
theorem RegisterHostZone_success_response_witness :
    (RegisterHostZone sampleEnv sampleCtx sampleMsg).2 = .ok {} ∧
    (({} : MsgRegisterHostZoneResponse).ChainId = "" ∧
      ({} : MsgRegisterHostZoneResponse).ConnectionId = "") :=
  ⟨by decide, RegisterHostZone_success_response sampleEnv sampleCtx sampleMsg {} (by decide)⟩

/-! ## Utilities: `GetVestedCoinsAt` and `Insert` -/

/-- An `int64` value is left as it is by the reduction to the `int64` range. -/
theorem wrapInt64_of_isInt64 (x : Int) (h : isInt64 x) : wrapInt64 x = x := by
  unfold isInt64 at h
  unfold wrapInt64
  omega

/-- C19 (counterexample): with `vLength = 0` and `vAt = vStart`, `vAt` is at
or after `vStart + vLength`, and the function returns the empty coin set, not
`vCoins`; with `vStart` the least `int64` and `vLength = -1` the sum wraps, and
at `vAt = 0`, which is after `vStart + vLength`, the function returns other
amounts than those of `vCoins`. -/
theorem GetVestedCoinsAt_not_all_at_end :
    ((5 : Int) ≥ 5 + 0 ∧
      GetVestedCoinsAt (fun _ => true) 5 5 0 [⟨"ustrd", 100⟩] = .ok [] ∧
      GetVestedCoinsAt (fun _ => true) 5 5 0 [⟨"ustrd", 100⟩] ≠ .ok [⟨"ustrd", 100⟩]) ∧
    ((0 : Int) ≥ -2 ^ 63 + -1 ∧
      GetVestedCoinsAt (fun _ => true) 0 (-2 ^ 63) (-1) [⟨"ustrd", 100⟩] =
        .ok [⟨"ustrd", 922337203685477580800⟩]) := by
  refine ⟨⟨by decide, rfl, ?_⟩, by decide, by rfl⟩
  rw [show GetVestedCoinsAt (fun _ => true) 5 5 0 [⟨"ustrd", 100⟩] = .ok [] from rfl]
  intro h
  cases h

/-- C19 (amended): the function returns the empty coin set for every `vAt` at
or before `vStart`, and returns `vCoins` unchanged for every `int64` `vAt`
strictly after `vStart` and at or after `vStart + vLength`, when that sum does
not fall below the `int64` range. -/
theorem GetVestedCoinsAt_ends (validDenom : String → Bool) (vAt vStart vLength : Int)
    (vCoins : Coins) (hAt : isInt64 vAt) :
    (vAt ≤ vStart → GetVestedCoinsAt validDenom vAt vStart vLength vCoins = .ok []) ∧
    (vStart < vAt → vStart + vLength ≤ vAt → -2 ^ 63 ≤ vStart + vLength →
      GetVestedCoinsAt validDenom vAt vStart vLength vCoins = .ok vCoins) := by
  constructor
  · intro h
    simp [GetVestedCoinsAt, h]
  · intro h1 h2 h3
    have hw : wrapInt64 (vStart + vLength) = vStart + vLength := by
      apply wrapInt64_of_isInt64
      unfold isInt64 at hAt ⊢
      omega
    have hn : ¬ vAt ≤ vStart := by omega
    simp [GetVestedCoinsAt, hw, hn, h2]

/-- Witness for C19 (amended): a vesting of length 3 starting at 5, looked at
before its start and after its end. -/
theorem GetVestedCoinsAt_ends_witness :
    GetVestedCoinsAt (fun _ => true) 3 5 3 [⟨"ustrd", 100⟩] = .ok [] ∧
    GetVestedCoinsAt (fun _ => true) 10 5 3 [⟨"ustrd", 100⟩] = .ok [⟨"ustrd", 100⟩] :=
  ⟨(GetVestedCoinsAt_ends (fun _ => true) 3 5 3 [⟨"ustrd", 100⟩]
      ⟨by decide, by decide⟩).1 (by decide),
   (GetVestedCoinsAt_ends (fun _ => true) 10 5 3 [⟨"ustrd", 100⟩]
      ⟨by decide, by decide⟩).2 (by decide) (by decide) (by decide)⟩

/-- Overwriting position `i` of the first `i + 1` elements followed by the
elements from `i` on gives the first `i` elements, the value, and the elements
from `i` on. -/
theorem set_take_succ_append_drop {α : Type} (v : α) :
    ∀ (a : List α) (i : Nat), i < a.length →
      (a.take (i + 1) ++ a.drop i).set i v = a.take i ++ v :: a.drop i
  | [], i, h => by simp at h
  | x :: t, 0, _ => by simp
  | x :: t, j + 1, h => by
    have hj : j < t.length := by simpa using h
    have ih := set_take_succ_append_drop v t j hj
    simp [ih]

/-- C20: for every slice `a`, every index with `0 ≤ index ≤ len(a)` and every
value, `Insert` returns a slice of length `len(a) + 1` made of the first
`index` elements of `a`, then the value, then the remaining elements of `a` in
their order. -/
theorem Insert_spec {α : Type} (a : List α) (index : Int) (value : α)
    (h0 : 0 ≤ index) (h1 : index ≤ a.length) :
    Insert a index value = .ok (a.take index.toNat ++ [value] ++ a.drop index.toNat) ∧
    (a.take index.toNat ++ [value] ++ a.drop index.toNat).length = a.length + 1 := by
  obtain ⟨i, rfl⟩ := Int.eq_ofNat_of_zero_le h0
  have hi : i ≤ a.length := by exact_mod_cast h1
  constructor
  · by_cases heq : a.length = i
    · subst heq
      simp [Insert]
    · have hlt : i < a.length := by omega
      have hne : ¬ ((a.length : Int) = (i : Int)) := by exact_mod_cast heq
      have hrange : ¬ ((i : Int) < 0 ∨ (a.length : Int) < (i : Int)) := by omega
      simp only [Insert, hne, hrange, if_false, Int.toNat_ofNat]
      rw [set_take_succ_append_drop value a i hlt]
      simp
  · simp only [Int.toNat_ofNat, List.length_append, List.length_take, List.length_drop,
      List.length_singleton]
    omega

/-- Witness for C20: inserting in the middle of a three-element slice. -/
theorem Insert_spec_witness :
    Insert [1, 2, 3] 1 (9 : Nat) =
      .ok (([1, 2, 3] : List Nat).take (1 : Int).toNat ++ [9] ++
        ([1, 2, 3] : List Nat).drop (1 : Int).toNat) ∧
    (([1, 2, 3] : List Nat).take (1 : Int).toNat ++ [9] ++
        ([1, 2, 3] : List Nat).drop (1 : Int).toNat).length = [1, 2, 3].length + 1 :=
  Insert_spec [1, 2, 3] 1 9 (by decide) (by decide)

/-! ## Address utilities -/

/-- A string is empty exactly when its length is 0. -/
theorem length_ne_zero_of_ne_empty (s : String) (h : s ≠ "") : s.length ≠ 0 := by
  intro h0
  apply h
  cases s with
  | mk l =>
    cases l with
    | nil => rfl
    | cons a t => simp [String.length] at h0

/-- `VerifyAddressFormat` accepts exactly the slices of length 20. -/
theorem VerifyAddressFormat_len (bz : List Nat) :
    VerifyAddressFormat bz = none ↔ bz.length = 20 := by
  by_cases h : bz.length = 20
  · simp [VerifyAddressFormat, VerifyAddressFormat.verifier, h, MaxAddrLen]
  · simp [VerifyAddressFormat, VerifyAddressFormat.verifier, h]

/-- C21: `VerifyAddressFormat` returns `nil` exactly when the byte slice has
length 20; for every other length, the empty slice and slices longer than
`MaxAddrLen` included, it returns the incorrect-address-length error, and it
never returns the addresses-cannot-be-empty or the address-max-length
error. -/
theorem VerifyAddressFormat_spec (bz : List Nat) :
    (VerifyAddressFormat bz = none ↔ bz.length = 20) ∧
    (bz.length ≠ 20 →
      VerifyAddressFormat bz =
        some (.Errorf ("incorrect address length " ++ toString bz.length))) ∧
    (∀ msg, VerifyAddressFormat bz ≠ some (.Wrapf ErrUnknownAddress msg)) := by
  by_cases h : bz.length = 20
  · have hv : VerifyAddressFormat bz = none := by
      simp [VerifyAddressFormat, VerifyAddressFormat.verifier, h, MaxAddrLen]
    refine ⟨⟨fun _ => h, fun _ => hv⟩, fun hne => (hne h).elim, ?_⟩
    intro msg; rw [hv]; simp
  · have hv : VerifyAddressFormat bz =
        some (.Errorf ("incorrect address length " ++ toString bz.length)) := by
      simp [VerifyAddressFormat, VerifyAddressFormat.verifier, h]
    refine ⟨⟨fun hn => ?_, fun h20 => (h h20).elim⟩, fun _ => hv, ?_⟩
    · rw [hv] at hn; cases hn
    · intro msg; rw [hv]; simp

/-- C22: `ValidateAdminAddress` returns `nil` exactly when the address is one
of the two entries of `ADMINS`, and for every other string, the empty one
included, an error that wraps the invalid-address error. -/
theorem ValidateAdminAddress_spec (address : String) :
    (ValidateAdminAddress address = none ↔
      (address = "stride1k8c2m5cn322akk5wy8lpt87dd2f4yh9azg7jlh" ∨
       address = "stride10d07y265gmmuvt4z0w9aw880jnsr700jefnezl")) ∧
    (ValidateAdminAddress address ≠ none →
      ∃ err, ValidateAdminAddress address = some err ∧
        err.unwrap = some ErrInvalidAddress) ∧
    (∃ err, ValidateAdminAddress "" = some err ∧ err.unwrap = some ErrInvalidAddress) := by
  refine ⟨?_, ?_, ⟨_, rfl, rfl⟩⟩
  · by_cases h1 : address = "stride1k8c2m5cn322akk5wy8lpt87dd2f4yh9azg7jlh"
    · subst h1
      simp [ValidateAdminAddress, mapLookup, ADMINS]
    · by_cases h2 : address = "stride10d07y265gmmuvt4z0w9aw880jnsr700jefnezl"
      · subst h2
        simp [ValidateAdminAddress, mapLookup, ADMINS]
      · have h1' : ¬ ("stride1k8c2m5cn322akk5wy8lpt87dd2f4yh9azg7jlh" = address) :=
          fun h => h1 h.symm
        have h2' : ¬ ("stride10d07y265gmmuvt4z0w9aw880jnsr700jefnezl" = address) :=
          fun h => h2 h.symm
        have e1 : ("stride1k8c2m5cn322akk5wy8lpt87dd2f4yh9azg7jlh" == address) = false := by
          simpa using h1'
        have e2 : ("stride10d07y265gmmuvt4z0w9aw880jnsr700jefnezl" == address) = false := by
          simpa using h2'
        simp [ValidateAdminAddress, mapLookup, ADMINS, List.find?, h1, h2, e1, e2]
  · intro hne
    unfold ValidateAdminAddress at hne ⊢
    split
    · exact ⟨_, rfl, rfl⟩
    · rename_i hm
      simp [hm] at hne

/-- C23: `GetFromBech32` fails with the empty-address error on the empty
string; on a non-empty string it propagates the decoder's error when the
string does not decode, fails with an invalid-prefix error when the decoded
human-readable part differs from the expected one, and otherwise returns
exactly the decoded bytes. -/
theorem GetFromBech32_spec (decode : String → Except GoError (String × List Nat))
    (p : String) :
    GetFromBech32 decode "" p = .error errBech32EmptyAddress ∧
    (∀ s e, s ≠ "" → decode s = .error e → GetFromBech32 decode s p = .error e) ∧
    (∀ s hrp bz, s ≠ "" → decode s = .ok (hrp, bz) → hrp ≠ p →
      GetFromBech32 decode s p =
        .error (.Errorf ("invalid Bech32 prefix; expected " ++ p ++ ", got " ++ hrp))) ∧
    (∀ s bz, s ≠ "" → decode s = .ok (p, bz) → GetFromBech32 decode s p = .ok bz) := by
  refine ⟨rfl, ?_, ?_, ?_⟩
  · intro s e hs hd
    simp [GetFromBech32, length_ne_zero_of_ne_empty s hs, hd]
  · intro s hrp bz hs hd hne
    simp [GetFromBech32, length_ne_zero_of_ne_empty s hs, hd, hne]
  · intro s bz hs hd
    simp [GetFromBech32, length_ne_zero_of_ne_empty s hs, hd]

/-- Trimming a string made of white space only leaves the empty string. -/
theorem TrimSpace_of_all_space (s : String) (h : s.toList.all isSpace = true) :
    (TrimSpace s).length = 0 := by
  have hd : s.toList.dropWhile isSpace = [] := by
    rw [List.dropWhile_eq_nil_iff]
    intro x hx
    exact (List.all_eq_true.mp h) x hx
  unfold TrimSpace
  rw [hd]
  rfl

/-- C24: `AccAddressFromBech32` rejects every address string that is empty or
made of white space only, and whenever it succeeds the returned address is the
bytes decoded from the string, has length exactly 20, and the string's
human-readable part is the given one. -/
theorem AccAddressFromBech32_spec (decode : String → Except GoError (String × List Nat))
    (p : String) :
    (∀ a, (a = "" ∨ a.toList.all isSpace = true) →
      AccAddressFromBech32 decode a p =
        .error (errorsNew "empty address string is not allowed")) ∧
    (∀ a bz, AccAddressFromBech32 decode a p = .ok bz →
      decode a = .ok (p, bz) ∧ bz.length = 20) := by
  constructor
  · intro a ha
    have hall : a.toList.all isSpace = true := by
      rcases ha with rfl | h
      · rfl
      · exact h
    simp [AccAddressFromBech32, TrimSpace_of_all_space a hall]
  · intro a bz hok
    unfold AccAddressFromBech32 at hok
    split at hok
    · cases hok
    · split at hok
      · cases hok
      · rename_i bz' hget
        split at hok
        · cases hok
        · rename_i hver
          cases hok
          have hlen : bz.length = 20 := (VerifyAddressFormat_len bz).mp hver
          refine ⟨?_, hlen⟩
          unfold GetFromBech32 at hget
          split at hget
          · cases hget
          · split at hget
            · cases hget
            · rename_i hrp bz'' hd
              split at hget
              · cases hget
              · rename_i hp
                cases hget
                have : hrp = p := by simpa using hp
                rw [hd, this]

/-- Witness for C21: a slice of three bytes is refused with the
incorrect-address-length error. -/
theorem VerifyAddressFormat_spec_witness :
    VerifyAddressFormat [1, 2, 3] =
      some (.Errorf ("incorrect address length " ++ toString [1, 2, 3].length)) :=
  (VerifyAddressFormat_spec [1, 2, 3]).2.1 (by decide)

/-- Witness for C22: the second entry of `ADMINS` is accepted. -/
theorem ValidateAdminAddress_spec_witness :
    ValidateAdminAddress "stride10d07y265gmmuvt4z0w9aw880jnsr700jefnezl" = none :=
  (ValidateAdminAddress_spec "stride10d07y265gmmuvt4z0w9aw880jnsr700jefnezl").1.mpr
    (.inr rfl)

/-- Witness for C23: with the sample decoder, `cosmos1sample` decodes under
the expected human-readable part `cosmos` and is refused under `osmo`. -/
theorem GetFromBech32_spec_witness :
    GetFromBech32 sampleDecode "cosmos1sample" "cosmos" = .ok (List.replicate 20 7) ∧
    GetFromBech32 sampleDecode "cosmos1sample" "osmo" =
      .error (.Errorf ("invalid Bech32 prefix; expected " ++ "osmo" ++ ", got " ++ "cosmos")) ∧
    GetFromBech32 sampleDecode "nonsense" "cosmos" = .error (.ext "decoding bech32 failed") :=
  ⟨(GetFromBech32_spec sampleDecode "cosmos").2.2.2 "cosmos1sample" _ (by decide) rfl,
   (GetFromBech32_spec sampleDecode "osmo").2.2.1 "cosmos1sample" "cosmos" _ (by decide) rfl
     (by decide),
   (GetFromBech32_spec sampleDecode "cosmos").2.1 "nonsense" _ (by decide) rfl⟩

/-- Witness for C24: with the sample decoder, a string of blanks is refused,
and `cosmos1sample` gives its twenty decoded bytes. -/
theorem AccAddressFromBech32_spec_witness :
    AccAddressFromBech32 sampleDecode " \t " "cosmos" =
      .error (errorsNew "empty address string is not allowed") ∧
    AccAddressFromBech32 sampleDecode "cosmos1sample" "cosmos" = .ok (List.replicate 20 7) ∧
    (sampleDecode "cosmos1sample" = .ok ("cosmos", List.replicate 20 7) ∧
      (List.replicate 20 7).length = 20) :=
  ⟨(AccAddressFromBech32_spec sampleDecode "cosmos").1 " \t " (.inr (by decide)),
   rfl,
   (AccAddressFromBech32_spec sampleDecode "cosmos").2 "cosmos1sample" _ rfl⟩

/-! ## The last reduction epoch number -/

/-- The value written under a key is the value read under it. -/
theorem KVStore.Get_Set (store : KVStore) (key value : List Nat) :
    (store.Set key value).Get key = some value := by
  simp [KVStore.Get, KVStore.Set, List.find?]

/-- Reading back the eight bytes of a `uint64` gives the number. -/
theorem BigEndianToUint64_Uint64ToBigEndian (n : Nat) (h : n < 2 ^ 64) :
    BigEndianToUint64 (Uint64ToBigEndian n) = .ok n := by
  simp only [BigEndianToUint64, Uint64ToBigEndian, List.length_cons, List.length_nil]
  norm_num
  omega

/-- C28: `GetLastReductionEpochNum` returns 0 when no value has been stored,
and for every `int64` `epochNum ≥ 0`, `SetLastReductionEpochNum(epochNum)`
followed by `GetLastReductionEpochNum` returns `epochNum`. -/
theorem LastReductionEpochNum_roundtrip (key : List Nat) (store : KVStore) :
    (store.Get key = none → GetLastReductionEpochNum key store = .ok 0) ∧
    (∀ epochNum : Int, 0 ≤ epochNum → epochNum < 2 ^ 63 →
      GetLastReductionEpochNum key (SetLastReductionEpochNum key store epochNum) =
        .ok epochNum) := by
  constructor
  · intro h
    simp [GetLastReductionEpochNum, h]
  · intro epochNum h0 h1
    obtain ⟨n, rfl⟩ := Int.eq_ofNat_of_zero_le h0
    have hn : n < 2 ^ 64 := by omega
    have hc : castToUint64 (n : Int) = n := by simp [castToUint64]
    simp only [GetLastReductionEpochNum, SetLastReductionEpochNum, KVStore.Get_Set, hc,
      BigEndianToUint64_Uint64ToBigEndian n hn]
    have hw : wrapInt64 (n : Int) = n :=
      wrapInt64_of_isInt64 _ ⟨by omega, h1⟩
    simp only [castToInt64, hw]

/-- Witness for C28: an empty store, and a store in which another value was
already written. -/
theorem LastReductionEpochNum_roundtrip_witness :
    GetLastReductionEpochNum [3] [] = .ok 0 ∧
    GetLastReductionEpochNum [3]
      (SetLastReductionEpochNum [3] (SetLastReductionEpochNum [3] [] 7) 123456789012345) =
        .ok 123456789012345 :=
  ⟨(LastReductionEpochNum_roundtrip [3] []).1 rfl,
   (LastReductionEpochNum_roundtrip [3] (SetLastReductionEpochNum [3] [] 7)).2
     123456789012345 (by decide) (by decide)⟩

/-! ## Distribution of minted coins -/

/-- Chopping a whole multiple of `10^18` gives the multiple back, without
rounding. -/
theorem chopPrecisionAndRound_mul (k : Int) :
    chopPrecisionAndRound (k * 10 ^ Precision) = k := by
  have hpos : (0 : Int) < 10 ^ Precision := by simp [Precision]
  have h1 : ∀ j : Int, chopPrecisionAndRoundNonneg (j * 10 ^ Precision) = j := by
    intro j
    simp [chopPrecisionAndRoundNonneg, Int.mul_ediv_cancel _ (ne_of_gt hpos)]
  unfold chopPrecisionAndRound
  split
  · rw [← neg_mul, h1]; simp
  · exact h1 k

/-- The amount `GetProportions` hands to `sdk.NewCoin`: the product of the
minted amount and the ratio, as an exact decimal, truncated toward zero. -/
theorem TruncateInt_ToDec_Mul (a : Int) (r : Dec) :
    ((ToDec a).Mul r).TruncateInt = Int.tdiv (a * r.i) (10 ^ Precision) := by
  have h : a * 10 ^ Precision * r.i = (a * r.i) * 10 ^ Precision := by ring
  simp only [Dec.TruncateInt, Dec.Mul, ToDec, h, chopPrecisionAndRound_mul]

/-- The share of a valid minted coin for a non-negative ratio, as a coin
set. -/
theorem GetProportions_bind_NewCoins (v : String → Bool) (c : Coin) (r : Dec)
    (hden : v c.Denom = true) (hamt : 0 ≤ c.Amount) (hr : 0 ≤ r.i) :
    (GetProportions v c r).bind (NewCoins v) =
      .ok (singleCoin c.Denom (c.Amount * r.i / 10 ^ Precision)) := by
  have hx : 0 ≤ c.Amount * r.i := mul_nonneg hamt hr
  have hp : (0 : Int) ≤ 10 ^ Precision := by simp [Precision]
  have hq : 0 ≤ c.Amount * r.i / 10 ^ Precision := Int.ediv_nonneg hx hp
  have hnlt : ¬ c.Amount * r.i / 10 ^ Precision < 0 := by omega
  simp only [GetProportions, TruncateInt_ToDec_Mul, Int.tdiv_eq_ediv hx hp, NewCoin, hden,
    Bool.not_true, Bool.false_eq_true, if_false, hnlt, Except.bind, NewCoins, singleCoin]
  split <;> rfl

/-- The set made of a valid coin. -/
theorem NewCoins_valid (v : String → Bool) (c : Coin)
    (hden : v c.Denom = true) (hamt : 0 ≤ c.Amount) :
    NewCoins v c = .ok (singleCoin c.Denom c.Amount) := by
  have hnlt : ¬ c.Amount < 0 := by omega
  simp only [NewCoins, hden, Bool.not_true, Bool.false_eq_true, if_false, hnlt, singleCoin]
  split <;> rfl

/-- Subtracting, within one denomination, an amount that is not larger. -/
theorem singleCoin_Sub (d : String) (a b : Int) (hb : 0 ≤ b) (hab : b ≤ a) :
    (singleCoin d a).Sub (singleCoin d b) = .ok (singleCoin d (a - b)) := by
  have hcmp : compare d d = .eq := by simp [compare, compareOfLessAndEq]
  by_cases ha0 : a = 0
  · have hb0 : b = 0 := by omega
    subst ha0; subst hb0
    rfl
  · by_cases hb0 : b = 0
    · subst hb0
      have hn : ¬ a < 0 := by omega
      simp [singleCoin, ha0, Coins.Sub, Coins.safeAdd, Coins.safeAddGo, removeZeroCoins, hn]
    · by_cases hab0 : a - b = 0
      · have hab' : a + -b = 0 := by omega
        simp [singleCoin, ha0, hb0, hab0, Coins.Sub, Coins.safeAdd, Coins.safeAddGo, hcmp,
          hab', removeZeroCoins]
      · have hab' : ¬ (a + -b = 0) := by omega
        have hn : ¬ a + -b < 0 := by omega
        have he : a + -b = a - b := by ring
        simp [singleCoin, ha0, hb0, hab0, Coins.Sub, Coins.safeAdd, Coins.safeAddGo, hcmp,
          hab', removeZeroCoins, hn, he]
        exact hab

/-- The amount of the denomination in the set that holds only it. -/
theorem singleCoin_AmountOf (d : String) (a : Int) : (singleCoin d a).AmountOf d = a := by
  by_cases h : a = 0
  · simp [singleCoin, h, Coins.AmountOf]
  · simp [singleCoin, h, Coins.AmountOf]

/-- The shares of a non-negative amount for non-negative proportions that sum
to at most 1 are not negative and leave a non-negative remainder. -/
theorem shares_bounds (env : MintEnv) (c : Coin) (hamt : 0 ≤ c.Amount)
    (hp : proportionsNonneg env.params.DistributionProportions)
    (hsum : proportionsSum env.params.DistributionProportions ≤ 10 ^ Precision) :
    0 ≤ share c env.params.DistributionProportions.Staking ∧
    0 ≤ share c env.params.DistributionProportions.StrategicReserve ∧
    0 ≤ share c env.params.DistributionProportions.CommunityPoolGrowth ∧
    0 ≤ share c env.params.DistributionProportions.CommunityPoolSecurityBudget ∧
    0 ≤ remainder env c := by
  obtain ⟨h1, h2, h3, h4⟩ := hp
  have hx : c.Amount * env.params.DistributionProportions.Staking.i
      + c.Amount * env.params.DistributionProportions.StrategicReserve.i
      + c.Amount * env.params.DistributionProportions.CommunityPoolGrowth.i
      + c.Amount * env.params.DistributionProportions.CommunityPoolSecurityBudget.i
      ≤ c.Amount * 10 ^ Precision := by
    have := mul_le_mul_of_nonneg_left hsum hamt
    unfold proportionsSum at this
    linarith
  have m1 := mul_nonneg hamt h1
  have m2 := mul_nonneg hamt h2
  have m3 := mul_nonneg hamt h3
  have m4 := mul_nonneg hamt h4
  simp only [share, remainder, Precision] at *
  norm_num at *
  omega

/-- When the proportions sum to exactly 1, the remainder is at most 3. -/
theorem remainder_le_three (env : MintEnv) (c : Coin) (hamt : 0 ≤ c.Amount)
    (hp : proportionsNonneg env.params.DistributionProportions)
    (hsum : proportionsSum env.params.DistributionProportions = 10 ^ Precision) :
    remainder env c ≤ 3 := by
  obtain ⟨h1, h2, h3, h4⟩ := hp
  have hx : c.Amount * env.params.DistributionProportions.Staking.i
      + c.Amount * env.params.DistributionProportions.StrategicReserve.i
      + c.Amount * env.params.DistributionProportions.CommunityPoolGrowth.i
      + c.Amount * env.params.DistributionProportions.CommunityPoolSecurityBudget.i
      = c.Amount * 10 ^ Precision := by
    rw [← hsum]; unfold proportionsSum; ring
  have m1 := mul_nonneg hamt h1
  have m2 := mul_nonneg hamt h2
  have m3 := mul_nonneg hamt h3
  have m4 := mul_nonneg hamt h4
  simp only [share, remainder, Precision] at *
  norm_num at *
  omega

/-- The run of `DistributeMintedCoin` on a valid minted coin, for non-negative
proportions that sum to at most 1, when the bank keeper accepts the first four
transfers: the four shares are sent, then the remainder. -/
theorem DistributeMintedCoin_run (env : MintEnv) (c : Coin)
    (hden : env.validDenom c.Denom = true) (hamt : 0 ≤ c.Amount)
    (hp : proportionsNonneg env.params.DistributionProportions)
    (hsum : proportionsSum env.params.DistributionProportions ≤ 10 ^ Precision)
    (hsend : ∀ done t, done.length < 4 → env.send done t = none) :
    DistributeMintedCoin env c =
      (shareTransfers env c ++ [sweepTransfer env c],
        match env.send (shareTransfers env c) (sweepTransfer env c) with
        | some err => .error err
        | none => .ok) := by
  obtain ⟨b1, b2, b3, b4, b5⟩ := shares_bounds env c hamt hp hsum
  obtain ⟨h1, h2, h3, h4⟩ := hp
  have e1 := GetProportions_bind_NewCoins env.validDenom c _ hden hamt h1
  have e2 := GetProportions_bind_NewCoins env.validDenom c _ hden hamt h2
  have e3 := GetProportions_bind_NewCoins env.validDenom c _ hden hamt h3
  have e4 := GetProportions_bind_NewCoins env.validDenom c _ hden hamt h4
  have s1 := singleCoin_Sub c.Denom c.Amount
    (share c env.params.DistributionProportions.Staking) b1
    (by unfold remainder at b5; omega)
  have s2 := singleCoin_Sub c.Denom
    (c.Amount - share c env.params.DistributionProportions.Staking)
    (share c env.params.DistributionProportions.StrategicReserve) b2
    (by unfold remainder at b5; omega)
  have s3 := singleCoin_Sub c.Denom
    (c.Amount - share c env.params.DistributionProportions.Staking
      - share c env.params.DistributionProportions.StrategicReserve)
    (share c env.params.DistributionProportions.CommunityPoolGrowth) b3
    (by unfold remainder at b5; omega)
  have s4 := singleCoin_Sub c.Denom
    (c.Amount - share c env.params.DistributionProportions.Staking
      - share c env.params.DistributionProportions.StrategicReserve
      - share c env.params.DistributionProportions.CommunityPoolGrowth)
    (share c env.params.DistributionProportions.CommunityPoolSecurityBudget) b4
    (by unfold remainder at b5; omega)
  simp only [share] at e1 e2 e3 e4 s1 s2 s3 s4
  simp only [DistributeMintedCoin, e1, e2, e3, e4,
    hsend [] _ (by simp), hsend [_] _ (by simp), hsend [_, _] _ (by simp),
    hsend [_, _, _] _ (by simp)]
  simp only [DistributeMintedCoin.sweep, NewCoins_valid env.validDenom c hden hamt, bind,
    Except.bind, s1, s2, s3, s4, shareTransfers, sweepTransfer, remainder, share]
  split <;> simp_all

/-- A number below `2 ^ n` in absolute value has at most `n` bits. -/
theorem BitLen_le (x : Int) (n : Nat) (h : x.natAbs < 2 ^ n) : BitLen x ≤ n :=
  Nat.size_le.mpr h

/-- When the truncated product of an amount and a ratio is not negative and
below `2 ^ 255`, neither overflow test of the library fires on the way to
it. -/
theorem GetProportions_no_overflow (a : Int) (r : Dec)
    (h0 : 0 ≤ Int.tdiv (a * r.i) (10 ^ Precision))
    (h1 : Int.tdiv (a * r.i) (10 ^ Precision) < 2 ^ maxBitLen) :
    Dec.Mul.overflows (ToDec a) r = false ∧
    Dec.TruncateInt.overflows ((ToDec a).Mul r) = false := by
  have hmul : (ToDec a).i * r.i = (a * r.i) * 10 ^ Precision := by
    simp only [ToDec]; ring
  have habs : (Int.tdiv (a * r.i) (10 ^ Precision)).natAbs
      = (a * r.i).natAbs / 10 ^ 18 := by
    rw [Int.natAbs_tdiv]; rfl
  have ht : ((Int.tdiv (a * r.i) (10 ^ Precision)).natAbs : Int)
      = Int.tdiv (a * r.i) (10 ^ Precision) := Int.natAbs_of_nonneg h0
  have hlt : (Int.tdiv (a * r.i) (10 ^ Precision)).natAbs < 2 ^ 255 := by
    have h2 : ((Int.tdiv (a * r.i) (10 ^ Precision)).natAbs : Int) < 2 ^ 255 := by
      rw [ht]; simpa [maxBitLen] using h1
    exact_mod_cast h2
  have hprod : (a * r.i).natAbs < 2 ^ (255 + 60) := by
    rw [habs] at hlt
    rw [Nat.pow_add]
    generalize (2 : Nat) ^ 255 = K at hlt ⊢
    omega
  constructor
  · simp only [Dec.Mul.overflows, hmul, chopPrecisionAndRound_mul, decide_eq_false_iff_not,
      not_lt, maxDecBitLen, maxBitLen]
    exact BitLen_le _ _ hprod
  · have hd : ((ToDec a).Mul r).i = a * r.i := by
      simp only [Dec.Mul, hmul, chopPrecisionAndRound_mul]
    simp only [Dec.TruncateInt.overflows, hd, decide_eq_false_iff_not, not_lt, maxBitLen]
    exact BitLen_le _ _ hlt

/-- C25 (counterexample): for the valid coin of 10 `ustrd` and the ratio
`-0.5`, the product truncated toward zero is `-5`, and `GetProportions` does
not return a coin: `sdk.NewCoin` panics on the negative amount. -/
theorem GetProportions_negative_ratio_panics :
    Int.tdiv ((10 : Int) * (-500000000000000000)) (10 ^ Precision) = -5 ∧
    GetProportions (fun _ => true) ⟨"ustrd", 10⟩ ⟨-500000000000000000⟩ =
      .error "negative coin amount: -5" :=
  ⟨by decide, rfl⟩

/-- C25 (amended): for a minted coin of valid denomination, whenever the
minted amount multiplied by the ratio and truncated toward zero is not
negative and is below `2 ^ 255`, the bound of `sdk.Int`, neither overflow test
of the library fires and `GetProportions` returns the coin of the minted
coin's denomination with that amount; for every ratio between 0 and 1
inclusive and minted amount that is not negative and below `2 ^ 255` it
returns a coin whose amount is between 0 and the minted amount. -/
theorem GetProportions_spec (v : String → Bool) (c : Coin) (r : Dec)
    (hden : v c.Denom = true) :
    (0 ≤ Int.tdiv (c.Amount * r.i) (10 ^ Precision) →
      Int.tdiv (c.Amount * r.i) (10 ^ Precision) < 2 ^ maxBitLen →
      Dec.Mul.overflows (ToDec c.Amount) r = false ∧
      Dec.TruncateInt.overflows ((ToDec c.Amount).Mul r) = false ∧
      GetProportions v c r = .ok ⟨c.Denom, Int.tdiv (c.Amount * r.i) (10 ^ Precision)⟩) ∧
    (0 ≤ r.i → r.i ≤ 10 ^ Precision → 0 ≤ c.Amount → c.Amount < 2 ^ maxBitLen →
      Dec.Mul.overflows (ToDec c.Amount) r = false ∧
      Dec.TruncateInt.overflows ((ToDec c.Amount).Mul r) = false ∧
      ∃ coin, GetProportions v c r = .ok coin ∧ coin.Denom = c.Denom ∧
        coin.Amount = Int.tdiv (c.Amount * r.i) (10 ^ Precision) ∧
        0 ≤ coin.Amount ∧ coin.Amount ≤ c.Amount) := by
  have hform : ∀ (_ : 0 ≤ Int.tdiv (c.Amount * r.i) (10 ^ Precision)),
      GetProportions v c r = .ok ⟨c.Denom, Int.tdiv (c.Amount * r.i) (10 ^ Precision)⟩ := by
    intro h
    have hnlt : ¬ Int.tdiv (c.Amount * r.i) (10 ^ Precision) < 0 := by omega
    simp only [GetProportions, TruncateInt_ToDec_Mul, NewCoin, hden, Bool.not_true,
      Bool.false_eq_true, if_false, hnlt]
  constructor
  · intro h0 h1
    obtain ⟨o1, o2⟩ := GetProportions_no_overflow c.Amount r h0 h1
    exact ⟨o1, o2, hform h0⟩
  · intro h0 h1 hamt hmax
    have hx : 0 ≤ c.Amount * r.i := mul_nonneg hamt h0
    have hx1 : c.Amount * r.i ≤ c.Amount * 10 ^ Precision := mul_le_mul_of_nonneg_left h1 hamt
    have hp : (0 : Int) ≤ 10 ^ Precision := by simp [Precision]
    have ht : Int.tdiv (c.Amount * r.i) (10 ^ Precision) = c.Amount * r.i / 10 ^ Precision :=
      Int.tdiv_eq_ediv hx hp
    have hb : 0 ≤ c.Amount * r.i / 10 ^ Precision ∧
        c.Amount * r.i / 10 ^ Precision ≤ c.Amount := by
      simp only [Precision] at *
      norm_num at *
      omega
    have ht0 : 0 ≤ Int.tdiv (c.Amount * r.i) (10 ^ Precision) := by rw [ht]; exact hb.1
    have ht1 : Int.tdiv (c.Amount * r.i) (10 ^ Precision) < 2 ^ maxBitLen := by
      rw [ht]; exact lt_of_le_of_lt hb.2 hmax
    obtain ⟨o1, o2⟩ := GetProportions_no_overflow c.Amount r ht0 ht1
    refine ⟨o1, o2, _, hform ht0, rfl, rfl, ht0, ?_⟩
    rw [ht]; exact hb.2

/-- Witness for C25 (amended): half of 11 `ustrd` is 5 `ustrd`. -/
theorem GetProportions_spec_witness :
    (Dec.Mul.overflows (ToDec 11) ⟨500000000000000000⟩ = false ∧
      Dec.TruncateInt.overflows ((ToDec 11).Mul ⟨500000000000000000⟩) = false ∧
      GetProportions (fun _ => true) ⟨"ustrd", 11⟩ ⟨500000000000000000⟩ =
        .ok ⟨"ustrd", Int.tdiv ((11 : Int) * 500000000000000000) (10 ^ Precision)⟩) ∧
    (Dec.Mul.overflows (ToDec 11) ⟨500000000000000000⟩ = false ∧
      Dec.TruncateInt.overflows ((ToDec 11).Mul ⟨500000000000000000⟩) = false ∧
      ∃ coin, GetProportions (fun _ => true) ⟨"ustrd", 11⟩ ⟨500000000000000000⟩ = .ok coin ∧
        coin.Denom = "ustrd" ∧
        coin.Amount = Int.tdiv ((11 : Int) * 500000000000000000) (10 ^ Precision) ∧
        0 ≤ coin.Amount ∧ coin.Amount ≤ 11) :=
  ⟨(GetProportions_spec (fun _ => true) ⟨"ustrd", 11⟩ ⟨500000000000000000⟩ rfl).1
      (by decide)
      (by
        rw [show Int.tdiv ((⟨"ustrd", 11⟩ : Coin).Amount * (⟨500000000000000000⟩ : Dec).i)
          (10 ^ Precision) = 5 by decide]
        norm_num [maxBitLen]),
   (GetProportions_spec (fun _ => true) ⟨"ustrd", 11⟩ ⟨500000000000000000⟩ rfl).2
     (by decide) (by decide) (by decide) (by norm_num [maxBitLen])⟩

/-- C26: when the four distribution proportions are non-negative and sum to
exactly 1, and the four transfers of the shares of a valid minted coin are
accepted, the fifth transfer sweeps the remainder to the community growth
pool, and that remainder, all in the minted denomination, is at least 0 and at
most 3 base units. -/
theorem DistributeMintedCoin_remainder (env : MintEnv) (c : Coin)
    (hden : env.validDenom c.Denom = true) (hamt : 0 ≤ c.Amount)
    (hp : proportionsNonneg env.params.DistributionProportions)
    (hsum : proportionsSum env.params.DistributionProportions = 10 ^ Precision)
    (hsend : ∀ done t, done.length < 4 → env.send done t = none) :
    ∃ t, (DistributeMintedCoin env c).1 = shareTransfers env c ++ [t] ∧
      t.recipient = .submodule env.CommunityGrowthSubmoduleName ∧
      (∀ x ∈ t.coins, x.Denom = c.Denom) ∧
      0 ≤ t.coins.AmountOf c.Denom ∧ t.coins.AmountOf c.Denom ≤ 3 := by
  have hrun := DistributeMintedCoin_run env c hden hamt hp (le_of_eq hsum) hsend
  have h0 := (shares_bounds env c hamt hp (le_of_eq hsum)).2.2.2.2
  have h3 := remainder_le_three env c hamt hp hsum
  refine ⟨sweepTransfer env c, by rw [hrun], rfl, ?_, ?_, ?_⟩
  · intro x hx
    simp only [sweepTransfer, singleCoin] at hx
    split at hx
    · cases hx
    · simp at hx; rw [hx]
  · simp only [sweepTransfer, singleCoin_AmountOf]; exact h0
  · simp only [sweepTransfer, singleCoin_AmountOf]; exact h3

/-- Witness for C26: 1003 `ustrd` under the proportions 0.5, 0.25, 0.15 and
0.1. -/
theorem DistributeMintedCoin_remainder_witness :
    ∃ t, (DistributeMintedCoin sampleMintEnv ⟨"ustrd", 1003⟩).1 =
        shareTransfers sampleMintEnv ⟨"ustrd", 1003⟩ ++ [t] ∧
      t.recipient = .submodule sampleMintEnv.CommunityGrowthSubmoduleName ∧
      (∀ x ∈ t.coins, x.Denom = "ustrd") ∧
      0 ≤ t.coins.AmountOf "ustrd" ∧ t.coins.AmountOf "ustrd" ≤ 3 :=
  DistributeMintedCoin_remainder sampleMintEnv ⟨"ustrd", 1003⟩ rfl (by decide)
    ⟨by decide, by decide, by decide, by decide⟩ (by decide) (fun _ _ _ => rfl)

/-- C27: when the four distribution proportions are non-negative and sum to at
most 1 and every bank transfer succeeds, `DistributeMintedCoin` of a valid
minted coin returns `nil` after five transfers (staking incentives, strategic
reserve, community growth, security budget, swept remainder) whose amounts of
the minted denomination sum exactly to the minted amount. -/
theorem DistributeMintedCoin_total (env : MintEnv) (c : Coin)
    (hden : env.validDenom c.Denom = true) (hamt : 0 ≤ c.Amount)
    (hp : proportionsNonneg env.params.DistributionProportions)
    (hsum : proportionsSum env.params.DistributionProportions ≤ 10 ^ Precision)
    (hsend : ∀ done t, env.send done t = none) :
    (DistributeMintedCoin env c).2 = .ok ∧
    (DistributeMintedCoin env c).1 = shareTransfers env c ++ [sweepTransfer env c] ∧
    (DistributeMintedCoin env c).1.length = 5 ∧
    ((DistributeMintedCoin env c).1.map (fun t => t.coins.AmountOf c.Denom)).sum =
      c.Amount := by
  have hrun := DistributeMintedCoin_run env c hden hamt hp hsum (fun d t _ => hsend d t)
  rw [hsend] at hrun
  rw [hrun]
  refine ⟨rfl, rfl, rfl, ?_⟩
  simp only [shareTransfers, sweepTransfer, List.cons_append, List.nil_append, List.map_cons,
    List.map_nil, singleCoin_AmountOf, List.sum_cons, List.sum_nil, remainder]
  ring

/-- Witness for C27: 1003 `ustrd` under the proportions 0.5, 0.25, 0.15 and
0.1: 501, 250, 150, 100 and 2. -/
theorem DistributeMintedCoin_total_witness :
    (DistributeMintedCoin sampleMintEnv ⟨"ustrd", 1003⟩).2 = .ok ∧
    (DistributeMintedCoin sampleMintEnv ⟨"ustrd", 1003⟩).1 =
      shareTransfers sampleMintEnv ⟨"ustrd", 1003⟩ ++
        [sweepTransfer sampleMintEnv ⟨"ustrd", 1003⟩] ∧
    (DistributeMintedCoin sampleMintEnv ⟨"ustrd", 1003⟩).1.length = 5 ∧
    ((DistributeMintedCoin sampleMintEnv ⟨"ustrd", 1003⟩).1.map
      (fun t => t.coins.AmountOf "ustrd")).sum = 1003 :=
  DistributeMintedCoin_total sampleMintEnv ⟨"ustrd", 1003⟩ rfl (by decide)
    ⟨by decide, by decide, by decide, by decide⟩ (by decide) (fun _ _ => rfl)

/-! ## Vesting between start and end -/

/-- Rounding a non-negative number of `10^-18` units to an integer: the
result is not negative, within half a unit of the number, and at most `k` when
the number is at most `k` units. -/
theorem chopPrecisionAndRound_nonneg (d : Int) (hd : 0 ≤ d) :
    0 ≤ chopPrecisionAndRound d ∧
    2 * (chopPrecisionAndRound d * 10 ^ Precision - d) ≤ 10 ^ Precision ∧
    -(10 ^ Precision) ≤ 2 * (chopPrecisionAndRound d * 10 ^ Precision - d) ∧
    (∀ k : Int, d ≤ k * 10 ^ Precision → chopPrecisionAndRound d ≤ k) := by
  have hn : ¬ d < 0 := by omega
  simp only [chopPrecisionAndRound, hn, if_false, chopPrecisionAndRoundNonneg, Precision]
  norm_num
  refine ⟨?_, ?_, ?_, ?_⟩
  · split_ifs <;> omega
  · split_ifs <;> omega
  · split_ifs <;> omega
  · intro k hk
    split_ifs <;> omega

/-- Mapping a function that never fails over a list, in `Except`. -/
theorem mapM_ok {α β : Type} (f : α → Except String β) (g : α → β) (l : List α)
    (h : ∀ c ∈ l, f c = .ok (g c)) : l.mapM f = .ok (l.map g) := by
  induction l with
  | nil => rfl
  | cons a t ih =>
    rw [List.mapM_cons, h a (by simp), ih (fun c hc => h c (by simp [hc]))]
    rfl

/-- The vesting scalar for a time strictly inside the vesting period: between
0 and 1, and within `10^-18` of the elapsed fraction. -/
theorem vestingScalar_bounds (vAt vStart vLength : Int)
    (h1 : vStart < vAt) (h2 : vAt < vStart + vLength) :
    0 ≤ vestingScalar vAt vStart vLength ∧
    vestingScalar vAt vStart vLength ≤ 10 ^ Precision ∧
    |vestingScalar vAt vStart vLength * vLength - (vAt - vStart) * 10 ^ Precision| <
      vLength := by
  have ha : 0 < vAt - vStart := by omega
  have hb : 0 < vLength := by omega
  have hab : vAt - vStart < vLength := by omega
  unfold vestingScalar
  generalize vAt - vStart = a at *
  have hP : (0 : Int) < 10 ^ Precision := by simp [Precision]
  have hq : Int.tdiv (a * 10 ^ Precision * 10 ^ Precision * 10 ^ Precision)
      (vLength * 10 ^ Precision) = a * 10 ^ Precision * 10 ^ Precision / vLength := by
    rw [Int.tdiv_eq_ediv (by positivity) (by positivity)]
    exact Int.mul_ediv_mul_of_pos_left _ _ hP
  rw [hq]
  generalize hqdef : a * 10 ^ Precision * 10 ^ Precision / vLength = q
  have hq0 : 0 ≤ q := by
    rw [← hqdef]; exact Int.ediv_nonneg (by positivity) (le_of_lt hb)
  have hlo : q * vLength ≤ a * 10 ^ Precision * 10 ^ Precision := by
    rw [← hqdef]; exact Int.ediv_mul_le _ (ne_of_gt hb)
  have hhi : a * 10 ^ Precision * 10 ^ Precision < (q + 1) * vLength := by
    rw [← hqdef]; exact Int.lt_ediv_add_one_mul_self _ hb
  obtain ⟨c0, c1, c2, c3⟩ := chopPrecisionAndRound_nonneg q hq0
  generalize chopPrecisionAndRound q = pp at *
  have hqlt : q < 10 ^ Precision * 10 ^ Precision := by
    by_contra hcon
    push_neg at hcon
    have : 10 ^ Precision * 10 ^ Precision * vLength ≤ q * vLength :=
      mul_le_mul_of_nonneg_right hcon (le_of_lt hb)
    have : a * (10 ^ Precision * 10 ^ Precision) < vLength * (10 ^ Precision * 10 ^ Precision) :=
      mul_lt_mul_of_pos_right hab (by positivity)
    nlinarith
  refine ⟨c0, c3 _ (le_of_lt hqlt), ?_⟩
  rw [abs_lt]
  have e1 := mul_le_mul_of_nonneg_right c1 (le_of_lt hb)
  have e2 := mul_le_mul_of_nonneg_right c2 (le_of_lt hb)
  simp only [Precision] at *
  norm_num at *
  constructor <;> nlinarith

/-- C29 (counterexample): one third of the way through a vesting of length 3,
for 2 · 10^18 units, the function returns 666666666666666666 units, while the
integer nearest to the amount times the elapsed fraction 1/3 is
666666666666666667. -/
theorem GetVestedCoinsAt_not_nearest :
    GetVestedCoinsAt (fun _ => true) 1 0 3 [⟨"aevmos", 2000000000000000000⟩] =
      .ok [⟨"aevmos", 666666666666666666⟩] ∧
    2 * |(666666666666666667 : Int) * 3 - 2000000000000000000 * (1 - 0)| < 3 ∧
    ¬ (2 * |(666666666666666666 : Int) * 3 - 2000000000000000000 * (1 - 0)| ≤ 3) :=
  ⟨by rfl, by decide, by decide⟩

/-- C29 (amended): for `int64` times with `vAt` strictly between `vStart` and
`vStart + vLength`, a sum within the `int64` range, and coins of valid
denomination and non-negative amount, the function returns one coin per coin
of `vCoins`, in the same order and with the same denomination, whose amount is
the original amount multiplied by the vesting scalar and rounded to the
nearest integer; the vesting scalar is within `10^-18` of the elapsed fraction
`(vAt - vStart) / vLength`, and each amount is between 0 and the original
one. -/
theorem GetVestedCoinsAt_between (v : String → Bool) (vAt vStart vLength : Int)
    (vCoins : Coins) (hAt : isInt64 vAt) (hStart : isInt64 vStart) (hLength : isInt64 vLength)
    (h1 : vStart < vAt) (h2 : vAt < vStart + vLength) (h3 : vStart + vLength < 2 ^ 63)
    (hvalid : ∀ c ∈ vCoins, v c.Denom = true ∧ 0 ≤ c.Amount) :
    GetVestedCoinsAt v vAt vStart vLength vCoins =
      .ok (vCoins.map (fun c =>
        ⟨c.Denom, chopPrecisionAndRound (c.Amount * vestingScalar vAt vStart vLength)⟩)) ∧
    |vestingScalar vAt vStart vLength * vLength - (vAt - vStart) * 10 ^ Precision| <
      vLength ∧
    (∀ c ∈ vCoins,
      2 * |chopPrecisionAndRound (c.Amount * vestingScalar vAt vStart vLength) * 10 ^ Precision
          - c.Amount * vestingScalar vAt vStart vLength| ≤ 10 ^ Precision ∧
      0 ≤ chopPrecisionAndRound (c.Amount * vestingScalar vAt vStart vLength) ∧
      chopPrecisionAndRound (c.Amount * vestingScalar vAt vStart vLength) ≤ c.Amount) := by
  obtain ⟨p0, p1, p2⟩ := vestingScalar_bounds vAt vStart vLength h1 h2
  have hcoin : ∀ c ∈ vCoins,
      2 * |chopPrecisionAndRound (c.Amount * vestingScalar vAt vStart vLength) * 10 ^ Precision
          - c.Amount * vestingScalar vAt vStart vLength| ≤ 10 ^ Precision ∧
      0 ≤ chopPrecisionAndRound (c.Amount * vestingScalar vAt vStart vLength) ∧
      chopPrecisionAndRound (c.Amount * vestingScalar vAt vStart vLength) ≤ c.Amount := by
    intro c hc
    have hamt := (hvalid c hc).2
    obtain ⟨c0, c1, c2, c3⟩ :=
      chopPrecisionAndRound_nonneg (c.Amount * vestingScalar vAt vStart vLength)
        (mul_nonneg hamt p0)
    refine ⟨?_, c0, c3 _ (mul_le_mul_of_nonneg_left p1 hamt)⟩
    have habs := abs_le.mpr (⟨by linarith, by linarith⟩ :
      -(10 ^ Precision) ≤ 2 * (chopPrecisionAndRound
          (c.Amount * vestingScalar vAt vStart vLength) * 10 ^ Precision
          - c.Amount * vestingScalar vAt vStart vLength) ∧
      2 * (chopPrecisionAndRound
          (c.Amount * vestingScalar vAt vStart vLength) * 10 ^ Precision
          - c.Amount * vestingScalar vAt vStart vLength) ≤ 10 ^ Precision)
    rw [abs_mul] at habs
    simpa using habs
  refine ⟨?_, p2, hcoin⟩
  have hEnd : wrapInt64 (vStart + vLength) = vStart + vLength := by
    apply wrapInt64_of_isInt64
    unfold isInt64 at hAt hStart ⊢
    omega
  have hDiff : wrapInt64 (vAt - vStart) = vAt - vStart := by
    apply wrapInt64_of_isInt64
    unfold isInt64 at hAt hStart hLength ⊢
    omega
  have hn1 : ¬ vAt ≤ vStart := by omega
  have hn2 : ¬ vAt ≥ vStart + vLength := by omega
  have hP : (10 : Int) ^ Precision ≠ 0 := by simp [Precision]
  have hL : vLength ≠ 0 := by omega
  have hquo : (NewDec (vAt - vStart)).Quo (NewDec vLength) =
      .ok ⟨vestingScalar vAt vStart vLength⟩ := by
    simp [Dec.Quo, NewDec, vestingScalar, hP, hL]
  have hmap := mapM_ok
    (fun ovc : Coin =>
      NewCoin v ovc.Denom ((ToDec ovc.Amount).Mul ⟨vestingScalar vAt vStart vLength⟩).RoundInt)
    (fun c => ⟨c.Denom, chopPrecisionAndRound (c.Amount * vestingScalar vAt vStart vLength)⟩)
    vCoins (by
      intro c hc
      have hden := (hvalid c hc).1
      have hr : ((ToDec c.Amount).Mul ⟨vestingScalar vAt vStart vLength⟩).RoundInt =
          chopPrecisionAndRound (c.Amount * vestingScalar vAt vStart vLength) := by
        have h : c.Amount * 10 ^ Precision * vestingScalar vAt vStart vLength =
            (c.Amount * vestingScalar vAt vStart vLength) * 10 ^ Precision := by ring
        simp only [Dec.RoundInt, Dec.Mul, ToDec, h, chopPrecisionAndRound_mul]
      have hnn : ¬ chopPrecisionAndRound (c.Amount * vestingScalar vAt vStart vLength) < 0 := by
        have := (hcoin c hc).2.1
        omega
      simp only [hr, NewCoin, hden, Bool.not_true, Bool.false_eq_true, if_false, hnn])
  simp only [GetVestedCoinsAt, hEnd, hDiff, hn1, hn2, if_false, hquo]
  exact hmap

/-- Witness for C29 (amended): two coins, two fifths of the way through a
vesting of length 5. -/
theorem GetVestedCoinsAt_between_witness :
    GetVestedCoinsAt (fun _ => true) 12 10 5 [⟨"uatom", 7⟩, ⟨"ustrd", 100⟩] =
      .ok (([⟨"uatom", 7⟩, ⟨"ustrd", 100⟩] : Coins).map (fun c =>
        ⟨c.Denom, chopPrecisionAndRound (c.Amount * vestingScalar 12 10 5)⟩)) ∧
    |vestingScalar 12 10 5 * 5 - (12 - 10) * 10 ^ Precision| < 5 ∧
    (∀ c ∈ ([⟨"uatom", 7⟩, ⟨"ustrd", 100⟩] : Coins),
      2 * |chopPrecisionAndRound (c.Amount * vestingScalar 12 10 5) * 10 ^ Precision
          - c.Amount * vestingScalar 12 10 5| ≤ 10 ^ Precision ∧
      0 ≤ chopPrecisionAndRound (c.Amount * vestingScalar 12 10 5) ∧
      chopPrecisionAndRound (c.Amount * vestingScalar 12 10 5) ≤ c.Amount) :=
  GetVestedCoinsAt_between (fun _ => true) 12 10 5 [⟨"uatom", 7⟩, ⟨"ustrd", 100⟩]
    ⟨by decide, by decide⟩ ⟨by decide, by decide⟩ ⟨by decide, by decide⟩
    (by decide) (by decide) (by decide) (by decide)

/-! ## Validator messages: encoding -/

theorem varintBytes_lt (v : Nat) (h : v < 128) : varintBytes v = [v] := by
  rw [varintBytes]; simp; omega

theorem varintBytes_ge (v : Nat) (h : 128 ≤ v) :
    varintBytes v = (v % 128 + 128) :: varintBytes (v / 128) := by
  rw [varintBytes]; simp [h]

theorem varintBytes_length_pos (v : Nat) : 0 < (varintBytes v).length := by
  by_cases h : v < 128
  · rw [varintBytes_lt v h]; simp
  · rw [varintBytes_ge v (by omega)]; simp

/-- Setting the lowest bit of a number. -/
theorem lor_one (x : Nat) : x ||| 1 = 2 * (x / 2) + 1 := by
  apply Nat.eq_of_testBit_eq
  intro i
  rw [Nat.testBit_or]
  cases i with
  | zero => simp [Nat.testBit_zero]; omega
  | succ n =>
    rw [Nat.testBit_succ, Nat.testBit_succ, Nat.testBit_succ]
    have : (2 * (x / 2) + 1) / 2 = x / 2 := by omega
    rw [this]; simp

/-- Bitwise or commutes with taking the low bits. -/
theorem or_mod_two_pow (a b n : Nat) : (a ||| b) % 2 ^ n = a % 2 ^ n ||| b % 2 ^ n := by
  apply Nat.eq_of_testBit_eq
  intro i
  simp only [Nat.testBit_mod_two_pow, Nat.testBit_or]
  by_cases h : i < n <;> simp [h]

/-- The number of bits of a number, from its position between two powers
of 2. -/
theorem size_eq_of_bounds (x k : Nat) (h1 : 2 ^ k ≤ x) (h2 : x < 2 ^ (k + 1)) :
    Nat.size x = k + 1 := by
  apply le_antisymm
  · exact Nat.size_le.mpr h2
  · exact Nat.lt_size.mpr h1

/-- A positive number lies between the two powers of 2 given by its number of
bits. -/
theorem size_bounds (x : Nat) (hx : 1 ≤ x) :
    ∃ k, Nat.size x = k + 1 ∧ 2 ^ k ≤ x ∧ x < 2 ^ (k + 1) := by
  have h0 : 0 < Nat.size x := Nat.size_pos.mpr (by omega)
  refine ⟨Nat.size x - 1, by omega, Nat.lt_size.mp (by omega), Nat.size_le.mp (by omega)⟩

/-- Setting the lowest bit does not change the number of bits of a positive
number. -/
theorem size_lor_one (x : Nat) (hx : 1 ≤ x) : Nat.size (x ||| 1) = Nat.size x := by
  obtain ⟨k, hk, h1, h2⟩ := size_bounds x hx
  rw [hk, lor_one]
  apply size_eq_of_bounds
  · omega
  · have : 2 ^ (k + 1) = 2 * 2 ^ k := by ring
    omega

/-- Dropping seven bits of a number of at least eight bits. -/
theorem size_div_128 (x : Nat) (hx : 128 ≤ x) : Nat.size (x / 128) + 7 = Nat.size x := by
  obtain ⟨k, hk, h1, h2⟩ := size_bounds x (by omega)
  have hk7 : 7 ≤ k := by
    by_contra hlt
    have : 2 ^ (k + 1) ≤ 2 ^ 7 := Nat.pow_le_pow_right (by decide) (by omega)
    omega
  obtain ⟨j, rfl⟩ : ∃ j, k = j + 7 := ⟨k - 7, by omega⟩
  have e1 : 2 ^ (j + 7) = 128 * 2 ^ j := by ring
  have e2 : 2 ^ (j + 7 + 1) = 128 * 2 ^ (j + 1) := by ring
  rw [hk, size_eq_of_bounds (x / 128) j]
  · rw [Nat.le_div_iff_mul_le (by decide)]; omega
  · rw [Nat.div_lt_iff_lt_mul (by decide)]; omega

/-- The varint of a number has `sovValidator` bytes. -/
theorem varintBytes_length (v : Nat) : (varintBytes v).length = sovValidator v := by
  induction v using Nat.strong_induction_on with
  | _ v ih =>
    by_cases h : v < 128
    · rw [varintBytes_lt v h]
      simp only [sovValidator, Len64, List.length_singleton]
      by_cases h0 : v = 0
      · subst h0
        have e : (0 ||| 1 : Nat) = 1 := by decide
        rw [e, size_eq_of_bounds 1 0 (by decide) (by decide)]
      · rw [size_lor_one v (by omega)]
        obtain ⟨k, hk, h1, h2⟩ := size_bounds v (by omega)
        have hk7 : k < 7 := by
          by_contra hge
          have : 2 ^ 7 ≤ 2 ^ k := Nat.pow_le_pow_right (by decide) (by omega)
          omega
        omega
    · rw [varintBytes_ge v (by omega), List.length_cons, ih (v / 128)
        (Nat.div_lt_self (by omega) (by decide))]
      simp only [sovValidator, Len64]
      rw [size_lor_one v (by omega)]
      have h7 := size_div_128 v (by omega)
      by_cases h1 : v / 128 = 0
      · omega
      · rw [size_lor_one (v / 128) (by omega)]; omega

/-- The byte written by the loop of `encodeVarintValidator`. -/
theorem varint_byte (v : Nat) : (v &&& 0x7f ||| 0x80) % 256 = v % 128 + 128 := by
  have h1 : v &&& 0x7f = v % 128 := Nat.and_pow_two_sub_one_eq_mod v 7
  have h2 : 128 + v % 128 = 128 ||| v % 128 :=
    @Nat.mul_add_lt_is_or 7 (v % 128) (Nat.mod_lt _ (by decide)) 1
  rw [h1, Nat.lor_comm, ← h2]
  omega

/-- Writing one byte right after a prefix of the buffer. -/
theorem setByte_append (pre w : List Nat) (x b : Nat) (i : Int) (hi : i = pre.length) :
    setByte (pre ++ x :: w) i b = .ok (pre ++ b :: w) := by
  subst hi
  have h : ((pre.length : Int) < ((pre ++ x :: w).length : Int)) := by
    simp only [List.length_append, List.length_cons]; omega
  simp only [setByte, h, and_true, Int.toNat_ofNat, Int.natCast_nonneg, if_true]
  rw [List.set_append]
  simp

/-- The loop of `encodeVarintValidator` fills a gap of the right size with the
varint. -/
theorem encodeVarintValidator_loop_append (v : Nat) :
    ∀ (pre junk w : List Nat) (i : Int), i = pre.length →
      junk.length = (varintBytes v).length →
      encodeVarintValidator.loop (pre ++ junk ++ w) i v = .ok (pre ++ varintBytes v ++ w) := by
  induction v using Nat.strong_induction_on with
  | _ v ih =>
    intro pre junk w i hi hlen
    rw [encodeVarintValidator.loop]
    have h7 : (1 : Nat) <<< 7 = 128 := by decide
    by_cases h : v < 128
    · rw [varintBytes_lt v h] at hlen ⊢
      obtain ⟨x, rfl⟩ : ∃ x, junk = [x] := by
        match junk, hlen with
        | [x], _ => exact ⟨x, rfl⟩
      have hv : ¬ (v ≥ 1 <<< 7) := by rw [h7]; omega
      rw [dif_neg hv]
      have e : v % 256 = v := by omega
      rw [e]
      simpa using setByte_append pre w x v i hi
    · have hv : v ≥ 1 <<< 7 := by rw [h7]; omega
      rw [dif_pos hv, varint_byte]
      rw [varintBytes_ge v (by omega)] at hlen ⊢
      obtain ⟨x, junk, rfl⟩ : ∃ x t, junk = x :: t := by
        match junk, hlen with
        | x :: t, _ => exact ⟨x, t, rfl⟩
      have e1 : pre ++ x :: junk ++ w = pre ++ x :: (junk ++ w) := by simp
      rw [e1, setByte_append pre (junk ++ w) x _ i hi]
      simp only
      have e2 : v >>> 7 = v / 128 := by rw [Nat.shiftRight_eq_div_pow]
      have e3 : pre ++ (v % 128 + 128) :: (junk ++ w) = (pre ++ [v % 128 + 128]) ++ junk ++ w := by
        simp
      rw [e2, e3, ih (v / 128) (Nat.div_lt_self (by omega) (by decide)) (pre ++ [v % 128 + 128])
        junk w (i + 1) (by simp [hi]) (by simpa using hlen)]
      simp

/-- A list of length `a + b` is a list of length `a` followed by one of
length `b`. -/
theorem split_length (l : List Nat) (a b : Nat) (h : l.length = a + b) :
    ∃ l1 l2, l = l1 ++ l2 ∧ l1.length = a ∧ l2.length = b :=
  ⟨l.take a, l.drop a, (List.take_append_drop _ _).symm, by simp; omega, by simp; omega⟩

/-- The function `encodeVarintValidator` writes the varint into the gap right
before the position it is given, and returns where the varint starts. -/
theorem encodeVarintValidator_append (pre junk w : List Nat) (i : Int) (v : Nat)
    (hi : i = pre.length + junk.length) (hj : junk.length = (varintBytes v).length) :
    encodeVarintValidator (pre ++ junk ++ w) i v =
      .ok (pre ++ varintBytes v ++ w, (pre.length : Int)) := by
  have hoff : i - (sovValidator v : Int) = (pre.length : Int) := by
    rw [← varintBytes_length, hi]; omega
  simp only [encodeVarintValidator, hoff]
  rw [encodeVarintValidator_loop_append v pre junk w _ rfl hj]

/-- Copying a string into a gap of its length. -/
theorem copyAt_append (pre junk w src : List Nat) (i : Int) (hi : i = pre.length)
    (hj : junk.length = src.length) :
    copyAt (pre ++ junk ++ w) i src = .ok (pre ++ src ++ w) := by
  subst hi
  have h1 : ((pre.length : Int) ≤ ((pre ++ junk ++ w).length : Int)) := by
    simp only [List.length_append]; omega
  have hk : min ((pre ++ junk ++ w).length - pre.length) src.length = src.length := by
    simp only [List.length_append]; omega
  simp only [copyAt, h1, and_true, Int.toNat_ofNat, Int.natCast_nonneg, if_true, hk,
    List.take_length]
  have e1 : List.take pre.length (pre ++ junk ++ w) = pre := by
    rw [List.append_assoc, List.take_left]
  have e2 : List.drop (pre.length + src.length) (pre ++ junk ++ w) = w := by
    have : pre.length + src.length = (pre ++ junk).length := by simp [hj]
    rw [this, List.drop_left]
  rw [e1, e2]

/-- A number field is written into the gap right before the position. -/
theorem MarshalToSizedBuffer_number_append (pre junk w : List Nat) (i : Int) (x : Int)
    (tag : Nat) (hi : i = pre.length + junk.length)
    (hj : junk.length = (encNumber tag x).length) :
    MarshalToSizedBuffer.number (pre ++ junk ++ w) i x tag =
      .ok (pre ++ encNumber tag x ++ w, (pre.length : Int)) := by
  by_cases hx : x = 0
  · subst hx
    have hj0 : junk = [] := by simpa [encNumber] using hj
    subst hj0
    simp [MarshalToSizedBuffer.number, encNumber, hi]
  · simp only [encNumber, ne_eq, hx, not_false_eq_true, if_true, List.length_cons] at hj ⊢
    obtain ⟨j1, j2, rfl, h1, h2⟩ := split_length junk 1 (varintBytes (toUint64 x)).length
      (by omega)
    obtain ⟨b, rfl⟩ : ∃ b, j1 = [b] := by
      match j1, h1 with
      | [b], _ => exact ⟨b, rfl⟩
    have e1 : pre ++ ([b] ++ j2) ++ w = (pre ++ [b]) ++ j2 ++ w := by simp
    simp only [MarshalToSizedBuffer.number, ne_eq, hx, not_false_eq_true, if_true]
    rw [e1, encodeVarintValidator_append (pre ++ [b]) j2 w i _
      (by simp only [List.length_append, List.length_singleton] at hi ⊢; omega) h2]
    simp only
    have e2 : pre ++ [b] ++ varintBytes (toUint64 x) ++ w
        = pre ++ b :: (varintBytes (toUint64 x) ++ w) := by simp
    rw [e2, setByte_append pre _ b tag _ (by simp)]
    simp

/-- A string field is written into the gap right before the position. -/
theorem MarshalToSizedBuffer_string_append (pre junk w : List Nat) (i : Int) (str : List Nat)
    (tag : Nat) (hi : i = pre.length + junk.length)
    (hj : junk.length = (encString tag str).length) :
    MarshalToSizedBuffer.string (pre ++ junk ++ w) i str tag =
      .ok (pre ++ encString tag str ++ w, (pre.length : Int)) := by
  by_cases hx : str.length > 0
  · simp only [encString, hx, if_true, List.length_cons, List.length_append] at hj ⊢
    obtain ⟨j12, j3, rfl, h12, h3⟩ := split_length junk
      (1 + (varintBytes str.length).length) str.length (by omega)
    obtain ⟨j1, j2, rfl, h1, h2⟩ := split_length j12 1 (varintBytes str.length).length h12
    obtain ⟨b, rfl⟩ : ∃ b, j1 = [b] := by
      match j1, h1 with
      | [b], _ => exact ⟨b, rfl⟩
    have e1 : pre ++ ([b] ++ j2 ++ j3) ++ w = (pre ++ [b] ++ j2) ++ j3 ++ w := by simp
    simp only [MarshalToSizedBuffer.string, hx, if_true]
    rw [e1, copyAt_append (pre ++ [b] ++ j2) j3 w str _
      (by simp only [List.length_append, List.length_singleton] at hi ⊢; omega) h3]
    simp only
    have e2 : pre ++ [b] ++ j2 ++ str ++ w = (pre ++ [b]) ++ j2 ++ (str ++ w) := by simp
    rw [e2, encodeVarintValidator_append (pre ++ [b]) j2 (str ++ w) _ _
      (by simp only [List.length_append, List.length_singleton] at hi ⊢; omega) h2]
    simp only
    have e3 : pre ++ [b] ++ varintBytes str.length ++ (str ++ w)
        = pre ++ b :: (varintBytes str.length ++ (str ++ w)) := by simp
    rw [e3, setByte_append pre _ b tag _ (by simp)]
    simp
  · have hj0 : junk = [] := by simpa [encString, hx] using hj
    subst hj0
    simp [MarshalToSizedBuffer.string, encString, hx, hi]

/-- The size computed by `Size` is the length of the wire form. -/
theorem Size_eq_encode_length (m : Validator) : m.Size = m.encode.length := by
  simp only [Validator.Size, Validator.encode, encString, encNumber, List.length_append]
  split_ifs <;> simp [varintBytes_length] <;> omega

/-- The calls of `MarshalToSizedBuffer` one after the other. -/
theorem MarshalToSizedBuffer_run (m : Validator) (dAtA d1 d2 d3 d4 d5 : List Nat)
    (i1 i2 i3 i4 i5 : Int)
    (h1 : MarshalToSizedBuffer.number dAtA dAtA.length m.DelegationAmt 0x28 = .ok (d1, i1))
    (h2 : MarshalToSizedBuffer.number d1 i1 m.CommissionRate 0x20 = .ok (d2, i2))
    (h3 : MarshalToSizedBuffer.string d2 i2 m.Status 0x1a = .ok (d3, i3))
    (h4 : MarshalToSizedBuffer.string d3 i3 m.Address 0x12 = .ok (d4, i4))
    (h5 : MarshalToSizedBuffer.string d4 i4 m.Name 0xa = .ok (d5, i5)) :
    m.MarshalToSizedBuffer dAtA = .ok (d5, (d5.length : Int) - i5) := by
  simp only [Validator.MarshalToSizedBuffer, h1, bind, Except.bind, h2, h3, h4, h5, pure,
    Except.pure]

/-- The buffer of `Marshal` is filled exactly: the result is the wire form. -/
theorem Marshal_eq_encode (m : Validator) : m.Marshal = .ok m.encode := by
  obtain ⟨j1, j2345, hj, hl1, hl2345⟩ := split_length (List.replicate m.Size 0)
    (encString 0xa m.Name).length
    ((encString 0x12 m.Address).length + ((encString 0x1a m.Status).length +
      ((encNumber 0x20 m.CommissionRate).length + (encNumber 0x28 m.DelegationAmt).length)))
    (by rw [List.length_replicate, Size_eq_encode_length]
        simp only [Validator.encode, List.length_append])
  obtain ⟨j2, j345, rfl, hl2, hl345⟩ := split_length j2345 _ _ hl2345
  obtain ⟨j3, j45, rfl, hl3, hl45⟩ := split_length j345 _ _ hl345
  obtain ⟨j4, j5, rfl, hl4, hl5⟩ := split_length j45 _ _ hl45
  have s1 := MarshalToSizedBuffer_number_append (j1 ++ j2 ++ j3 ++ j4) j5 [] 
    ((j1 ++ (j2 ++ (j3 ++ (j4 ++ j5)))).length : Int) m.DelegationAmt 0x28
    (by simp only [List.length_append]; push_cast; ring) hl5
  have s2 := MarshalToSizedBuffer_number_append (j1 ++ j2 ++ j3) j4
    (encNumber 0x28 m.DelegationAmt ++ []) ((j1 ++ j2 ++ j3 ++ j4).length : Int)
    m.CommissionRate 0x20 (by simp only [List.length_append]; push_cast; ring) hl4
  have s3 := MarshalToSizedBuffer_string_append (j1 ++ j2) j3
    (encNumber 0x20 m.CommissionRate ++ (encNumber 0x28 m.DelegationAmt ++ []))
    ((j1 ++ j2 ++ j3).length : Int)
    m.Status 0x1a (by simp only [List.length_append]; push_cast; ring) hl3
  have s4 := MarshalToSizedBuffer_string_append j1 j2
    (encString 0x1a m.Status ++ (encNumber 0x20 m.CommissionRate ++
      (encNumber 0x28 m.DelegationAmt ++ [])))
    ((j1 ++ j2).length : Int)
    m.Address 0x12 (by simp only [List.length_append]; push_cast; ring) hl2
  have s5 := MarshalToSizedBuffer_string_append [] j1
    (encString 0x12 m.Address ++ (encString 0x1a m.Status ++
      (encNumber 0x20 m.CommissionRate ++ (encNumber 0x28 m.DelegationAmt ++ []))))
    ((j1).length : Int)
    m.Name 0xa (by simp) hl1
  simp only [List.append_assoc, List.nil_append, List.append_nil, List.length_nil,
    Nat.cast_zero] at s1 s2 s3 s4 s5
  have hrun := MarshalToSizedBuffer_run m (j1 ++ (j2 ++ (j3 ++ (j4 ++ j5)))) _ _ _ _ _ _ _ _ _ _
    s1 s2 s3 s4 s5
  simp only [Validator.Marshal, hj, hrun, sub_zero, Int.toNat_ofNat, Int.natCast_nonneg,
    le_refl, and_self, if_true, List.take_length, Validator.encode]

/-! ## Validator messages: decoding -/

/-- The byte at a position, from the bytes that follow the position. -/
theorem getElem?_of_drop (dAtA : List Nat) (i b : Nat) (t : List Nat)
    (h : dAtA.drop i = b :: t) : dAtA[i]? = some b ∧ i < dAtA.length ∧ dAtA.drop (i + 1) = t := by
  have h0 : (dAtA.drop i)[0]? = some b := by rw [h]; simp
  rw [List.getElem?_drop] at h0
  have hlt : i < dAtA.length := by
    by_contra hge
    rw [List.drop_eq_nil_of_le (by omega)] at h
    cases h
  refine ⟨by simpa using h0, hlt, ?_⟩
  rw [← List.tail_drop, h]; rfl

/-- The bytes that follow a segment. -/
theorem drop_add_of_drop (dAtA seg rest : List Nat) (i : Nat) (hi : i ≤ dAtA.length)
    (h : dAtA.drop i = seg ++ rest) :
    dAtA.drop (i + seg.length) = rest ∧ i + seg.length + rest.length = dAtA.length := by
  constructor
  · rw [← List.drop_drop, h, List.drop_left]
  · have := congrArg List.length h
    simp only [List.length_drop, List.length_append] at this
    omega

/-- One step of the accumulation of a varint: the seven bits go above the
bits read so far. -/
theorem acc_step (acc b shift : Nat) (hacc : acc < 2 ^ shift) :
    acc ||| (b &&& 0x7F) <<< shift = acc + b % 128 * 2 ^ shift := by
  have h1 : b &&& 0x7F = b % 128 := Nat.and_pow_two_sub_one_eq_mod b 7
  rw [h1, Nat.shiftLeft_eq, Nat.lor_comm, Nat.mul_comm, ← Nat.mul_add_lt_is_or hacc]
  omega

/-- The varint loop reads back the varint of a number that fits. -/
theorem decodeUint64_varint (v : Nat) :
    ∀ (dAtA rest : List Nat) (i shift acc : Nat), dAtA.drop i = varintBytes v ++ rest →
      acc < 2 ^ shift → shift < 64 → v * 2 ^ shift < 2 ^ 64 →
      decodeUint64 dAtA i shift acc = .ok (acc + v * 2 ^ shift) (i + (varintBytes v).length) := by
  induction v using Nat.strong_induction_on with
  | _ v ih =>
    intro dAtA rest i shift acc hd hacc hshift hv
    rw [decodeUint64]
    by_cases h : v < 128
    · rw [varintBytes_lt v h] at hd ⊢
      obtain ⟨hb, hlt, _⟩ := getElem?_of_drop dAtA i v _ hd
      have e1 : v % 128 = v := by omega
      have e2 : (acc ||| (v &&& 0x7F) <<< shift % 2 ^ 64) = acc + v * 2 ^ shift := by
        have h1 : v &&& 0x7F = v % 128 := Nat.and_pow_two_sub_one_eq_mod v 7
        have h2 : (v &&& 0x7F) <<< shift % 2 ^ 64 = (v &&& 0x7F) <<< shift := by
          rw [h1, e1, Nat.shiftLeft_eq]; exact Nat.mod_eq_of_lt hv
        rw [h2, acc_step acc v shift hacc, e1]
      have n1 : ¬ shift ≥ 64 := by omega
      have n2 : ¬ i ≥ dAtA.length := by omega
      have n3 : v < 0x80 := by omega
      simp only [n1, n2, if_false, hb, e2, n3, if_true, List.length_singleton]
    · have hP : 0 < 2 ^ shift := Nat.two_pow_pos shift
      have hpow : 2 ^ (shift + 7) = 128 * 2 ^ shift := by ring
      have hdm := Nat.div_add_mod v 128
      have hmod := Nat.mod_lt v (show 128 > 0 by decide)
      have hv2 : v / 128 * 2 ^ (shift + 7) + v % 128 * 2 ^ shift = v * 2 ^ shift := by
        rw [hpow]
        calc v / 128 * (128 * 2 ^ shift) + v % 128 * 2 ^ shift
            = (128 * (v / 128) + v % 128) * 2 ^ shift := by ring
          _ = v * 2 ^ shift := by rw [hdm]
      have hsh7 : shift + 7 < 64 := by
        have h128 : 128 * 2 ^ shift ≤ v * 2 ^ shift := Nat.mul_le_mul_right _ (by omega)
        have : 2 ^ (shift + 7) < 2 ^ 64 := by rw [hpow]; omega
        exact (Nat.pow_lt_pow_iff_right (by decide)).mp this
      rw [varintBytes_ge v (by omega)] at hd ⊢
      obtain ⟨hb, hlt, hd1⟩ := getElem?_of_drop dAtA i _ _ hd
      have e1 : (v % 128 + 128) % 128 = v % 128 := by omega
      have hterm : v % 128 * 2 ^ shift < 2 ^ 64 := by
        have : v % 128 * 2 ^ shift ≤ v * 2 ^ shift := Nat.mul_le_mul_right _ (Nat.mod_le _ _)
        omega
      have e2 : (acc ||| ((v % 128 + 128) &&& 0x7F) <<< shift % 2 ^ 64)
          = acc + v % 128 * 2 ^ shift := by
        have h1 : (v % 128 + 128) &&& 0x7F = (v % 128 + 128) % 128 :=
          Nat.and_pow_two_sub_one_eq_mod _ 7
        have h2 : ((v % 128 + 128) &&& 0x7F) <<< shift % 2 ^ 64
            = ((v % 128 + 128) &&& 0x7F) <<< shift := by
          rw [h1, e1, Nat.shiftLeft_eq]; exact Nat.mod_eq_of_lt hterm
        rw [h2, acc_step acc _ shift hacc, e1]
      have n1 : ¬ shift ≥ 64 := by omega
      have n2 : ¬ i ≥ dAtA.length := by omega
      have n3 : ¬ v % 128 + 128 < 0x80 := by omega
      simp only [n1, n2, if_false, hb, e2, n3, List.length_cons]
      have hacc2 : acc + v % 128 * 2 ^ shift < 2 ^ (shift + 7) := by
        rw [hpow]
        have : v % 128 * 2 ^ shift ≤ 127 * 2 ^ shift := Nat.mul_le_mul_right _ (by omega)
        omega
      rw [ih (v / 128) (Nat.div_lt_self (by omega) (by decide)) dAtA rest (i + 1) (shift + 7)
        _ hd1 hacc2 hsh7 (by omega)]
      have e3 : acc + v % 128 * 2 ^ shift + v / 128 * 2 ^ (shift + 7) = acc + v * 2 ^ shift := by
        omega
      have e4 : i + 1 + (varintBytes (v / 128)).length = i + ((varintBytes (v / 128)).length + 1) := by
        omega
      rw [e3, e4]

/-- The varint of a number below `2 ^ 64` is read back from the start. -/
theorem decodeUint64_varint_zero (v : Nat) (dAtA rest : List Nat) (i : Nat)
    (hd : dAtA.drop i = varintBytes v ++ rest) (hv : v < 2 ^ 64) :
    decodeUint64 dAtA i 0 0 = .ok v (i + (varintBytes v).length) := by
  have := decodeUint64_varint v dAtA rest i 0 0 hd (by decide) (by decide) (by simpa using hv)
  simpa using this

/-- The loop of an `int32` field accumulates the low 32 bits of what the
`uint64` loop accumulates on the same bytes. -/
theorem decodeInt32_of_decodeUint64 (dAtA : List Nat) :
    ∀ (n shift i acc r j : Nat), 70 - shift ≤ n → decodeUint64 dAtA i shift acc = .ok r j →
      decodeInt32 dAtA i shift (acc % 2 ^ 32) = (.ok (r % 2 ^ 32) j, r % 2 ^ 32) := by
  intro n
  induction n with
  | zero =>
    intro shift i acc r j hn h
    rw [decodeUint64] at h
    have : shift ≥ 64 := by omega
    simp [this] at h
  | succ n ih =>
    intro shift i acc r j hn h
    rw [decodeUint64] at h
    rw [decodeInt32]
    by_cases h1 : shift ≥ 64
    · simp [h1] at h
    by_cases h2 : i ≥ dAtA.length
    · simp [h1, h2] at h
    simp only [h1, h2, if_false] at h ⊢
    cases hb : dAtA[i]? with
    | none => simp [hb] at h
    | some b =>
      simp only [hb] at h ⊢
      have e : (acc ||| (b &&& 0x7F) <<< shift % 2 ^ 64) % 2 ^ 32
          = acc % 2 ^ 32 ||| (b &&& 0x7F) <<< shift % 2 ^ 32 := by
        rw [or_mod_two_pow, Nat.mod_mod_of_dvd _ (Nat.pow_dvd_pow 2 (by decide))]
      by_cases h3 : b < 0x80
      · simp only [h3, if_true, Read.ok.injEq] at h ⊢
        obtain ⟨rfl, rfl⟩ := h
        rw [e]
      · simp only [h3, if_false] at h ⊢
        rw [← e]
        exact ih (shift + 7) (i + 1) _ r j (by omega) h

/-- The low 32 bits of the `uint64` conversion of an `int32`, read as a signed
number, are the number. -/
theorem wrapInt32_toUint64 (x : Int) (hx : isInt32 x) :
    wrapInt32 ((toUint64 x % 2 ^ 32 : Nat) : Int) = x := by
  unfold isInt32 at hx
  unfold wrapInt32 toUint64
  omega

/-- The loop of an `int32` field reads back the varint of the `uint64`
conversion of an `int32`. -/
theorem decodeInt32_varint (x : Int) (dAtA rest : List Nat) (i : Nat)
    (hd : dAtA.drop i = varintBytes (toUint64 x) ++ rest) :
    decodeInt32 dAtA i 0 0 =
      (.ok (toUint64 x % 2 ^ 32) (i + (varintBytes (toUint64 x)).length),
        toUint64 x % 2 ^ 32) := by
  have hv : toUint64 x < 2 ^ 64 := by unfold toUint64; omega
  have h := decodeInt32_of_decodeUint64 dAtA 70 0 i 0 _ _ (by omega)
    (decodeUint64_varint_zero _ dAtA rest i hd hv)
  simpa using h

/-- A string is read back from its length varint and its bytes. -/
theorem readString_varint (str dAtA rest : List Nat) (i : Nat)
    (hd : dAtA.drop i = varintBytes str.length ++ (str ++ rest)) (hlen : dAtA.length < 2 ^ 63) :
    Unmarshal.readString dAtA i =
      .ok str (i + ((varintBytes str.length).length + str.length)) := by
  have hi : i ≤ dAtA.length := by
    by_contra hgt
    rw [List.drop_eq_nil_of_le (by omega)] at hd
    have := congrArg List.length hd
    have := varintBytes_length_pos str.length
    simp only [List.length_nil, List.length_append] at *
    omega
  obtain ⟨hd1, hl1⟩ := drop_add_of_drop dAtA _ _ i hi hd
  simp only [List.length_append] at hl1
  have h1 := decodeUint64_varint_zero str.length dAtA _ i hd (by omega)
  have w1 : wrapInt64 ((str.length : Nat) : Int) = str.length :=
    wrapInt64_of_isInt64 _ ⟨by omega, by omega⟩
  have w2 : wrapInt64 (((i + (varintBytes str.length).length : Nat) : Int) + (str.length : Int))
      = ((i + (varintBytes str.length).length + str.length : Nat) : Int) := by
    rw [wrapInt64_of_isInt64 _ ⟨by omega, by omega⟩]; push_cast; ring
  have n1 : ¬ (((str.length : Nat) : Int) < 0) := by omega
  have n2 : ¬ (((i + (varintBytes str.length).length + str.length : Nat) : Int) < 0) := by omega
  have n3 : ¬ (((i + (varintBytes str.length).length + str.length : Nat) : Int)
      > (dAtA.length : Int)) := by omega
  have n4 : ¬ ¬ (((i + (varintBytes str.length).length : Nat) : Int)
      ≤ ((i + (varintBytes str.length).length + str.length : Nat) : Int) ∧
      ((i + (varintBytes str.length).length + str.length : Nat) : Int) ≤ (dAtA.length : Int)) := by
    omega
  simp only [Unmarshal.readString, h1, w1, w2, n1, n2, n3, n4, if_false, Int.toNat_ofNat]
  have e1 : i + (varintBytes str.length).length + str.length - (i + (varintBytes str.length).length)
      = str.length := by omega
  rw [e1, hd1, List.take_left, Nat.add_assoc]

/-- A tag below 128 is read back from its one byte. -/
theorem decodeUint64_tag (tag : Nat) (dAtA t : List Nat) (i : Nat) (htag : tag < 128)
    (hd : dAtA.drop i = tag :: t) : decodeUint64 dAtA i 0 0 = .ok tag (i + 1) := by
  have h := decodeUint64_varint_zero tag dAtA t i (by rw [varintBytes_lt tag htag]; exact hd)
    (by omega)
  rw [varintBytes_lt tag htag] at h
  exact h

/-- The case of `Name` in the `switch fieldNum`. -/
theorem Unmarshal_field_Name (m : Validator) (dAtA : List Nat) (p i : Nat) :
    Unmarshal.field m dAtA p i 1 2 =
      match Unmarshal.readString dAtA i with
      | .fail e => .error (m, .error e)
      | .panic => .error (m, .panic)
      | .ok str iNdEx => .ok ({ m with Name := str }, iNdEx) := rfl

/-- The case of `Address` in the `switch fieldNum`. -/
theorem Unmarshal_field_Address (m : Validator) (dAtA : List Nat) (p i : Nat) :
    Unmarshal.field m dAtA p i 2 2 =
      match Unmarshal.readString dAtA i with
      | .fail e => .error (m, .error e)
      | .panic => .error (m, .panic)
      | .ok str iNdEx => .ok ({ m with Address := str }, iNdEx) := rfl

/-- The case of `Status` in the `switch fieldNum`. -/
theorem Unmarshal_field_Status (m : Validator) (dAtA : List Nat) (p i : Nat) :
    Unmarshal.field m dAtA p i 3 2 =
      match Unmarshal.readString dAtA i with
      | .fail e => .error (m, .error e)
      | .panic => .error (m, .panic)
      | .ok str iNdEx => .ok ({ m with Status := str }, iNdEx) := rfl

/-- The case of `CommissionRate` in the `switch fieldNum`. -/
theorem Unmarshal_field_CommissionRate (m : Validator) (dAtA : List Nat) (p i : Nat) :
    Unmarshal.field m dAtA p i 4 0 =
      match decodeInt32 dAtA i 0 0 with
      | (.fail e, acc) => .error ({ m with CommissionRate := wrapInt32 acc }, .error e)
      | (.panic, acc) => .error ({ m with CommissionRate := wrapInt32 acc }, .panic)
      | (.ok _ iNdEx, acc) => .ok ({ m with CommissionRate := wrapInt32 acc }, iNdEx) := rfl

/-- The case of `DelegationAmt` in the `switch fieldNum`. -/
theorem Unmarshal_field_DelegationAmt (m : Validator) (dAtA : List Nat) (p i : Nat) :
    Unmarshal.field m dAtA p i 5 0 =
      match decodeInt32 dAtA i 0 0 with
      | (.fail e, acc) => .error ({ m with DelegationAmt := wrapInt32 acc }, .error e)
      | (.panic, acc) => .error ({ m with DelegationAmt := wrapInt32 acc }, .panic)
      | (.ok _ iNdEx, acc) => .ok ({ m with DelegationAmt := wrapInt32 acc }, iNdEx) := rfl

/-- The field number of a tag byte. -/
theorem fieldNum_of_tag (tag : Nat) (k : Int) (h : ((tag >>> 3 : Nat) : Int) = k)
    (hk : 0 ≤ k ∧ k < 16) : wrapInt32 ((tag >>> 3 : Nat) : Int) = k := by
  rw [h]; unfold wrapInt32; omega

/-- An iteration of `Unmarshal` on a one-byte tag with a positive field number
and a wire type other than 4 reaches the `switch fieldNum`. -/
theorem Unmarshal_step_tag (m : Validator) (dAtA t : List Nat) (i tag : Nat) (k : Int)
    (htag : tag < 128) (hd : dAtA.drop i = tag :: t) (hk : ((tag >>> 3 : Nat) : Int) = k)
    (hk1 : 0 < k ∧ k < 16) (hw : tag &&& 0x7 ≠ 4) :
    Unmarshal.step m dAtA i = Unmarshal.field m dAtA i (i + 1) k (tag &&& 0x7) := by
  obtain ⟨_, hlt, _⟩ := getElem?_of_drop dAtA i _ _ hd
  have n1 : ¬ ¬ (i < dAtA.length) := by omega
  have n2 : ¬ k ≤ 0 := by omega
  unfold Unmarshal.step
  simp only [n1, if_false, decodeUint64_tag tag dAtA t i htag hd,
    fieldNum_of_tag tag k hk ⟨by omega, hk1.2⟩, hw, n2]

/-- An iteration of `Unmarshal` on the wire form of a string field. -/
theorem Unmarshal_step_string (m : Validator) (dAtA rest str : List Nat) (i tag : Nat)
    (k : Int) (htag : tag < 128) (hs : str.length > 0)
    (hd : dAtA.drop i = encString tag str ++ rest) (hlen : dAtA.length < 2 ^ 63)
    (hk : ((tag >>> 3 : Nat) : Int) = k) (hk1 : 0 < k ∧ k < 16) (hw : tag &&& 0x7 = 2) :
    Unmarshal.step m dAtA i = Unmarshal.field m dAtA i (i + 1) k 2 ∧
      Unmarshal.readString dAtA (i + 1) = .ok str (i + (encString tag str).length) := by
  simp only [encString, hs, if_true, List.cons_append, List.append_assoc] at hd ⊢
  obtain ⟨_, hlt, hd1⟩ := getElem?_of_drop dAtA i _ _ hd
  constructor
  · rw [Unmarshal_step_tag m dAtA _ i tag k htag hd hk hk1 (by omega), hw]
  · rw [readString_varint str dAtA rest (i + 1) hd1 hlen]
    simp only [List.length_cons, List.length_append]
    have e3 : i + 1 + ((varintBytes str.length).length + str.length)
        = i + ((varintBytes str.length).length + str.length + 1) := by omega
    rw [e3]

/-- An iteration of `Unmarshal` on the wire form of a number field. -/
theorem Unmarshal_step_number (m : Validator) (dAtA rest : List Nat) (x : Int) (i tag : Nat)
    (k : Int) (htag : tag < 128) (hx : x ≠ 0)
    (hd : dAtA.drop i = encNumber tag x ++ rest)
    (hk : ((tag >>> 3 : Nat) : Int) = k) (hk1 : 0 < k ∧ k < 16) (hw : tag &&& 0x7 = 0) :
    Unmarshal.step m dAtA i = Unmarshal.field m dAtA i (i + 1) k 0 ∧
      decodeInt32 dAtA (i + 1) 0 0 =
        (.ok (toUint64 x % 2 ^ 32) (i + (encNumber tag x).length), toUint64 x % 2 ^ 32) := by
  simp only [encNumber, ne_eq, hx, not_false_eq_true, if_true, List.cons_append] at hd ⊢
  obtain ⟨_, hlt, hd1⟩ := getElem?_of_drop dAtA i _ _ hd
  constructor
  · rw [Unmarshal_step_tag m dAtA _ i tag k htag hd hk hk1 (by omega), hw]
  · rw [decodeInt32_varint x dAtA rest (i + 1) hd1]
    simp only [List.length_cons]
    have e3 : i + 1 + (varintBytes (toUint64 x)).length
        = i + ((varintBytes (toUint64 x)).length + 1) := by omega
    rw [e3]

/-- The loop of `Unmarshal` over one segment of the input: nothing happens on
an empty segment, and one iteration reads a segment that is the wire form of a
field. -/
theorem Unmarshal_loop_segment (fuel : Nat) (m m2 : Validator) (dAtA seg : List Nat) (i : Nat)
    (hstep : seg ≠ [] → Unmarshal.step m dAtA i = .ok (m2, i + seg.length))
    (hnil : seg = [] → m2 = m) (hfuel : dAtA.length + 1 ≤ fuel + i)
    (hi : i + seg.length ≤ dAtA.length) :
    ∃ fuel2, dAtA.length + 1 ≤ fuel2 + (i + seg.length) ∧
      Unmarshal.loop fuel m dAtA i = Unmarshal.loop fuel2 m2 dAtA (i + seg.length) := by
  by_cases hs : seg = []
  · rw [hnil hs, hs]
    exact ⟨fuel, by simpa using hfuel, rfl⟩
  · have hpos : 0 < seg.length := List.length_pos.mpr hs
    obtain ⟨f, rfl⟩ : ∃ f, fuel = f + 1 := ⟨fuel - 1, by omega⟩
    refine ⟨f, by omega, ?_⟩
    rw [Unmarshal.loop, hstep hs]

/-- The loop of `Unmarshal` at the end of the input. -/
theorem Unmarshal_loop_end (fuel : Nat) (m : Validator) (dAtA : List Nat)
    (hfuel : 1 ≤ fuel) : Unmarshal.loop fuel m dAtA dAtA.length = (m, .ok) := by
  obtain ⟨f, rfl⟩ : ∃ f, fuel = f + 1 := ⟨fuel - 1, by omega⟩
  rw [Unmarshal.loop]
  simp [Unmarshal.step]

/-- The wire form of a string field is empty exactly for the empty string. -/
theorem encString_eq_nil (tag : Nat) (str : List Nat) : encString tag str = [] ↔ str = [] := by
  cases str with
  | nil => simp [encString]
  | cons a t => simp [encString]

/-- The wire form of a number field is empty exactly for 0. -/
theorem encNumber_eq_nil (tag : Nat) (x : Int) : encNumber tag x = [] ↔ x = 0 := by
  by_cases hx : x = 0 <;> simp [encNumber, hx]

/-- Decoding the wire form of a message into the empty message gives the
message back. -/
theorem Unmarshal_encode (m : Validator) (h4 : isInt32 m.CommissionRate)
    (h5 : isInt32 m.DelegationAmt) (hlen : m.encode.length < 2 ^ 63) :
    Validator.empty.Unmarshal m.encode = (m, .ok) := by
  obtain ⟨name, address, status, rate, amt⟩ := m
  simp only at h4 h5
  generalize hd : Validator.encode ⟨name, address, status, rate, amt⟩ = d at hlen ⊢
  have hd0 : d.drop 0 = encString 0xa name ++ (encString 0x12 address ++
      (encString 0x1a status ++ (encNumber 0x20 rate ++ (encNumber 0x28 amt ++ [])))) := by
    rw [← hd]; simp [Validator.encode]
  obtain ⟨hd1, hl1⟩ := drop_add_of_drop d _ _ 0 (by omega) hd0
  obtain ⟨hd2, hl2⟩ := drop_add_of_drop d _ _ _ (by omega) hd1
  obtain ⟨hd3, hl3⟩ := drop_add_of_drop d _ _ _ (by omega) hd2
  obtain ⟨hd4, hl4⟩ := drop_add_of_drop d _ _ _ (by omega) hd3
  obtain ⟨hd5, hl5⟩ := drop_add_of_drop d _ _ _ (by omega) hd4
  simp only [List.length_append, List.length_nil] at hl1 hl2 hl3 hl4 hl5
  -- the five segments, one iteration each
  obtain ⟨f1, hf1, e1⟩ := Unmarshal_loop_segment (d.length + 1) Validator.empty
    ⟨name, [], [], 0, 0⟩ d (encString 0xa name) 0
    (by
      intro hne
      have hs : name.length > 0 :=
        List.length_pos.mpr (fun h => hne ((encString_eq_nil _ _).mpr h))
      obtain ⟨a, b⟩ := Unmarshal_step_string Validator.empty d _ name 0 0xa 1 (by decide) hs hd0
        hlen (by decide) (by decide) (by decide)
      rw [a, Unmarshal_field_Name, b]; rfl)
    (by intro h; rw [(encString_eq_nil _ _).mp h]; rfl) (by omega) (by omega)
  obtain ⟨f2, hf2, e2⟩ := Unmarshal_loop_segment f1 ⟨name, [], [], 0, 0⟩
    ⟨name, address, [], 0, 0⟩ d (encString 0x12 address) _
    (by
      intro hne
      have hs : address.length > 0 :=
        List.length_pos.mpr (fun h => hne ((encString_eq_nil _ _).mpr h))
      obtain ⟨a, b⟩ := Unmarshal_step_string ⟨name, [], [], 0, 0⟩ d _ address _ 0x12 2
        (by decide) hs hd1 hlen (by decide) (by decide) (by decide)
      rw [a, Unmarshal_field_Address, b])
    (by intro h; rw [(encString_eq_nil _ _).mp h]) hf1 (by omega)
  obtain ⟨f3, hf3, e3⟩ := Unmarshal_loop_segment f2 ⟨name, address, [], 0, 0⟩
    ⟨name, address, status, 0, 0⟩ d (encString 0x1a status) _
    (by
      intro hne
      have hs : status.length > 0 :=
        List.length_pos.mpr (fun h => hne ((encString_eq_nil _ _).mpr h))
      obtain ⟨a, b⟩ := Unmarshal_step_string ⟨name, address, [], 0, 0⟩ d _ status _ 0x1a 3
        (by decide) hs hd2 hlen (by decide) (by decide) (by decide)
      rw [a, Unmarshal_field_Status, b])
    (by intro h; rw [(encString_eq_nil _ _).mp h]) hf2 (by omega)
  obtain ⟨f4, hf4, e4⟩ := Unmarshal_loop_segment f3 ⟨name, address, status, 0, 0⟩
    ⟨name, address, status, rate, 0⟩ d (encNumber 0x20 rate) _
    (by
      intro hne
      have hx : rate ≠ 0 := fun h => hne ((encNumber_eq_nil _ _).mpr h)
      obtain ⟨a, b⟩ := Unmarshal_step_number ⟨name, address, status, 0, 0⟩ d _ rate _ 0x20 4
        (by decide) hx hd3 (by decide) (by decide) (by decide)
      rw [a, Unmarshal_field_CommissionRate, b]
      simp only [wrapInt32_toUint64 rate h4])
    (by intro h; rw [(encNumber_eq_nil _ _).mp h]) hf3 (by omega)
  obtain ⟨f5, hf5, e5⟩ := Unmarshal_loop_segment f4 ⟨name, address, status, rate, 0⟩
    ⟨name, address, status, rate, amt⟩ d (encNumber 0x28 amt) _
    (by
      intro hne
      have hx : amt ≠ 0 := fun h => hne ((encNumber_eq_nil _ _).mpr h)
      obtain ⟨a, b⟩ := Unmarshal_step_number ⟨name, address, status, rate, 0⟩ d _ amt _ 0x28 5
        (by decide) hx hd4 (by decide) (by decide) (by decide)
      rw [a, Unmarshal_field_DelegationAmt, b]
      simp only [wrapInt32_toUint64 amt h5])
    (by intro h; rw [(encNumber_eq_nil _ _).mp h]) hf4 (by omega)
  have hend : 0 + (encString 0xa name).length + (encString 0x12 address).length +
      (encString 0x1a status).length + (encNumber 0x20 rate).length +
      (encNumber 0x28 amt).length = d.length := by omega
  rw [Validator.Unmarshal, e1, e2, e3, e4, e5, hend]
  exact Unmarshal_loop_end f5 _ d (by omega)

/-- The varint of a number consists of bytes. -/
theorem isBytes_varintBytes (v : Nat) : isBytes (varintBytes v) := by
  induction v using Nat.strong_induction_on with
  | _ v ih =>
    by_cases h : v < 128
    · rw [varintBytes_lt v h]
      intro b hb
      simp only [List.mem_singleton] at hb
      omega
    · rw [varintBytes_ge v (by omega)]
      intro b hb
      rcases List.mem_cons.mp hb with rfl | hb
      · omega
      · exact ih (v / 128) (Nat.div_lt_self (by omega) (by decide)) b hb

/-- Byte strings one after the other. -/
theorem isBytes_append (a b : List Nat) (ha : isBytes a) (hb : isBytes b) : isBytes (a ++ b) := by
  intro x hx
  rcases List.mem_append.mp hx with h | h
  · exact ha x h
  · exact hb x h

/-- The wire form of a string field consists of bytes. -/
theorem isBytes_encString (tag : Nat) (str : List Nat) (htag : tag < 256) (hs : isBytes str) :
    isBytes (encString tag str) := by
  unfold encString
  split_ifs
  · intro x hx
    rcases List.mem_cons.mp hx with rfl | hx
    · exact htag
    · exact isBytes_append _ _ (isBytes_varintBytes _) hs x hx
  · intro x hx; cases hx

/-- The wire form of a number field consists of bytes. -/
theorem isBytes_encNumber (tag : Nat) (x : Int) (htag : tag < 256) :
    isBytes (encNumber tag x) := by
  unfold encNumber
  split_ifs
  · intro b hb
    rcases List.mem_cons.mp hb with rfl | hb
    · exact htag
    · exact isBytes_varintBytes _ b hb
  · intro b hb; cases hb

/-- The wire form of a well-formed message consists of bytes. -/
theorem isBytes_encode (m : Validator) (hw : m.wellFormed) : isBytes m.encode := by
  obtain ⟨h1, h2, h3, _, _⟩ := hw
  unfold Validator.encode
  exact isBytes_append _ _ (isBytes_encString _ _ (by decide) h1)
    (isBytes_append _ _ (isBytes_encString _ _ (by decide) h2)
      (isBytes_append _ _ (isBytes_encString _ _ (by decide) h3)
        (isBytes_append _ _ (isBytes_encNumber _ _ (by decide)) (isBytes_encNumber _ _ (by decide)))))

/-- The varint of a `uint64` has at most ten bytes. -/
theorem sovValidator_le (v : Nat) (hv : v < 2 ^ 64) : sovValidator v ≤ 10 := by
  have h1 : v ||| 1 < 2 ^ 64 := Nat.or_lt_two_pow hv (by decide)
  have h2 : Nat.size (v ||| 1) ≤ 64 := Nat.size_le.mpr h1
  unfold sovValidator Len64
  omega

/-- The size of a message is at most the length of its strings and 55 bytes
more. -/
theorem Size_le (m : Validator)
    (hlen : m.Name.length + m.Address.length + m.Status.length < 2 ^ 62) :
    m.Size ≤ m.Name.length + m.Address.length + m.Status.length + 55 := by
  have a1 := sovValidator_le m.Name.length (by omega)
  have a2 := sovValidator_le m.Address.length (by omega)
  have a3 := sovValidator_le m.Status.length (by omega)
  have a4 := sovValidator_le (toUint64 m.CommissionRate) (by unfold toUint64; omega)
  have a5 := sovValidator_le (toUint64 m.DelegationAmt) (by unfold toUint64; omega)
  simp only [Validator.Size]
  split_ifs <;> omega

/-- C30: for every message whose strings are byte strings of a total length
below `2 ^ 62` and whose numbers are `int32` values, negative ones included,
`Marshal` returns a byte string, and `Unmarshal` of that byte string into the
empty message returns `nil` and leaves the message equal to the one that was
marshalled. -/
theorem Validator_Marshal_Unmarshal_roundtrip (m : Validator) (hw : m.wellFormed)
    (hlen : m.Name.length + m.Address.length + m.Status.length < 2 ^ 62) :
    ∃ bz, m.Marshal = .ok bz ∧ isBytes bz ∧ Validator.empty.Unmarshal bz = (m, .ok) := by
  have hsize := Size_le m hlen
  rw [Size_eq_encode_length] at hsize
  exact ⟨m.encode, Marshal_eq_encode m, isBytes_encode m hw,
    Unmarshal_encode m hw.2.2.2.1 hw.2.2.2.2 (by omega)⟩

theorem Validator_Marshal_Unmarshal_roundtrip_witness :
    sampleValidator.wellFormed ∧
    sampleValidator.Name.length + sampleValidator.Address.length +
      sampleValidator.Status.length < 2 ^ 62 ∧
    ∃ bz, sampleValidator.Marshal = .ok bz ∧ isBytes bz ∧
      Validator.empty.Unmarshal bz = (sampleValidator, .ok) :=
  ⟨by simp [Validator.wellFormed, isBytes, isInt32, sampleValidator], by decide,
    Validator_Marshal_Unmarshal_roundtrip sampleValidator
      (by simp [Validator.wellFormed, isBytes, isInt32, sampleValidator]) (by decide)⟩

/-! ## Validator messages: the decoder on arbitrary input -/

/-- The varint loop of a `uint64` never reads outside the input: it returns an
error, or a value with an index that is past the start and within the
input. -/
theorem decodeUint64_safe (dAtA : List Nat) :
    ∀ (n shift i acc : Nat), 70 - shift ≤ n →
      (∃ e, decodeUint64 dAtA i shift acc = .fail e) ∨
      ∃ r j, decodeUint64 dAtA i shift acc = .ok r j ∧ i < j ∧ j ≤ dAtA.length := by
  intro n
  induction n with
  | zero =>
    intro shift i acc hn
    rw [decodeUint64]
    have : shift ≥ 64 := by omega
    simp [this]
  | succ n ih =>
    intro shift i acc hn
    rw [decodeUint64]
    by_cases h1 : shift ≥ 64
    · simp [h1]
    by_cases h2 : i ≥ dAtA.length
    · simp [h1, h2]
    have hb : dAtA[i]? = some (dAtA[i]) := List.getElem?_eq_getElem (by omega)
    simp only [h1, h2, if_false, hb]
    by_cases h3 : dAtA[i] < 0x80
    · simp only [h3, if_true]
      exact Or.inr ⟨_, _, rfl, by omega, by omega⟩
    · simp only [h3, if_false]
      rcases ih (shift + 7) (i + 1) (acc ||| (dAtA[i] &&& 0x7F) <<< shift % 2 ^ 64) (by omega)
        with ⟨e, he⟩ | ⟨r, j, hj, h4, h5⟩
      · exact Or.inl ⟨e, he⟩
      · exact Or.inr ⟨r, j, hj, by omega, h5⟩

/-- The varint loop of an `int32` field never reads outside the input. -/
theorem decodeInt32_safe (dAtA : List Nat) :
    ∀ (n shift i acc : Nat), 70 - shift ≤ n →
      (∃ e, (decodeInt32 dAtA i shift acc).1 = .fail e) ∨
      ∃ r j, (decodeInt32 dAtA i shift acc).1 = .ok r j ∧ i < j ∧ j ≤ dAtA.length := by
  intro n
  induction n with
  | zero =>
    intro shift i acc hn
    rw [decodeInt32]
    have : shift ≥ 64 := by omega
    simp [this]
  | succ n ih =>
    intro shift i acc hn
    rw [decodeInt32]
    by_cases h1 : shift ≥ 64
    · simp [h1]
    by_cases h2 : i ≥ dAtA.length
    · simp [h1, h2]
    have hb : dAtA[i]? = some (dAtA[i]) := List.getElem?_eq_getElem (by omega)
    simp only [h1, h2, if_false, hb]
    by_cases h3 : dAtA[i] < 0x80
    · simp only [h3, if_true]
      exact Or.inr ⟨_, _, rfl, by omega, by omega⟩
    · simp only [h3, if_false]
      rcases ih (shift + 7) (i + 1) (acc ||| (dAtA[i] &&& 0x7F) <<< shift % 2 ^ 32) (by omega)
        with ⟨e, he⟩ | ⟨r, j, hj, h4, h5⟩
      · exact Or.inl ⟨e, he⟩
      · exact Or.inr ⟨r, j, hj, by omega, h5⟩

/-- The varint loop of `skipValidator` never reads outside the input. -/
theorem skipValidator_varint_safe (dAtA : List Nat) :
    ∀ (n shift i : Nat), 70 - shift ≤ n →
      (∃ e, skipValidator.varint dAtA i shift = .fail e) ∨
      ∃ j, skipValidator.varint dAtA i shift = .ok () j ∧ i < j ∧ j ≤ dAtA.length := by
  intro n
  induction n with
  | zero =>
    intro shift i hn
    rw [skipValidator.varint]
    have : shift ≥ 64 := by omega
    simp [this]
  | succ n ih =>
    intro shift i hn
    rw [skipValidator.varint]
    by_cases h1 : shift ≥ 64
    · simp [h1]
    by_cases h2 : i ≥ dAtA.length
    · simp [h1, h2]
    have hb : dAtA[i]? = some (dAtA[i]) := List.getElem?_eq_getElem (by omega)
    simp only [h1, h2, if_false, hb]
    by_cases h3 : dAtA[i] < 0x80
    · simp only [h3, if_true]
      exact Or.inr ⟨_, rfl, by omega, by omega⟩
    · simp only [h3, if_false]
      rcases ih (shift + 7) (i + 1) (by omega) with ⟨e, he⟩ | ⟨j, hj, h4, h5⟩
      · exact Or.inl ⟨e, he⟩
      · exact Or.inr ⟨j, hj, by omega, h5⟩

/-- The range of `wrapInt64`. -/
theorem wrapInt64_range (x : Int) : -2 ^ 63 ≤ wrapInt64 x ∧ wrapInt64 x < 2 ^ 63 := by
  unfold wrapInt64; omega

/-- A sum of two numbers below `2 ^ 63` that does not wrap to a negative
number does not wrap. -/
theorem wrapInt64_add_nonneg (a b : Int) (ha : 0 ≤ a ∧ a < 2 ^ 63) (hb : 0 ≤ b ∧ b < 2 ^ 63)
    (h : ¬ wrapInt64 (a + b) < 0) : wrapInt64 (a + b) = a + b := by
  unfold wrapInt64 at h ⊢; omega

/-- Reading a string never reads or slices outside the input. -/
theorem readString_safe (dAtA : List Nat) (i : Nat) (hlen : dAtA.length < 2 ^ 63) :
    (∃ e, Unmarshal.readString dAtA i = .fail e) ∨
    ∃ str j, Unmarshal.readString dAtA i = .ok str j ∧ i < j ∧ j ≤ dAtA.length := by
  unfold Unmarshal.readString
  rcases decodeUint64_safe dAtA 70 0 i 0 (by omega) with ⟨e, he⟩ | ⟨r, j, hj, h4, h5⟩
  · rw [he]; exact Or.inl ⟨e, rfl⟩
  · rw [hj]
    simp only
    have hr := wrapInt64_range r
    by_cases c1 : wrapInt64 r < 0
    · simp [c1]
    by_cases c2 : wrapInt64 ((j : Int) + wrapInt64 r) < 0
    · simp [c1, c2]
    by_cases c3 : wrapInt64 ((j : Int) + wrapInt64 r) > dAtA.length
    · simp [c1, c2, c3]
    have hw := wrapInt64_add_nonneg j (wrapInt64 r) ⟨by omega, by omega⟩ ⟨by omega, hr.2⟩ c2
    have c4 : ¬ ¬ ((j : Int) ≤ wrapInt64 ((j : Int) + wrapInt64 r) ∧
        wrapInt64 ((j : Int) + wrapInt64 r) ≤ dAtA.length) := by
      rw [hw] at c3 ⊢; omega
    simp only [c1, c2, c3, c4, if_false]
    refine Or.inr ⟨_, _, rfl, ?_, ?_⟩
    · rw [hw] at c3 ⊢; omega
    · omega

/-- The `switch wireType` of `skipValidator` never reads outside the input: it
returns an error, or an index that is negative or not before the one it
started from. -/
theorem skipValidator_switch_safe (dAtA : List Nat) (i depth wireType : Nat)
    (hlen : dAtA.length < 2 ^ 63) (hi : i ≤ dAtA.length) :
    (∃ e, skipValidator.switch dAtA i depth wireType = .error (.fail e)) ∨
    ∃ j d, skipValidator.switch dAtA i depth wireType = .ok (j, d) ∧
      (j < 0 ∨ (i : Int) ≤ j) ∧ j < 2 ^ 63 := by
  unfold skipValidator.switch
  split
  · rcases skipValidator_varint_safe dAtA 70 0 i (by omega) with ⟨e, he⟩ | ⟨j, hj, h4, h5⟩
    · rw [he]; exact Or.inl ⟨e, rfl⟩
    · rw [hj]; exact Or.inr ⟨_, _, rfl, Or.inr (by omega), by omega⟩
  · have hr := wrapInt64_range ((i : Int) + 8)
    refine Or.inr ⟨_, _, rfl, ?_, hr.2⟩
    by_cases c : wrapInt64 ((i : Int) + 8) < 0
    · exact Or.inl c
    · right
      have := wrapInt64_add_nonneg i 8 ⟨by omega, by omega⟩ ⟨by omega, by omega⟩ c
      omega
  · rcases decodeUint64_safe dAtA 70 0 i 0 (by omega) with ⟨e, he⟩ | ⟨r, j, hj, h4, h5⟩
    · rw [he]; exact Or.inl ⟨e, rfl⟩
    · rw [hj]
      simp only
      have hr := wrapInt64_range r
      by_cases c1 : wrapInt64 r < 0
      · simp [c1]
      simp only [c1, if_false]
      have hr2 := wrapInt64_range ((j : Int) + wrapInt64 r)
      refine Or.inr ⟨_, _, rfl, ?_, hr2.2⟩
      by_cases c : wrapInt64 ((j : Int) + wrapInt64 r) < 0
      · exact Or.inl c
      · right
        have := wrapInt64_add_nonneg j (wrapInt64 r) ⟨by omega, by omega⟩ ⟨by omega, hr.2⟩ c
        omega
  · exact Or.inr ⟨_, _, rfl, Or.inr (by omega), by omega⟩
  · by_cases c : depth = 0
    · simp [c]
    · simp only [c, if_false]
      exact Or.inr ⟨_, _, rfl, Or.inr (by omega), by omega⟩
  · have hr := wrapInt64_range ((i : Int) + 4)
    refine Or.inr ⟨_, _, rfl, ?_, hr.2⟩
    by_cases c : wrapInt64 ((i : Int) + 4) < 0
    · exact Or.inl c
    · right
      have := wrapInt64_add_nonneg i 4 ⟨by omega, by omega⟩ ⟨by omega, by omega⟩ c
      omega
  · exact Or.inl ⟨_, rfl⟩

/-- The loop of `skipValidator` with enough budget returns an error or a count
past the index it started from. -/
theorem skipValidator_loop_safe (dAtA : List Nat) (hlen : dAtA.length < 2 ^ 63) :
    ∀ (fuel i depth : Nat), dAtA.length - i + 1 ≤ fuel →
      (∃ e, skipValidator.loop fuel dAtA i depth = .fail e) ∨
      ∃ n, skipValidator.loop fuel dAtA i depth = .ok n ∧ i < n ∧ n < 2 ^ 63 := by
  intro fuel
  induction fuel with
  | zero => intro i depth h; omega
  | succ fuel ih =>
    intro i depth hfuel
    rw [skipValidator.loop]
    by_cases h1 : i < dAtA.length
    · have n1 : ¬ ¬ (i < dAtA.length) := by omega
      simp only [n1, if_false]
      rcases decodeUint64_safe dAtA 70 0 i 0 (by omega) with ⟨e, he⟩ | ⟨r, j, hj, h4, h5⟩
      · rw [he]; exact Or.inl ⟨e, rfl⟩
      · rw [hj]
        simp only
        rcases skipValidator_switch_safe dAtA j depth (r &&& 0x7) hlen h5 with
          ⟨e, he⟩ | ⟨k, d, hk, h6, h7⟩
        · rw [he]; exact Or.inl ⟨e, rfl⟩
        · rw [hk]
          simp only
          by_cases c1 : k < 0
          · simp [c1]
          simp only [c1, if_false]
          by_cases c2 : d = 0
          · simp only [c2, if_true]
            exact Or.inr ⟨_, rfl, by omega, by omega⟩
          · simp only [c2, if_false]
            rcases ih k.toNat d (by omega) with ⟨e, he⟩ | ⟨n, hn, h8, h9⟩
            · exact Or.inl ⟨e, he⟩
            · exact Or.inr ⟨n, hn, by omega, h9⟩
    · simp [h1]

/-- The function `skipValidator` returns an error or a positive count. -/
theorem skipValidator_safe (dAtA : List Nat) (hlen : dAtA.length < 2 ^ 63) :
    (∃ e, skipValidator dAtA = .fail e) ∨
    ∃ n, skipValidator dAtA = .ok n ∧ 0 < n ∧ n < 2 ^ 63 :=
  skipValidator_loop_safe dAtA hlen (dAtA.length + 1) 0 0 (by omega)

/-- A string case of the `switch fieldNum` returns an error or goes on at an
index within the input. -/
theorem field_string_safe (m : Validator) (dAtA : List Nat) (pre i wireType : Nat)
    (hlen : dAtA.length < 2 ^ 63) (hpre : pre < i) (msg : String) (set : List Nat → Validator)
    :
    (∃ r e, (if wireType ≠ 2 then
        (.error (m, .error (.Errorf msg)) : Except (Validator × UnmarshalOutcome) (Validator × Nat))
      else
        match Unmarshal.readString dAtA i with
        | .fail e => .error (m, .error e)
        | .panic => .error (m, .panic)
        | .ok str iNdEx => .ok (set str, iNdEx)) = .error (r, .error e)) ∨
    ∃ r j, (if wireType ≠ 2 then
        (.error (m, .error (.Errorf msg)) : Except (Validator × UnmarshalOutcome) (Validator × Nat))
      else
        match Unmarshal.readString dAtA i with
        | .fail e => .error (m, .error e)
        | .panic => .error (m, .panic)
        | .ok str iNdEx => .ok (set str, iNdEx)) = .ok (r, j) ∧ pre < j ∧ j ≤ dAtA.length := by
  by_cases hw : wireType ≠ 2
  · rw [if_pos hw]
    exact Or.inl ⟨_, _, rfl⟩
  · rw [if_neg hw]
    rcases readString_safe dAtA i hlen with ⟨e, he⟩ | ⟨str, j, hj, h1, h2⟩
    · rw [he]; exact Or.inl ⟨_, _, rfl⟩
    · rw [hj]; exact Or.inr ⟨_, _, rfl, by omega, h2⟩

/-- A number case of the `switch fieldNum` returns an error or goes on at an
index within the input. -/
theorem field_number_safe (m : Validator) (dAtA : List Nat) (pre i wireType : Nat)
    (hpre : pre < i) (msg : String) (set : Nat → Validator) :
    (∃ r e, (if wireType ≠ 0 then
        (.error (m, .error (.Errorf msg)) : Except (Validator × UnmarshalOutcome) (Validator × Nat))
      else
        match decodeInt32 dAtA i 0 0 with
        | (.fail e, acc) => .error (set acc, .error e)
        | (.panic, acc) => .error (set acc, .panic)
        | (.ok _ iNdEx, acc) => .ok (set acc, iNdEx)) = .error (r, .error e)) ∨
    ∃ r j, (if wireType ≠ 0 then
        (.error (m, .error (.Errorf msg)) : Except (Validator × UnmarshalOutcome) (Validator × Nat))
      else
        match decodeInt32 dAtA i 0 0 with
        | (.fail e, acc) => .error (set acc, .error e)
        | (.panic, acc) => .error (set acc, .panic)
        | (.ok _ iNdEx, acc) => .ok (set acc, iNdEx)) = .ok (r, j) ∧ pre < j ∧ j ≤ dAtA.length := by
  by_cases hw : wireType ≠ 0
  · rw [if_pos hw]
    exact Or.inl ⟨_, _, rfl⟩
  · rw [if_neg hw]
    rcases hd : decodeInt32 dAtA i 0 0 with ⟨res, acc⟩
    rcases decodeInt32_safe dAtA 70 0 i 0 (by omega) with ⟨e, he⟩ | ⟨r, j, hj, h1, h2⟩
    · rw [hd] at he; simp only at he; subst he
      exact Or.inl ⟨_, _, rfl⟩
    · rw [hd] at hj; simp only at hj; subst hj
      exact Or.inr ⟨_, _, rfl, by omega, h2⟩

/-- The `switch fieldNum` of `Unmarshal` never reads or slices outside the
input: it returns an error, or goes on at an index past the start of the field
and within the input. -/
theorem Unmarshal_field_safe (m : Validator) (dAtA : List Nat) (pre i : Nat) (fieldNum : Int)
    (wireType : Nat) (hlen : dAtA.length < 2 ^ 63) (hpre : pre < i) (hi : i ≤ dAtA.length) :
    (∃ r e, Unmarshal.field m dAtA pre i fieldNum wireType = .error (r, .error e)) ∨
    ∃ r j, Unmarshal.field m dAtA pre i fieldNum wireType = .ok (r, j) ∧
      pre < j ∧ j ≤ dAtA.length := by
  unfold Unmarshal.field
  split
  · exact field_string_safe m dAtA pre i wireType hlen hpre _ (fun str => { m with Name := str })
  · exact field_string_safe m dAtA pre i wireType hlen hpre _ (fun str => { m with Address := str })
  · exact field_string_safe m dAtA pre i wireType hlen hpre _ (fun str => { m with Status := str })
  · exact field_number_safe m dAtA pre i wireType hpre _
      (fun acc => { m with CommissionRate := wrapInt32 acc })
  · exact field_number_safe m dAtA pre i wireType hpre _
      (fun acc => { m with DelegationAmt := wrapInt32 acc })
  · have c0 : ¬ pre > dAtA.length := by omega
    simp only [c0, if_false]
    have hl : (dAtA.drop pre).length < 2 ^ 63 := by rw [List.length_drop]; omega
    rcases skipValidator_safe (dAtA.drop pre) hl with ⟨e, he⟩ | ⟨n, hn, h1, h2⟩
    · rw [he]; exact Or.inl ⟨_, _, rfl⟩
    · rw [hn]
      simp only
      by_cases c1 : wrapInt64 ((pre : Int) + (n : Int)) < 0
      · simp only [c1, if_true]; exact Or.inl ⟨_, _, rfl⟩
      by_cases c2 : wrapInt64 ((pre : Int) + (n : Int)) > dAtA.length
      · simp only [c1, c2, if_true, if_false]; exact Or.inl ⟨_, _, rfl⟩
      simp only [c1, c2, if_false]
      have hw := wrapInt64_add_nonneg pre n ⟨by omega, by omega⟩ ⟨by omega, by omega⟩ c1
      refine Or.inr ⟨_, _, rfl, ?_, ?_⟩
      · rw [hw]; omega
      · omega

/-- One iteration of `Unmarshal` ends the call with `nil` or an error, or goes
on at a later index within the input. -/
theorem Unmarshal_step_safe (m : Validator) (dAtA : List Nat) (i : Nat)
    (hlen : dAtA.length < 2 ^ 63) :
    (∃ r, Unmarshal.step m dAtA i = .error (r, .ok)) ∨
    (∃ r e, Unmarshal.step m dAtA i = .error (r, .error e)) ∨
    ∃ r j, Unmarshal.step m dAtA i = .ok (r, j) ∧ i < j ∧ j ≤ dAtA.length := by
  unfold Unmarshal.step
  by_cases h1 : i < dAtA.length
  · have n1 : ¬ ¬ (i < dAtA.length) := by omega
    simp only [n1, if_false]
    rcases decodeUint64_safe dAtA 70 0 i 0 (by omega) with ⟨e, he⟩ | ⟨wire, j, hj, h2, h3⟩
    · rw [he]; exact Or.inr (Or.inl ⟨_, _, rfl⟩)
    · rw [hj]
      simp only
      by_cases c1 : wire &&& 0x7 = 4
      · rw [if_pos c1]; exact Or.inr (Or.inl ⟨_, _, rfl⟩)
      rw [if_neg c1]
      by_cases c2 : wrapInt32 ((wire >>> 3 : Nat) : Int) ≤ 0
      · rw [if_pos c2]; exact Or.inr (Or.inl ⟨_, _, rfl⟩)
      rw [if_neg c2]
      rcases Unmarshal_field_safe m dAtA i j (wrapInt32 ((wire >>> 3 : Nat) : Int))
        (wire &&& 0x7) hlen h2 h3 with ⟨r, e, he⟩ | ⟨r, k, hk, h4, h5⟩
      · exact Or.inr (Or.inl ⟨r, e, he⟩)
      · exact Or.inr (Or.inr ⟨r, k, hk, h4, h5⟩)
  · rw [if_pos h1]
    by_cases h2 : i > dAtA.length
    · rw [if_pos h2]; exact Or.inr (Or.inl ⟨_, _, rfl⟩)
    · rw [if_neg h2]; exact Or.inl ⟨_, rfl⟩

/-- The loop of `Unmarshal` with enough budget ends with `nil` or an error. -/
theorem Unmarshal_loop_safe (dAtA : List Nat) (hlen : dAtA.length < 2 ^ 63) :
    ∀ (fuel : Nat) (m : Validator) (i : Nat), dAtA.length - i + 1 ≤ fuel →
      (Unmarshal.loop fuel m dAtA i).2 = .ok ∨ ∃ e, (Unmarshal.loop fuel m dAtA i).2 = .error e := by
  intro fuel
  induction fuel with
  | zero => intro m i h; omega
  | succ fuel ih =>
    intro m i hfuel
    rw [Unmarshal.loop]
    rcases Unmarshal_step_safe m dAtA i hlen with ⟨r, hr⟩ | ⟨r, e, hr⟩ | ⟨r, j, hr, h1, h2⟩
    · rw [hr]; exact Or.inl rfl
    · rw [hr]; exact Or.inr ⟨e, rfl⟩
    · rw [hr]
      exact ih r j (by omega)

/-- C31: for every byte string, shorter than `2 ^ 63` bytes as every Go slice
is, and every message, `Unmarshal` ends by returning `nil` or an error: the
iteration budget of the model is never used up, and no index or slice
expression is out of range, whatever the input holds (truncated varints,
declared lengths beyond the end of the input, unknown fields, group wire
types). -/
theorem Unmarshal_returns (m : Validator) (dAtA : List Nat) (hlen : dAtA.length < 2 ^ 63) :
    (m.Unmarshal dAtA).2 = .ok ∨ ∃ e, (m.Unmarshal dAtA).2 = .error e :=
  Unmarshal_loop_safe dAtA hlen (dAtA.length + 1) m 0 (by omega)

theorem Unmarshal_returns_witness :
    [10, 5, 1].length < 2 ^ 63 ∧
    ((Validator.empty.Unmarshal [10, 5, 1]).2 = .ok ∨
      ∃ e, (Validator.empty.Unmarshal [10, 5, 1]).2 = .error e) :=
  ⟨by decide, Unmarshal_returns Validator.empty [10, 5, 1] (by decide)⟩

end Stride
